import Mathlib

/-!
Verification development for the `aws_idc_scim` package: a SCIM client and
reconciliation engine for the AWS IAM Identity Center directory.

The definitions below are a shallow embedding of `src/aws_idc_scim/models.py`
and `src/aws_idc_scim/client.py`.  Python dicts are modelled as association
lists with Python's insertion semantics (`pyDictInsert`: replace in place if
the key exists, else append), Python sets as duplicate-free lists in
insertion order (CPython's set iteration order is unspecified; every theorem
below depends only on membership, emptiness and cardinality of such sets),
exceptions as `Except String`, and the HTTP transport as oracle functions
supplied in an environment record, together with an explicit trace of the
calls issued.
-/

set_option maxRecDepth 100000

deriving instance DecidableEq for Except

namespace AwsIdcScim

/-! ## Python primitives -/

/-- Python `d[k] = v` on a dict: replace in place when the key exists,
otherwise append at the end. -/
def pyDictInsert {V : Type} (d : List (String × V)) (k : String) (v : V) :
    List (String × V) :=
  if d.any (fun p => p.1 = k) then
    d.map (fun p => if p.1 = k then (k, v) else p)
  else
    d ++ [(k, v)]

/-- Python `d.get(k)` on a dict (keys assumed unique, as produced by
`pyDictOf`/`pyDictInsert`). -/
def pyGet {V : Type} (d : List (String × V)) (k : String) : Option V :=
  (d.find? (fun p => p.1 = k)).map (fun p => p.2)

/-- Build a Python dict from a sequence of key/value pairs (later pairs
overwrite earlier ones, first insertion position is kept). -/
def pyDictOf {V : Type} (l : List (String × V)) : List (String × V) :=
  l.foldl (fun d p => pyDictInsert d p.1 p.2) []

/-- Python `s.add(x)` on a set, modelled as a duplicate-free list. -/
def pySetAdd (s : List String) (x : String) : List String :=
  if x ∈ s then s else s ++ [x]

/-- Python set difference `a - b` on sets modelled as duplicate-free lists. -/
def pySetDiff (a b : List String) : List String :=
  a.filter (fun x => ¬ x ∈ b)

/-- Python truthiness of an optional string (`None` and `""` are falsy). -/
def optTruthy : Option String → Bool
  | none => false
  | some s => s ≠ ""

/-! ## Dict value types used by the serializers

`to_dict` in `models.py` produces JSON-ish dicts of bounded depth; we give
them layered value types so that equality is decidable by derivation. -/

/-- A scalar dict value (string or boolean). -/
inductive SVal where
  | s : String → SVal
  | b : Bool → SVal
deriving DecidableEq, Repr

/-- A flat dict of scalars (name/email/phone/address/role/manager dicts). -/
abbrev SDict := List (String × SVal)

/-- A value inside the enterprise-extension dict: a scalar or the manager
sub-dict. -/
inductive MVal where
  | prim : SVal → MVal
  | sub : SDict → MVal
deriving DecidableEq, Repr

/-- The enterprise-extension dict. -/
abbrev MDict := List (String × MVal)

/-- A top-level value of a serialized user dict. -/
inductive FVal where
  | s : String → FVal
  | b : Bool → FVal
  | strList : List String → FVal
  | obj : SDict → FVal
  | objList : List SDict → FVal
  | ext : MDict → FVal
deriving DecidableEq, Repr

/-- A serialized user dict. -/
abbrev UDict := List (String × FVal)

/-! ## Resource model (`models.py`) -/

/-- `SCIMName`. -/
structure SCIMName where
  familyName : Option String := none
  givenName : Option String := none
  middleName : Option String := none
  honorificPrefix : Option String := none
  honorificSuffix : Option String := none
  formatted : Option String := none
deriving DecidableEq, Repr

/-- `SCIMName.to_dict`: only fields with a value are emitted. -/
def SCIMName.toDict (n : SCIMName) : SDict :=
  (match n.familyName with | some v => [("familyName", SVal.s v)] | none => []) ++
  (match n.givenName with | some v => [("givenName", SVal.s v)] | none => []) ++
  (match n.middleName with | some v => [("middleName", SVal.s v)] | none => []) ++
  (match n.honorificPrefix with | some v => [("honorificPrefix", SVal.s v)] | none => []) ++
  (match n.honorificSuffix with | some v => [("honorificSuffix", SVal.s v)] | none => []) ++
  (match n.formatted with | some v => [("formatted", SVal.s v)] | none => [])

/-- `SCIMEmail` (construction-validated: `value` must be non-empty). -/
structure SCIMEmail where
  value : String
  type : Option String := none
  primary : Option Bool := none
deriving DecidableEq, Repr

/-- `SCIMEmail.to_dict`. -/
def SCIMEmail.toDict (e : SCIMEmail) : SDict :=
  [("value", SVal.s e.value)] ++
  (match e.type with | some v => [("type", SVal.s v)] | none => []) ++
  (match e.primary with | some v => [("primary", SVal.b v)] | none => [])

/-- `SCIMPhoneNumber`. -/
structure SCIMPhoneNumber where
  value : String
  type : Option String := none
deriving DecidableEq, Repr

/-- `SCIMPhoneNumber.to_dict`. -/
def SCIMPhoneNumber.toDict (p : SCIMPhoneNumber) : SDict :=
  [("value", SVal.s p.value)] ++
  (match p.type with | some v => [("type", SVal.s v)] | none => [])

/-- `SCIMAddress`. -/
structure SCIMAddress where
  formatted : Option String := none
  streetAddress : Option String := none
  locality : Option String := none
  region : Option String := none
  postalCode : Option String := none
  country : Option String := none
deriving DecidableEq, Repr

/-- `SCIMAddress.to_dict`. -/
def SCIMAddress.toDict (a : SCIMAddress) : SDict :=
  (match a.formatted with | some v => [("formatted", SVal.s v)] | none => []) ++
  (match a.streetAddress with | some v => [("streetAddress", SVal.s v)] | none => []) ++
  (match a.locality with | some v => [("locality", SVal.s v)] | none => []) ++
  (match a.region with | some v => [("region", SVal.s v)] | none => []) ++
  (match a.postalCode with | some v => [("postalCode", SVal.s v)] | none => []) ++
  (match a.country with | some v => [("country", SVal.s v)] | none => [])

/-- `SCIMRole`. -/
structure SCIMRole where
  value : String
  type : Option String := none
  primary : Option Bool := none
deriving DecidableEq, Repr

/-- `SCIMRole.to_dict`. -/
def SCIMRole.toDict (r : SCIMRole) : SDict :=
  [("value", SVal.s r.value)] ++
  (match r.type with | some v => [("type", SVal.s v)] | none => []) ++
  (match r.primary with | some v => [("primary", SVal.b v)] | none => [])

/-- `SCIMManager` (construction-validated: `value` must be non-empty). -/
structure SCIMManager where
  value : String
  ref : Option String := none
deriving DecidableEq, Repr

/-- `SCIMManager.to_dict`. -/
def SCIMManager.toDict (m : SCIMManager) : SDict :=
  [("value", SVal.s m.value)] ++
  (match m.ref with | some v => [("$ref", SVal.s v)] | none => [])

/-- `SCIMEnterpriseUser`. -/
structure SCIMEnterpriseUser where
  employeeNumber : Option String := none
  costCenter : Option String := none
  organization : Option String := none
  division : Option String := none
  department : Option String := none
  manager : Option SCIMManager := none
deriving DecidableEq, Repr

/-- `SCIMEnterpriseUser.to_dict`. -/
def SCIMEnterpriseUser.toDict (e : SCIMEnterpriseUser) : MDict :=
  (match e.employeeNumber with | some v => [("employeeNumber", MVal.prim (SVal.s v))] | none => []) ++
  (match e.costCenter with | some v => [("costCenter", MVal.prim (SVal.s v))] | none => []) ++
  (match e.organization with | some v => [("organization", MVal.prim (SVal.s v))] | none => []) ++
  (match e.division with | some v => [("division", MVal.prim (SVal.s v))] | none => []) ++
  (match e.department with | some v => [("department", MVal.prim (SVal.s v))] | none => []) ++
  (match e.manager with | some m => [("manager", MVal.sub m.toDict)] | none => [])

/-- Schema identifier constants from `models.py`. -/
def ENTERPRISE_USER_SCHEMA : String :=
  "urn:ietf:params:scim:schemas:extension:enterprise:2.0:User"

def USER_SCHEMA : String := "urn:ietf:params:scim:schemas:core:2.0:User"

def GROUP_SCHEMA : String := "urn:ietf:params:scim:schemas:core:2.0:Group"

/-- `SCIMUser` (the dataclass fields; `_skip_validation` is represented by
which construction path is taken, see `SCIMUser.construct` vs
`SCIMUser.fromDict`). -/
structure SCIMUser where
  userName : String
  id : Option String := none
  externalId : Option String := none
  displayName : Option String := none
  nickName : Option String := none
  profileUrl : Option String := none
  title : Option String := none
  userType : Option String := none
  preferredLanguage : Option String := none
  locale : Option String := none
  timezone : Option String := none
  active : Option Bool := none
  name : Option SCIMName := none
  emails : Option (List SCIMEmail) := none
  phoneNumbers : Option (List SCIMPhoneNumber) := none
  addresses : Option (List SCIMAddress) := none
  roles : Option (List SCIMRole) := none
  enterprise : Option SCIMEnterpriseUser := none
deriving DecidableEq, Repr

/-- Python truthiness of an optional list (`None` and `[]` are falsy). -/
def listTruthy {α : Type} : Option (List α) → Bool
  | none => false
  | some l => !l.isEmpty

/-- `SCIMUser.to_dict(include_id, for_create)`. -/
def SCIMUser.toDict (u : SCIMUser) (includeId : Bool := false)
    (forCreate : Bool := false) : UDict :=
  [("userName", FVal.s u.userName)] ++
  (if forCreate then
    [("schemas", FVal.strList
      ([USER_SCHEMA] ++ (if u.enterprise.isSome then [ENTERPRISE_USER_SCHEMA] else [])))]
   else []) ++
  (match includeId, u.id with
   | true, some i => [("id", FVal.s i)]
   | _, _ => []) ++
  (match u.externalId with | some v => [("externalId", FVal.s v)] | none => []) ++
  (match u.displayName with | some v => [("displayName", FVal.s v)] | none => []) ++
  (match u.nickName with | some v => [("nickName", FVal.s v)] | none => []) ++
  (match u.profileUrl with | some v => [("profileUrl", FVal.s v)] | none => []) ++
  (match u.title with | some v => [("title", FVal.s v)] | none => []) ++
  (match u.userType with | some v => [("userType", FVal.s v)] | none => []) ++
  (match u.preferredLanguage with | some v => [("preferredLanguage", FVal.s v)] | none => []) ++
  (match u.locale with | some v => [("locale", FVal.s v)] | none => []) ++
  (match u.timezone with | some v => [("timezone", FVal.s v)] | none => []) ++
  (match u.active with | some v => [("active", FVal.b v)] | none => []) ++
  (match u.name with
   | some n => if n.toDict ≠ [] then [("name", FVal.obj n.toDict)] else []
   | none => []) ++
  (if listTruthy u.emails then
     [("emails", FVal.objList ((u.emails.getD []).map SCIMEmail.toDict))] else []) ++
  (if listTruthy u.phoneNumbers then
     [("phoneNumbers", FVal.objList ((u.phoneNumbers.getD []).map SCIMPhoneNumber.toDict))] else []) ++
  (if listTruthy u.addresses then
     [("addresses", FVal.objList ((u.addresses.getD []).map SCIMAddress.toDict))] else []) ++
  (if listTruthy u.roles then
     [("roles", FVal.objList ((u.roles.getD []).map SCIMRole.toDict))] else []) ++
  (match u.enterprise with
   | some e => if e.toDict ≠ [] then [(ENTERPRISE_USER_SCHEMA, FVal.ext e.toDict)] else []
   | none => [])

/-- `SCIMUser.__post_init__` when `_skip_validation` is false: the checks a
locally constructed record must pass, in source order. -/
def SCIMUser.validate (u : SCIMUser) : Except String Unit :=
  if u.userName = "" then .error "userName 是必填字段"
  else if ¬ listTruthy u.emails then .error "emails 是必填字段"
  else if (u.emails.getD []).length > 1 then .error "emails 只能有一个值 (AWS IDC 限制)"
  else if listTruthy u.phoneNumbers ∧ (u.phoneNumbers.getD []).length > 1 then
    .error "phoneNumbers 只能有一个值 (AWS IDC 限制)"
  else if listTruthy u.addresses ∧ (u.addresses.getD []).length > 1 then
    .error "addresses 只能有一个值 (AWS IDC 限制)"
  else .ok ()

/-- Local construction of a `SCIMUser` via the dataclass constructor:
`__post_init__` runs the validation and raises on failure. -/
def SCIMUser.construct (u : SCIMUser) : Except String SCIMUser := do
  u.validate
  pure u

/-- `SCIMGroupMember`. -/
structure SCIMGroupMember where
  value : String
  type : Option String := none
  ref : Option String := none
deriving DecidableEq, Repr

/-- `SCIMGroup`. -/
structure SCIMGroup where
  displayName : String
  id : Option String := none
  externalId : Option String := none
  members : Option (List SCIMGroupMember) := none
deriving DecidableEq, Repr

/-! ## Deserialization (`from_dict`)

Directory responses are raw JSON objects; we model the keys the parsers
read.  Key-present-with-value is `some`, key-absent is `none`. -/

structure RawEmail where
  value : Option String := none
  type : Option String := none
  primary : Option Bool := none
deriving DecidableEq, Repr

structure RawPhone where
  value : Option String := none
  type : Option String := none
deriving DecidableEq, Repr

structure RawAddress where
  formatted : Option String := none
  streetAddress : Option String := none
  locality : Option String := none
  region : Option String := none
  postalCode : Option String := none
  country : Option String := none
deriving DecidableEq, Repr

structure RawRole where
  value : Option String := none
  type : Option String := none
  primary : Option Bool := none
deriving DecidableEq, Repr

structure RawManager where
  value : Option String := none
  ref : Option String := none
deriving DecidableEq, Repr

structure RawName where
  familyName : Option String := none
  givenName : Option String := none
  middleName : Option String := none
  honorificPrefix : Option String := none
  honorificSuffix : Option String := none
  formatted : Option String := none
deriving DecidableEq, Repr

structure RawEnterprise where
  employeeNumber : Option String := none
  costCenter : Option String := none
  organization : Option String := none
  division : Option String := none
  department : Option String := none
  manager : Option RawManager := none
deriving DecidableEq, Repr

structure RawUser where
  id : Option String := none
  userName : Option String := none
  externalId : Option String := none
  displayName : Option String := none
  nickName : Option String := none
  profileUrl : Option String := none
  title : Option String := none
  userType : Option String := none
  preferredLanguage : Option String := none
  locale : Option String := none
  timezone : Option String := none
  active : Option Bool := none
  name : Option RawName := none
  emails : Option (List RawEmail) := none
  phoneNumbers : Option (List RawPhone) := none
  addresses : Option (List RawAddress) := none
  roles : Option (List RawRole) := none
  enterprise : Option RawEnterprise := none
deriving DecidableEq, Repr

/-- Python truthiness of a sub-dict under `data.get(...)`: absent or empty is
falsy. -/
def RawName.truthy (n : RawName) : Bool :=
  n.familyName.isSome || n.givenName.isSome || n.middleName.isSome ||
    n.honorificPrefix.isSome || n.honorificSuffix.isSome || n.formatted.isSome

def RawManager.truthy (m : RawManager) : Bool :=
  m.value.isSome || m.ref.isSome

def RawEnterprise.truthy (e : RawEnterprise) : Bool :=
  e.employeeNumber.isSome || e.costCenter.isSome || e.organization.isSome ||
    e.division.isSome || e.department.isSome || e.manager.isSome

/-- `SCIMEmail.from_dict`: `value` is read with default `""`, then the
dataclass `__post_init__` rejects a falsy value. -/
def SCIMEmail.fromDict (r : RawEmail) : Except String SCIMEmail :=
  let v := r.value.getD ""
  if v = "" then .error "email.value 是必填字段"
  else .ok { value := v, type := r.type, primary := r.primary }

/-- `SCIMPhoneNumber.from_dict`. -/
def SCIMPhoneNumber.fromDict (r : RawPhone) : Except String SCIMPhoneNumber :=
  let v := r.value.getD ""
  if v = "" then .error "phoneNumber.value 是必填字段"
  else .ok { value := v, type := r.type }

/-- `SCIMAddress.from_dict` (no required field). -/
def SCIMAddress.fromDict (r : RawAddress) : SCIMAddress :=
  { formatted := r.formatted, streetAddress := r.streetAddress,
    locality := r.locality, region := r.region,
    postalCode := r.postalCode, country := r.country }

/-- `SCIMRole.from_dict` (no validation in `SCIMRole`). -/
def SCIMRole.fromDict (r : RawRole) : SCIMRole :=
  { value := r.value.getD "", type := r.type, primary := r.primary }

/-- `SCIMManager.from_dict`: `value` defaults to `""` and the dataclass
rejects a falsy value. -/
def SCIMManager.fromDict (r : RawManager) : Except String SCIMManager :=
  let v := r.value.getD ""
  if v = "" then .error "manager.value 是必填字段"
  else .ok { value := v, ref := r.ref }

/-- `SCIMName.from_dict`. -/
def SCIMName.fromDict (r : RawName) : SCIMName :=
  { familyName := r.familyName, givenName := r.givenName,
    middleName := r.middleName, honorificPrefix := r.honorificPrefix,
    honorificSuffix := r.honorificSuffix, formatted := r.formatted }

/-- A Python list comprehension over a fallible element parser: the first
raising element aborts the whole comprehension. -/
def mapExcept {α β : Type} (f : α → Except String β) :
    List α → Except String (List β)
  | [] => .ok []
  | x :: xs => do
    let y ← f x
    let ys ← mapExcept f xs
    pure (y :: ys)

/-- The `manager` field of `SCIMEnterpriseUser.from_dict`: parsed only when
the sub-dict is truthy; parsing can itself raise. -/
def parseManager (o : Option RawManager) : Except String (Option SCIMManager) :=
  match o with
  | some m => if m.truthy then (SCIMManager.fromDict m).map some else pure none
  | none => pure none

/-- `SCIMEnterpriseUser.from_dict`. -/
def SCIMEnterpriseUser.fromDict (r : RawEnterprise) :
    Except String SCIMEnterpriseUser := do
  let manager ← parseManager r.manager
  pure { employeeNumber := r.employeeNumber, costCenter := r.costCenter,
         organization := r.organization, division := r.division,
         department := r.department, manager := manager }

/-- The `emails` field of `SCIMUser.from_dict`: `if data.get("emails"):`
guards on a truthy (present, non-empty) list. -/
def parseEmails (o : Option (List RawEmail)) :
    Except String (Option (List SCIMEmail)) :=
  match o with
  | some l => if l ≠ [] then (mapExcept SCIMEmail.fromDict l).map some else pure none
  | none => pure none

/-- The `phoneNumbers` field of `SCIMUser.from_dict`. -/
def parsePhones (o : Option (List RawPhone)) :
    Except String (Option (List SCIMPhoneNumber)) :=
  match o with
  | some l =>
    if l ≠ [] then (mapExcept SCIMPhoneNumber.fromDict l).map some else pure none
  | none => pure none

/-- The enterprise-extension field of `SCIMUser.from_dict`. -/
def parseEnterprise (o : Option RawEnterprise) :
    Except String (Option SCIMEnterpriseUser) :=
  match o with
  | some e => if e.truthy then (SCIMEnterpriseUser.fromDict e).map some else pure none
  | none => pure none

/-- `SCIMUser.from_dict`: parses an API response.  The user-level
`__post_init__` validation is skipped (`_skip_validation=True`), but the
nested multi-valued sub-object parsers can still raise. -/
def SCIMUser.fromDict (r : RawUser) : Except String SCIMUser := do
  let name := match r.name with
    | some n => if n.truthy then some (SCIMName.fromDict n) else none
    | none => none
  let emails ← parseEmails r.emails
  let phones ← parsePhones r.phoneNumbers
  let addresses := match r.addresses with
    | some l => if l ≠ [] then some (l.map SCIMAddress.fromDict) else none
    | none => none
  let roles := match r.roles with
    | some l => if l ≠ [] then some (l.map SCIMRole.fromDict) else none
    | none => none
  let enterprise ← parseEnterprise r.enterprise
  pure { id := r.id, userName := r.userName.getD "",
         externalId := r.externalId, displayName := r.displayName,
         nickName := r.nickName, profileUrl := r.profileUrl,
         title := r.title, userType := r.userType,
         preferredLanguage := r.preferredLanguage, locale := r.locale,
         timezone := r.timezone, active := r.active,
         name := name, emails := emails, phoneNumbers := phones,
         addresses := addresses, roles := roles, enterprise := enterprise }

/-! ## Structural diff (`SCIMClient._diff_dict`) -/

/-- The server-owned keys stripped before diffing. -/
def strippedKeys : List String := ["id", "schemas", "meta"]

/-- `_diff_dict`: strip server-owned keys from both dicts, then collect every
key whose values differ (absence counting as a distinct value).  CPython
iterates the key set in an unspecified order; we use first-occurrence order
over the concatenation, which agrees on membership and emptiness. -/
def diffDict (localD remoteD : UDict) : List String :=
  let l := localD.filter (fun p => ¬ p.1 ∈ strippedKeys)
  let r := remoteD.filter (fun p => ¬ p.1 ∈ strippedKeys)
  let allKeys := ((l ++ r).map (fun p => p.1)).dedup
  allKeys.filter (fun k => pyGet l k ≠ pyGet r k)

/-! ## Pagination (`SCIMClient._paginate`, `ListResponse.from_dict`) -/

/-- `SCIMClient.MAX_PAGE_SIZE`. -/
def MAX_PAGE_SIZE : Nat := 100

/-- A GET request to a listing endpoint: which query parameters were sent.
`cursor = none` means the parameter was omitted entirely; `cursor = some s`
means it was sent with value `s` (possibly empty). -/
structure Request where
  filter : Option String
  cursor : Option String
  count : Nat
deriving DecidableEq, Repr

/-- The raw JSON body of a listing response (the keys
`ListResponse.from_dict` reads). -/
structure RawListResponse (α : Type) where
  totalResults : Option Nat := none
  resources : Option (List α) := none
  nextCursorUpper : Option String := none
  nextCursorLower : Option String := none
  itemsPerPage : Option Nat := none
  startIndex : Option Nat := none
deriving Repr

/-- Python `a or b` on two optional strings (`None` and `""` are falsy). -/
def pyOrStr : Option String → Option String → Option String
  | some s, b => if s = "" then b else some s
  | none, b => b

/-- `ListResponse` after parsing. -/
structure ListResponse (α : Type) where
  total_results : Nat
  resources : List α
  next_cursor : Option String
  items_per_page : Option Nat
  start_index : Option Nat
deriving Repr

/-- `ListResponse.from_dict`: reads `nextCursor` or (falling back on a falsy
value) the lower-cased `nextcursor`, then normalizes an empty string to
absent. -/
def ListResponse.fromDict {α : Type} (d : RawListResponse α) : ListResponse α :=
  let nc0 := pyOrStr d.nextCursorUpper d.nextCursorLower
  let nc := if nc0 = some "" then none else nc0
  { total_results := d.totalResults.getD 0,
    resources := d.resources.getD [],
    next_cursor := nc,
    items_per_page := d.itemsPerPage,
    start_index := d.startIndex }

/-- The loop of `_paginate`, with fuel for the unbounded `while True`.
`cur` is the cursor parameter to send on this fetch (`none` = omitted). -/
def paginateGo {α : Type} (server : Request → RawListResponse α)
    (flt : Option String) : Nat → Option String → List α × List Request
  | 0, _ => ([], [])
  | fuel + 1, cur =>
    let req : Request := { filter := flt, cursor := cur, count := MAX_PAGE_SIZE }
    let resp := ListResponse.fromDict (server req)
    match resp.next_cursor with
    | none => (resp.resources, [req])
    | some c =>
      let rest := paginateGo server flt fuel (some c)
      (resp.resources ++ rest.1, req :: rest.2)

/-- `_paginate`: the first fetch sends an empty-string cursor parameter when
no filter is supplied, and omits the cursor parameter when one is. -/
def paginate {α : Type} (server : Request → RawListResponse α)
    (flt : Option String) (fuel : Nat) : List α × List Request :=
  paginateGo server flt fuel (if flt.isNone then some "" else none)

/-! ## Transport calls and traces -/

/-- `PatchOpType`. -/
inductive PatchOpType where
  | add
  | remove
deriving DecidableEq, Repr

/-- One transport call issued by the engine (membership queries are reads;
everything else mutates directory state). -/
inductive Call where
  | userGroupsQuery (userId : String)
  | createUser (userName : String)
  | putUser (userId : String) (userName : String)
  | deleteUser (userId : String)
  | createGroup (displayName : String)
  | patchGroup (groupId : String) (op : PatchOpType) (batch : List String)
  | deleteGroup (groupId : String)
deriving DecidableEq, Repr

/-- Whether a call mutates directory state. -/
def Call.isMutating : Call → Bool
  | .userGroupsQuery _ => false
  | _ => true

/-- Whether a call is a membership-containment query. -/
def Call.isMembershipQuery : Call → Bool
  | .userGroupsQuery _ => true
  | _ => false

/-- Whether a call deletes a record. -/
def Call.isDelete : Call → Bool
  | .deleteUser _ => true
  | .deleteGroup _ => true
  | _ => false

/-! ## Group member batching (`add_group_members`, `remove_group_members`) -/

/-- The batching loop `for i in range(0, len(user_ids), MAX_PAGE_SIZE)`:
consecutive slices of at most `MAX_PAGE_SIZE` elements. -/
def chunks100 : List String → List (List String)
  | [] => []
  | x :: xs =>
    (x :: xs).take MAX_PAGE_SIZE :: chunks100 ((x :: xs).drop MAX_PAGE_SIZE)
termination_by l => l.length
decreasing_by
  simp [MAX_PAGE_SIZE]
  omega

/-- Issue one patch call per batch, stopping at (but tracing) the first
failing call; `patchRes b = some msg` means the call for batch `b` fails
with message `msg`. -/
def patchBatches (gid : String) (op : PatchOpType)
    (patchRes : List String → Option String) :
    List (List String) → Except String Unit × List Call
  | [] => (.ok (), [])
  | b :: bs =>
    match patchRes b with
    | some msg => (.error msg, [.patchGroup gid op b])
    | none =>
      let rest := patchBatches gid op patchRes bs
      (rest.1, .patchGroup gid op b :: rest.2)

/-- `add_group_members`: an empty id list returns immediately; otherwise the
list is split into consecutive batches of at most 100 and one add patch is
issued per batch, in order. -/
def addGroupMembers (patchRes : List String → Option String)
    (gid : String) (userIds : List String) : Except String Unit × List Call :=
  if userIds = [] then (.ok (), [])
  else patchBatches gid .add patchRes (chunks100 userIds)

/-- `remove_group_members`: same structure, with one remove patch (one
operation per member id) per batch. -/
def removeGroupMembers (patchRes : List String → Option String)
    (gid : String) (userIds : List String) : Except String Unit × List Call :=
  if userIds = [] then (.ok (), [])
  else patchBatches gid .remove patchRes (chunks100 userIds)

/-! ## Sync results -/

/-- One entry of `SyncResult.details`, modelled as a record of optional dict
keys (an outer `none` means the key is absent). -/
structure Detail where
  idKey : Option (Option String) := none
  fields : Option (List String) := none
  added : Option (List (String × String)) := none
  removed : Option (List (String × String)) := none
  skipped : Option (List String) := none
deriving DecidableEq, Repr

/-- `SyncResult`. -/
structure SyncResult where
  created : List String := []
  updated : List String := []
  deleted : List String := []
  unchanged : List String := []
  errors : List String := []
  details : List (String × Detail) := []
deriving DecidableEq, Repr

/-- The contribution of one loop iteration to the result and the trace: the
loop bodies of the sync implementations only ever append to the result
lists, insert into the details dict, and issue calls, so each iteration is
the application of such a delta. -/
structure ItemDelta where
  created : List String := []
  updated : List String := []
  deleted : List String := []
  unchanged : List String := []
  errors : List String := []
  details : List (String × Detail) := []
  calls : List Call := []
deriving DecidableEq, Repr

/-- Apply one iteration's contribution to the accumulated result and trace. -/
def applyDelta (acc : SyncResult × List Call) (d : ItemDelta) :
    SyncResult × List Call :=
  ({ created := acc.1.created ++ d.created,
     updated := acc.1.updated ++ d.updated,
     deleted := acc.1.deleted ++ d.deleted,
     unchanged := acc.1.unchanged ++ d.unchanged,
     errors := acc.1.errors ++ d.errors,
     details := d.details.foldl (fun m p => pyDictInsert m p.1 p.2) acc.1.details },
   acc.2 ++ d.calls)

/-- A loop that applies the per-item contribution of each element in turn. -/
def runFold {α : Type} (f : α → ItemDelta) (acc : SyncResult × List Call)
    (l : List α) : SyncResult × List Call :=
  l.foldl (fun a x => applyDelta a (f x)) acc

/-! ## User sync (`_sync_users_impl`) -/

/-- The transport environment of a user-sync run: the baseline listing
(which can fail) and oracles for the outcome of each mutating call.
`createRes name` is the id of the created user as parsed from the server
response, or the error message; `updateRes name` / `deleteRes uid` are
`some msg` when the call fails. -/
structure UserSyncEnv where
  listUsersRes : Except String (List SCIMUser)
  createRes : String → Except String (Option String)
  updateRes : String → Option String
  deleteRes : String → Option String

/-- The body of the main per-user loop of `_sync_users_impl`. -/
def userStep (env : UserSyncEnv) (idcUsers : List (String × SCIMUser))
    (dryRun : Bool) (user : SCIMUser) : ItemDelta :=
  let name := user.userName
  match pyGet idcUsers name with
  | some idcUser =>
    let changedFields := diffDict (user.toDict) (idcUser.toDict)
    if changedFields = [] then
      { unchanged := [name] }
    else if dryRun then
      { updated := [name],
        details := [(name, { fields := some changedFields, idKey := some idcUser.id })] }
    else if optTruthy idcUser.id then
      -- user.id = idc_user.id; update_user issues the PUT
      match env.updateRes name with
      | some msg =>
        { errors := [name ++ ": " ++ msg],
          calls := [.putUser (idcUser.id.getD "") name] }
      | none =>
        { updated := [name],
          details := [(name, { fields := some changedFields, idKey := some idcUser.id })],
          calls := [.putUser (idcUser.id.getD "") name] }
    else
      -- update_user raises "User id is required for update" before any HTTP call
      { errors := [name ++ ": User id is required for update"] }
  | none =>
    if dryRun then
      { created := [name] }
    else
      match env.createRes name with
      | .error msg =>
        { errors := [name ++ ": " ++ msg], calls := [.createUser name] }
      | .ok newId =>
        { created := [name],
          details := [(name, { idKey := some newId })],
          calls := [.createUser name] }

/-- The body of the deletion loop of `_sync_users_impl` (iterating the items
of the baseline dict). -/
def userDeleteStep (env : UserSyncEnv) (localNames : List String)
    (dryRun : Bool) (p : String × SCIMUser) : ItemDelta :=
  let name := p.1
  let user := p.2
  if ¬ name ∈ localNames ∧ optTruthy user.id then
    if dryRun then
      { deleted := [name], details := [(name, { idKey := some user.id })] }
    else
      match env.deleteRes (user.id.getD "") with
      | some msg =>
        { errors := [name ++ ": " ++ msg], calls := [.deleteUser (user.id.getD "")] }
      | none =>
        { deleted := [name], details := [(name, { idKey := some user.id })],
          calls := [.deleteUser (user.id.getD "")] }
  else
    { }

/-- `_sync_users_impl`: fetch the baseline (a failure there propagates),
run the per-user loop, then the deletion loop when `allow_delete`. -/
def syncUsersImpl (env : UserSyncEnv) (users : List SCIMUser)
    (allowDelete dryRun : Bool) : Except String (SyncResult × List Call) :=
  match env.listUsersRes with
  | .error e => .error e
  | .ok baseline =>
    let idcUsers := pyDictOf (baseline.map (fun u => (u.userName, u)))
    let localNames := users.map (fun u => u.userName)
    let afterMain := runFold (userStep env idcUsers dryRun) ({ }, []) users
    let final :=
      if allowDelete then
        runFold (userDeleteStep env localNames dryRun) afterMain idcUsers
      else afterMain
    .ok final

/-- `sync_users`: incremental sync (no deletion). -/
def syncUsers (env : UserSyncEnv) (users : List SCIMUser) (dryRun : Bool) :
    Except String (SyncResult × List Call) :=
  syncUsersImpl env users false dryRun

/-- `full_sync_users`. -/
def fullSyncUsers (env : UserSyncEnv) (users : List SCIMUser)
    (allowDelete dryRun : Bool) : Except String (SyncResult × List Call) :=
  syncUsersImpl env users allowDelete dryRun

/-! ## Group sync (`_sync_groups_impl`) -/

/-- The transport environment of a group-sync run.  `userGroupsRes uid` is
the directory's answer to the `members.value eq uid` reverse query;
`createGroupRes name` is the parsed response of `create_group`;
`addPatchRes`/`removePatchRes` give the outcome of each membership patch
call (keyed by group id and batch); `deleteGroupRes gid` is `some msg` when
the delete fails. -/
structure GroupSyncEnv where
  listGroupsRes : Except String (List SCIMGroup)
  listUsersRes : Except String (List SCIMUser)
  userGroupsRes : String → List SCIMGroup
  createGroupRes : String → Except String SCIMGroup
  addPatchRes : String → List String → Option String
  removePatchRes : String → List String → Option String
  deleteGroupRes : String → Option String

/-- Resolve a group's desired member names against the userName→id map:
resolved ids accumulate into a set, unresolved names into `skipped`. -/
def resolveMembers (userIdMap : List (String × String))
    (memberNames : List String) : List String × List String :=
  memberNames.foldl
    (fun acc memberName =>
      match pyGet userIdMap memberName with
      | some uid => if uid ≠ "" then (pySetAdd acc.1 uid, acc.2) else acc
      | none => (acc.1, acc.2 ++ [memberName]))
    ([], [])

/-- One iteration of the `current_members` loop: a truthy user id triggers an
`is_user_in_group` reverse query (`members.value eq <uid>`), and the id is
added to the set when the group list returned for the user contains the
target group id. -/
def currentMemberStep (env : GroupSyncEnv) (gid : String)
    (acc : List String × List Call) (uid : String) : List String × List Call :=
  if uid ≠ "" then
    if (env.userGroupsRes uid).any (fun g => g.id = some gid) then
      (pySetAdd acc.1 uid, acc.2 ++ [Call.userGroupsQuery uid])
    else
      (acc.1, acc.2 ++ [Call.userGroupsQuery uid])
  else acc

/-- The `current_members` loop: for every value of the userName→id map, ask
the directory (via `is_user_in_group`, i.e. one reverse query per user)
whether the user is in the group. -/
def currentMembersOf (env : GroupSyncEnv) (gid : String)
    (uids : List String) : List String × List Call :=
  uids.foldl (currentMemberStep env gid) ([], [])

/-- Annotate a member-id list with each member's userName
(`id_to_name.get(uid, "?")`). -/
def annotateMembers (idToName : List (String × String))
    (uids : List String) : List (String × String) :=
  uids.map (fun uid => (uid, (pyGet idToName uid).getD "?"))

/-- The body of the main per-group loop of `_sync_groups_impl`. -/
def groupStep (env : GroupSyncEnv) (idcGroups : List (String × SCIMGroup))
    (userIdMap idToName : List (String × String))
    (membersMap : List (String × List String))
    (allowRemoveMembers dryRun : Bool) (group : SCIMGroup) : ItemDelta :=
  let name := group.displayName
  let resolved := resolveMembers userIdMap ((pyGet membersMap name).getD [])
  let localMemberIds := resolved.1
  let skippedMembers := resolved.2
  match pyGet idcGroups name with
  | some idcGroup =>
    if ¬ optTruthy idcGroup.id then
      { errors := [name ++ ": 组 ID 为空"] }
    else
      let gid := idcGroup.id.getD ""
      let current := currentMembersOf env gid (userIdMap.map (fun p => p.2))
      let currentMembers := current.1
      let queryCalls := current.2
      let toAdd := pySetDiff localMemberIds currentMembers
      let toRemove :=
        if allowRemoveMembers then pySetDiff currentMembers localMemberIds else []
      if toAdd = [] ∧ toRemove = [] then
        { unchanged := [name],
          details :=
            if skippedMembers ≠ [] then
              [(name, { idKey := some idcGroup.id, skipped := some skippedMembers })]
            else [],
          calls := queryCalls }
      else if dryRun then
        { updated := [name],
          details := [(name,
            { idKey := some idcGroup.id,
              added := some (annotateMembers idToName toAdd),
              removed := some (annotateMembers idToName toRemove),
              skipped := some skippedMembers })],
          calls := queryCalls }
      else
        let addStep :=
          if toAdd ≠ [] then addGroupMembers (env.addPatchRes gid) gid toAdd
          else (.ok (), [])
        match addStep.1 with
        | .error msg =>
          { errors := [name ++ ": " ++ msg], calls := queryCalls ++ addStep.2 }
        | .ok _ =>
          let removeStep :=
            if toRemove ≠ [] then
              removeGroupMembers (env.removePatchRes gid) gid toRemove
            else (.ok (), [])
          match removeStep.1 with
          | .error msg =>
            { errors := [name ++ ": " ++ msg],
              calls := queryCalls ++ addStep.2 ++ removeStep.2 }
          | .ok _ =>
            { updated := [name],
              details := [(name,
                { idKey := some idcGroup.id,
                  added := some (annotateMembers idToName toAdd),
                  removed := some (annotateMembers idToName toRemove),
                  skipped := some skippedMembers })],
              calls := queryCalls ++ addStep.2 ++ removeStep.2 }
  | none =>
    if dryRun then
      { created := [name],
        details := [(name,
          { added := some (annotateMembers idToName localMemberIds),
            skipped := some skippedMembers })] }
    else
      match env.createGroupRes name with
      | .error msg =>
        { errors := [name ++ ": " ++ msg], calls := [.createGroup name] }
      | .ok newGroup =>
        if optTruthy newGroup.id ∧ localMemberIds ≠ [] then
          let gid := newGroup.id.getD ""
          let addStep := addGroupMembers (env.addPatchRes gid) gid localMemberIds
          match addStep.1 with
          | .error msg =>
            { errors := [name ++ ": " ++ msg],
              calls := .createGroup name :: addStep.2 }
          | .ok _ =>
            { created := [name],
              details := [(name,
                { idKey := some newGroup.id,
                  added := some (annotateMembers idToName localMemberIds),
                  skipped := some skippedMembers })],
              calls := .createGroup name :: addStep.2 }
        else
          { created := [name],
            details := [(name,
              { idKey := some newGroup.id,
                added := some (annotateMembers idToName localMemberIds),
                skipped := some skippedMembers })],
            calls := [.createGroup name] }

/-- The body of the group deletion loop of `_sync_groups_impl`. -/
def groupDeleteStep (env : GroupSyncEnv) (localNames : List String)
    (dryRun : Bool) (p : String × SCIMGroup) : ItemDelta :=
  let name := p.1
  let group := p.2
  if ¬ name ∈ localNames ∧ optTruthy group.id then
    if dryRun then
      { deleted := [name], details := [(name, { idKey := some group.id })] }
    else
      match env.deleteGroupRes (group.id.getD "") with
      | some msg =>
        { errors := [name ++ ": " ++ msg], calls := [.deleteGroup (group.id.getD "")] }
      | none =>
        { deleted := [name], details := [(name, { idKey := some group.id })],
          calls := [.deleteGroup (group.id.getD "")] }
  else
    { }

/-- `_sync_groups_impl`: fetch both baselines (either failure propagates),
build the userName→id and id→userName maps over users with a truthy id, run
the per-group loop, then the deletion loop when `allow_delete`. -/
def syncGroupsImpl (env : GroupSyncEnv) (groups : List SCIMGroup)
    (membersMap : List (String × List String))
    (allowDelete allowRemoveMembers dryRun : Bool) :
    Except String (SyncResult × List Call) :=
  match env.listGroupsRes with
  | .error e => .error e
  | .ok groupBaseline =>
    match env.listUsersRes with
    | .error e => .error e
    | .ok idcUsers =>
      let idcGroups := pyDictOf (groupBaseline.map (fun g => (g.displayName, g)))
      let userIdMap := pyDictOf ((idcUsers.filter (fun u => optTruthy u.id)).map
        (fun u => (u.userName, u.id.getD "")))
      let idToName := pyDictOf ((idcUsers.filter (fun u => optTruthy u.id)).map
        (fun u => (u.id.getD "", u.userName)))
      let localNames := groups.map (fun g => g.displayName)
      let afterMain := runFold
        (groupStep env idcGroups userIdMap idToName membersMap
          allowRemoveMembers dryRun) ({ }, []) groups
      let final :=
        if allowDelete then
          runFold (groupDeleteStep env localNames dryRun) afterMain idcGroups
        else afterMain
      .ok final

/-- `sync_groups`: incremental (no group deletion, no member removal). -/
def syncGroups (env : GroupSyncEnv) (groups : List SCIMGroup)
    (membersMap : List (String × List String)) (dryRun : Bool) :
    Except String (SyncResult × List Call) :=
  syncGroupsImpl env groups membersMap false false dryRun

/-- `full_sync_groups`: member removal enabled, deletion optional. -/
def fullSyncGroups (env : GroupSyncEnv) (groups : List SCIMGroup)
    (membersMap : List (String × List String)) (allowDelete dryRun : Bool) :
    Except String (SyncResult × List Call) :=
  syncGroupsImpl env groups membersMap allowDelete true dryRun

/-! ## Helper lemmas -/

theorem runFold_nil {α : Type} (f : α → ItemDelta) (acc : SyncResult × List Call) :
    runFold f acc [] = acc := rfl

theorem runFold_cons {α : Type} (f : α → ItemDelta) (acc : SyncResult × List Call)
    (x : α) (l : List α) :
    runFold f acc (x :: l) = runFold f (applyDelta acc (f x)) l := rfl

theorem runFold_created {α : Type} (f : α → ItemDelta)
    (acc : SyncResult × List Call) (l : List α) :
    (runFold f acc l).1.created = acc.1.created ++ l.flatMap (fun x => (f x).created) := by
  induction l generalizing acc with
  | nil => simp [runFold]
  | cons x xs ih => simp [runFold_cons, ih, applyDelta]

theorem runFold_updated {α : Type} (f : α → ItemDelta)
    (acc : SyncResult × List Call) (l : List α) :
    (runFold f acc l).1.updated = acc.1.updated ++ l.flatMap (fun x => (f x).updated) := by
  induction l generalizing acc with
  | nil => simp [runFold]
  | cons x xs ih => simp [runFold_cons, ih, applyDelta]

theorem runFold_deleted {α : Type} (f : α → ItemDelta)
    (acc : SyncResult × List Call) (l : List α) :
    (runFold f acc l).1.deleted = acc.1.deleted ++ l.flatMap (fun x => (f x).deleted) := by
  induction l generalizing acc with
  | nil => simp [runFold]
  | cons x xs ih => simp [runFold_cons, ih, applyDelta]

theorem runFold_unchanged {α : Type} (f : α → ItemDelta)
    (acc : SyncResult × List Call) (l : List α) :
    (runFold f acc l).1.unchanged = acc.1.unchanged ++ l.flatMap (fun x => (f x).unchanged) := by
  induction l generalizing acc with
  | nil => simp [runFold]
  | cons x xs ih => simp [runFold_cons, ih, applyDelta]

theorem runFold_errors {α : Type} (f : α → ItemDelta)
    (acc : SyncResult × List Call) (l : List α) :
    (runFold f acc l).1.errors = acc.1.errors ++ l.flatMap (fun x => (f x).errors) := by
  induction l generalizing acc with
  | nil => simp [runFold]
  | cons x xs ih => simp [runFold_cons, ih, applyDelta]

theorem runFold_calls {α : Type} (f : α → ItemDelta)
    (acc : SyncResult × List Call) (l : List α) :
    (runFold f acc l).2 = acc.2 ++ l.flatMap (fun x => (f x).calls) := by
  induction l generalizing acc with
  | nil => simp [runFold]
  | cons x xs ih => simp [runFold_cons, ih, applyDelta]

theorem runFold_details {α : Type} (f : α → ItemDelta)
    (acc : SyncResult × List Call) (l : List α) :
    (runFold f acc l).1.details =
      (l.flatMap (fun x => (f x).details)).foldl
        (fun m p => pyDictInsert m p.1 p.2) acc.1.details := by
  induction l generalizing acc with
  | nil => simp [runFold]
  | cons x xs ih => simp [runFold_cons, ih, applyDelta, List.foldl_append]

theorem find?_subst_ne {V : Type} (ps : List (String × V)) (k n : String)
    (v : V) (hnk : n ≠ k) :
    List.find? (fun p => p.1 = n)
        (ps.map (fun p => if p.1 = k then (k, v) else p)) =
      List.find? (fun p => p.1 = n) ps := by
  induction ps with
  | nil => simp
  | cons p ps ih =>
    rcases p with ⟨pk, pv⟩
    by_cases hpk : pk = k
    · subst hpk
      have : ¬ (pk = n) := fun h => hnk (h ▸ rfl)
      simp [List.find?_cons, this, ih, hnk]
    · by_cases hn : pk = n
      · subst hn
        simp [List.find?_cons, hpk]
      · simp [List.find?_cons, hpk, hn, ih]

theorem find?_subst_eq {V : Type} (ps : List (String × V)) (k : String)
    (v : V) (hany : ps.any (fun p => p.1 = k) = true) :
    List.find? (fun p => p.1 = k)
        (ps.map (fun p => if p.1 = k then (k, v) else p)) = some (k, v) := by
  induction ps with
  | nil => simp at hany
  | cons p ps ih =>
    rcases p with ⟨pk, pv⟩
    simp only [List.any_cons, Bool.or_eq_true, decide_eq_true_eq] at hany
    by_cases hpk : pk = k
    · subst hpk
      simp [List.find?_cons]
    · rcases hany with h | h
      · exact absurd h hpk
      · simp [List.find?_cons, hpk, ih h]

theorem find?_eq_none_of_any_false {V : Type} (d : List (String × V))
    (k : String) (hany : ¬ d.any (fun p => p.1 = k) = true) :
    List.find? (fun p => p.1 = k) d = none := by
  induction d with
  | nil => simp
  | cons p ps ih =>
    rcases p with ⟨pk, pv⟩
    simp only [List.any_cons, Bool.or_eq_true, decide_eq_true_eq] at hany
    push_neg at hany
    simp [List.find?_cons, hany.1, ih (by simpa using hany.2)]

theorem pyGet_pyDictInsert {V : Type} (d : List (String × V)) (k n : String) (v : V) :
    pyGet (pyDictInsert d k v) n = if n = k then some v else pyGet d n := by
  by_cases hany : d.any (fun p => p.1 = k) = true
  · simp only [pyDictInsert, hany, if_true]
    by_cases hn : n = k
    · subst hn
      simp [pyGet, find?_subst_eq d n v hany]
    · simp [pyGet, find?_subst_ne d k n v hn, hn]
  · simp only [pyDictInsert, hany, if_false]
    by_cases hn : n = k
    · subst hn
      simp [pyGet, List.find?_append, find?_eq_none_of_any_false d n hany]
    · have h1 : List.find? (fun p => p.1 = n) [(k, v)] = none := by
        simp only [List.find?_cons, List.find?_nil]
        have : ¬ (k = n) := fun h => hn h.symm
        simp [this]
      simp [pyGet, List.find?_append, h1, hn]

/-- Looking up `n` after inserting a list of entries: the last inserted entry
with key `n` wins, otherwise the original binding is kept. -/
theorem pyGet_foldl_insert {V : Type} (l : List (String × V))
    (d : List (String × V)) (n : String) :
    pyGet (l.foldl (fun m p => pyDictInsert m p.1 p.2) d) n =
      ((l.filter (fun p => p.1 = n)).getLast?).elim (pyGet d n) (fun p => some p.2) := by
  induction l generalizing d with
  | nil => simp
  | cons p ps ih =>
    rcases p with ⟨pk, pv⟩
    by_cases h : pk = n
    · subst h
      simp only [List.foldl_cons, ih, List.filter_cons, decide_True,
        if_pos rfl]
      cases hl : (ps.filter (fun p => p.1 = pk)).getLast? with
      | none =>
        have : ps.filter (fun p => p.1 = pk) = [] := by
          simpa [List.getLast?_eq_none_iff] using hl
        simp [this, pyGet_pyDictInsert]
      | some q =>
        cases hfl : ps.filter (fun p => p.1 = pk) with
        | nil => rw [hfl] at hl; simp at hl
        | cons a as =>
          rw [hfl] at hl
          simp [List.getLast?_cons_cons, hl]
    · simp only [List.foldl_cons, ih, List.filter_cons]
      simp [h, pyGet_pyDictInsert, Ne.symm h]

theorem mem_pySetAdd (s : List String) (x y : String) :
    y ∈ pySetAdd s x ↔ y ∈ s ∨ y = x := by
  by_cases h : x ∈ s
  · simp only [pySetAdd, if_pos h]
    constructor
    · exact fun hy => Or.inl hy
    · rintro (hy | rfl)
      · exact hy
      · exact h
  · simp [pySetAdd, if_neg h]

theorem pySetAdd_nodup (s : List String) (x : String) (h : s.Nodup) :
    (pySetAdd s x).Nodup := by
  by_cases hx : x ∈ s
  · simpa [pySetAdd, if_pos hx] using h
  · simp [pySetAdd, if_neg hx, List.nodup_append, h, hx]

theorem mem_pySetDiff (a b : List String) (x : String) :
    x ∈ pySetDiff a b ↔ x ∈ a ∧ ¬ x ∈ b := by
  simp [pySetDiff]

theorem pyDictInsert_keys {V : Type} (d : List (String × V)) (k : String) (v : V)
    (h : d.any (fun p => p.1 = k) = true) :
    (pyDictInsert d k v).map (fun p => p.1) = d.map (fun p => p.1) := by
  simp only [pyDictInsert, h, if_true, List.map_map]
  apply List.map_congr_left
  intro p _
  by_cases hp : p.1 = k
  · simp [hp]
  · simp [hp]

theorem pyDictOf_keys_nodup {V : Type} (l : List (String × V)) :
    ((pyDictOf l).map (fun p => p.1)).Nodup := by
  suffices h : ∀ d : List (String × V), (d.map (fun p => p.1)).Nodup →
      ((l.foldl (fun m p => pyDictInsert m p.1 p.2) d).map (fun p => p.1)).Nodup by
    exact h [] (by simp)
  induction l with
  | nil => intro d hd; simpa using hd
  | cons p ps ih =>
    intro d hd
    simp only [List.foldl_cons]
    apply ih
    by_cases h : d.any (fun q => q.1 = p.1) = true
    · rw [pyDictInsert_keys d p.1 p.2 h]
      exact hd
    · have hnot : ¬ p.1 ∈ d.map (fun q => q.1) := by
        intro hmem
        rcases List.mem_map.mp hmem with ⟨q, hq, hq1⟩
        exact h (List.any_eq_true.mpr ⟨q, hq, by simp [hq1]⟩)
      simp [pyDictInsert, h, List.nodup_append, hd, hnot]

theorem chunks100_ne_nil (l : List String) (h : l ≠ []) : chunks100 l ≠ [] := by
  cases l with
  | nil => exact absurd rfl h
  | cons x xs => simp [chunks100]

theorem chunks100_join (l : List String) : (chunks100 l).flatten = l := by
  induction l using chunks100.induct with
  | case1 => simp [chunks100]
  | case2 x xs ih =>
    simp only [chunks100, List.flatten_cons, ih, List.take_append_drop]

theorem chunks100_mem (l c : List String) (h : c ∈ chunks100 l) :
    c.length ≤ 100 ∧ c ≠ [] := by
  induction l using chunks100.induct with
  | case1 => simp [chunks100] at h
  | case2 x xs ih =>
    simp only [chunks100, List.mem_cons] at h
    rcases h with rfl | h
    · constructor
      · simpa [MAX_PAGE_SIZE] using List.length_take_le 100 (x :: xs)
      · simp [MAX_PAGE_SIZE]
    · exact ih h

theorem chunks100_cons_eq (x : String) (xs : List String) :
    chunks100 (x :: xs) =
      (x :: xs).take MAX_PAGE_SIZE :: chunks100 ((x :: xs).drop MAX_PAGE_SIZE) := by
  simp only [chunks100]

theorem chunks100_length (l : List String) (h : l ≠ []) :
    (chunks100 l).length = (l.length + 99) / 100 := by
  induction l using chunks100.induct with
  | case1 => exact absurd rfl h
  | case2 x xs ih =>
    have h100 : MAX_PAGE_SIZE = 100 := rfl
    by_cases hd : (x :: xs).drop MAX_PAGE_SIZE = []
    · have hlen : (x :: xs).length ≤ MAX_PAGE_SIZE := by
        simpa using List.drop_eq_nil_iff.mp hd
      have h1 : 1 ≤ (x :: xs).length := by simp
      rw [chunks100_cons_eq, hd]
      have hnil : chunks100 ([] : List String) = [] := by simp [chunks100]
      rw [hnil, h100] at *
      simp only [List.length_singleton]
      omega
    · have hlen : MAX_PAGE_SIZE < (x :: xs).length := by
        by_contra hc
        push_neg at hc
        exact hd (List.drop_eq_nil_iff.mpr hc)
      have hdl : ((x :: xs).drop MAX_PAGE_SIZE).length =
          (x :: xs).length - MAX_PAGE_SIZE := by simp
      rw [chunks100_cons_eq, List.length_cons, ih hd, hdl]
      simp only [List.length_cons, MAX_PAGE_SIZE] at *
      omega

theorem chunks100_getLast_length (l c : List String)
    (h : (chunks100 l).getLast? = some c) :
    c.length = (l.length - 1) % 100 + 1 := by
  induction l using chunks100.induct with
  | case1 => simp [chunks100] at h
  | case2 x xs ih =>
    have h100 : MAX_PAGE_SIZE = 100 := rfl
    by_cases hd : (x :: xs).drop MAX_PAGE_SIZE = []
    · have hlen : (x :: xs).length ≤ MAX_PAGE_SIZE := by
        simpa using List.drop_eq_nil_iff.mp hd
      have h1 : 1 ≤ (x :: xs).length := by simp
      rw [chunks100_cons_eq, hd] at h
      have hnil : chunks100 ([] : List String) = [] := by simp [chunks100]
      rw [hnil, List.getLast?_singleton, Option.some_inj] at h
      subst h
      rw [List.length_take, h100] at *
      omega
    · have hlen : MAX_PAGE_SIZE < (x :: xs).length := by
        by_contra hc
        push_neg at hc
        exact hd (List.drop_eq_nil_iff.mpr hc)
      have hne := chunks100_ne_nil _ hd
      rw [chunks100_cons_eq] at h
      cases hch : chunks100 ((x :: xs).drop MAX_PAGE_SIZE) with
      | nil => exact absurd hch hne
      | cons a as =>
        rw [hch, List.getLast?_cons_cons] at h
        have hrec := ih (by rw [hch]; exact h)
        have hdl : ((x :: xs).drop MAX_PAGE_SIZE).length =
            (x :: xs).length - MAX_PAGE_SIZE := by simp
        rw [hdl, h100] at hrec
        rw [hrec, h100] at *
        omega

theorem patchBatches_ok (gid : String) (op : PatchOpType)
    (patchRes : List String → Option String) (bs : List (List String))
    (h : ∀ b ∈ bs, patchRes b = none) :
    patchBatches gid op patchRes bs =
      (.ok (), bs.map (Call.patchGroup gid op)) := by
  induction bs with
  | nil => rfl
  | cons b bs ih =>
    have hb : patchRes b = none := h b (by simp)
    simp only [patchBatches, hb, List.map_cons]
    rw [ih (fun c hc => h c (by simp [hc]))]

theorem patchBatches_fail (gid : String) (op : PatchOpType)
    (patchRes : List String → Option String) (pre : List (List String))
    (b : List String) (post : List (List String)) (msg : String)
    (hpre : ∀ c ∈ pre, patchRes c = none) (hb : patchRes b = some msg) :
    patchBatches gid op patchRes (pre ++ b :: post) =
      (.error msg, (pre ++ [b]).map (Call.patchGroup gid op)) := by
  induction pre with
  | nil => simp [patchBatches, hb]
  | cons c cs ih =>
    have hc : patchRes c = none := hpre c (by simp)
    simp only [List.cons_append, patchBatches, hc, List.map_cons, List.append_eq]
    rw [ih (fun d hd => hpre d (by simp [hd]))]

/-! ## Pagination lemmas -/

theorem paginateGo_head {α : Type} (server : Request → RawListResponse α)
    (flt : Option String) (fuel : Nat) (cur : Option String) (h : 1 ≤ fuel) :
    (paginateGo server flt fuel cur).2.head? =
      some { filter := flt, cursor := cur, count := MAX_PAGE_SIZE } := by
  cases fuel with
  | zero => omega
  | succ n =>
    simp only [paginateGo]
    cases (ListResponse.fromDict (server _)).next_cursor <;> simp

theorem paginateGo_chain {α : Type} (server : Request → RawListResponse α)
    (flt : Option String) (fuel : Nat) (cur : Option String) :
    List.Chain'
      (fun a b => b.cursor = (ListResponse.fromDict (server a)).next_cursor)
      (paginateGo server flt fuel cur).2 := by
  induction fuel generalizing cur with
  | zero => simp [paginateGo]
  | succ n ih =>
    simp only [paginateGo]
    cases hc : (ListResponse.fromDict
        (server { filter := flt, cursor := cur, count := MAX_PAGE_SIZE })).next_cursor with
    | none => simp
    | some c =>
      simp only
      rw [List.chain'_cons']
      refine ⟨?_, ih (some c)⟩
      intro b hb
      rw [paginateGo_head server flt n (some c) ?_] at hb
      · simp at hb
        rw [← hb, hc]
      · by_contra hn
        push_neg at hn
        interval_cases n
        simp [paginateGo] at hb

theorem paginateGo_params {α : Type} (server : Request → RawListResponse α)
    (flt : Option String) (fuel : Nat) (cur : Option String) :
    ∀ r ∈ (paginateGo server flt fuel cur).2,
      r.filter = flt ∧ r.count = MAX_PAGE_SIZE := by
  induction fuel generalizing cur with
  | zero => simp [paginateGo]
  | succ n ih =>
    simp only [paginateGo]
    cases hc : (ListResponse.fromDict
        (server { filter := flt, cursor := cur, count := MAX_PAGE_SIZE })).next_cursor with
    | none => simp
    | some c =>
      simp only [List.mem_cons]
      rintro r (rfl | hr)
      · exact ⟨rfl, rfl⟩
      · exact ih (some c) r hr

theorem paginateGo_last {α : Type} (server : Request → RawListResponse α)
    (flt : Option String) (fuel : Nat) (cur : Option String)
    (h : (paginateGo server flt fuel cur).2.length < fuel) :
    ∃ lr, (paginateGo server flt fuel cur).2.getLast? = some lr ∧
      (ListResponse.fromDict (server lr)).next_cursor = none := by
  induction fuel generalizing cur with
  | zero => omega
  | succ n ih =>
    simp only [paginateGo] at h ⊢
    cases hc : (ListResponse.fromDict
        (server { filter := flt, cursor := cur, count := MAX_PAGE_SIZE })).next_cursor with
    | none => exact ⟨_, by simp, hc⟩
    | some c =>
      rw [hc] at h
      simp only [List.length_cons] at h
      have hlt : (paginateGo server flt n (some c)).2.length < n := by omega
      rcases ih (some c) hlt with ⟨lr, hlast, hnone⟩
      refine ⟨lr, ?_, hnone⟩
      cases hl : (paginateGo server flt n (some c)).2 with
      | nil => rw [hl] at hlast; simp at hlast
      | cons a as =>
        rw [hl] at hlast
        simp only
        rw [hl, List.getLast?_cons_cons]
        exact hlast

/-- Normalization of the continuation cursor: the parsed cursor is absent
exactly when both casings of the raw field are absent or empty. -/
theorem fromDict_next_cursor_none_iff {α : Type} (d : RawListResponse α) :
    (ListResponse.fromDict d).next_cursor = none ↔
      ((d.nextCursorUpper = none ∨ d.nextCursorUpper = some "") ∧
       (d.nextCursorLower = none ∨ d.nextCursorLower = some "")) := by
  rcases d with ⟨t, r, u, l, i, s⟩
  cases u with
  | none =>
    cases l with
    | none => simp [ListResponse.fromDict, pyOrStr]
    | some sl =>
      by_cases hsl : sl = "" <;>
        simp [ListResponse.fromDict, pyOrStr, hsl]
  | some su =>
    by_cases hsu : su = ""
    · subst hsu
      cases l with
      | none => simp [ListResponse.fromDict, pyOrStr]
      | some sl =>
        by_cases hsl : sl = "" <;>
          simp [ListResponse.fromDict, pyOrStr, hsl]
    · cases l with
      | none => simp [ListResponse.fromDict, pyOrStr, hsu]
      | some sl => simp [ListResponse.fromDict, pyOrStr, hsu]

/-! ## Simulated 250-item directory for the pagination claim -/

/-- First page of the simulated 250-item listing. -/
def simPage1 : RawListResponse Nat :=
  { resources := some (List.range' 0 100), nextCursorUpper := some "c1",
    totalResults := some 250 }

/-- Second page. -/
def simPage2 : RawListResponse Nat :=
  { resources := some (List.range' 100 100), nextCursorUpper := some "c2",
    totalResults := some 250 }

/-- Third and final page: no continuation cursor. -/
def simPage3 : RawListResponse Nat :=
  { resources := some (List.range' 200 50), totalResults := some 250 }

/-- The simulated directory: pages are addressed by the cursor parameter. -/
def server250 : Request → RawListResponse Nat := fun req =>
  match req.cursor with
  | some "c1" => simPage2
  | some "c2" => simPage3
  | _ => simPage1

/-! ## Claim theorems -/

/-- C2: in every paginated listing, the first fetch carries an empty-string
cursor parameter when no filter is supplied and omits the cursor parameter
when one is; every subsequent fetch carries the cursor parsed from the
previous page verbatim; iteration stops exactly when the parsed continuation
cursor is absent, and the parsed cursor is absent precisely when both
casings of the raw cursor field are absent or empty; and the simulated
250-item unfiltered listing with page cap 100 yields 250 items across
exactly 3 fetches, the first with an empty cursor parameter. -/
theorem c2_pagination (α : Type) (server : Request → RawListResponse α)
    (flt : Option String) (fuel : Nat) (hfuel : 1 ≤ fuel) :
    (paginate server none fuel).2.head? =
      some { filter := none, cursor := some "", count := MAX_PAGE_SIZE } ∧
    (∀ f : String, (paginate server (some f) fuel).2.head? =
      some { filter := some f, cursor := none, count := MAX_PAGE_SIZE }) ∧
    List.Chain'
      (fun a b => b.cursor = (ListResponse.fromDict (server a)).next_cursor)
      (paginate server flt fuel).2 ∧
    ((paginate server flt fuel).2.length < fuel →
      ∃ lr, (paginate server flt fuel).2.getLast? = some lr ∧
        (ListResponse.fromDict (server lr)).next_cursor = none) ∧
    (∀ d : RawListResponse α, (ListResponse.fromDict d).next_cursor = none ↔
      ((d.nextCursorUpper = none ∨ d.nextCursorUpper = some "") ∧
       (d.nextCursorLower = none ∨ d.nextCursorLower = some ""))) ∧
    (paginate server250 none 10).1.length = 250 ∧
    (paginate server250 none 10).2.map (fun r => r.cursor) =
      [some "", some "c1", some "c2"] := by
  refine ⟨?_, ?_, ?_, ?_, ?_, ?_, ?_⟩
  · exact paginateGo_head server none fuel (some "") hfuel
  · exact fun f => paginateGo_head server (some f) fuel none hfuel
  · exact paginateGo_chain server flt fuel _
  · exact paginateGo_last server flt fuel _
  · exact fun d => fromDict_next_cursor_none_iff d
  · rfl
  · rfl

theorem c2_pagination_witness :
    (paginate server250 none 10).2.head? =
      some { filter := none, cursor := some "", count := MAX_PAGE_SIZE } ∧
    (paginate server250 none 10).1.length = 250 ∧
    (paginate server250 none 10).2.map (fun r => r.cursor) =
      [some "", some "c1", some "c2"] := by
  have h := c2_pagination Nat server250 none 10 (by decide)
  exact ⟨h.1, h.2.2.2.2.2.1, h.2.2.2.2.2.2⟩

/-- C6: a non-empty member-id list of length `n` passed to the group
membership add (or remove) operation is split into the consecutive slices
`chunks100`, whose batches each have at most 100 members, concatenate back
to the input, number exactly `⌈n/100⌉`, and whose last batch carries the
remainder; when no patch call fails, exactly one patch call is issued per
batch, in order; when a call fails partway, the batches already issued
remain in the trace (nothing is rolled back) and no further batch is
attempted. -/
theorem c6_member_batching (patchRes : List String → Option String)
    (gid : String) (ids : List String) (hne : ids ≠ []) :
    (chunks100 ids).length = (ids.length + 99) / 100 ∧
    (∀ c ∈ chunks100 ids, c.length ≤ 100 ∧ c ≠ []) ∧
    (chunks100 ids).flatten = ids ∧
    (∀ c, (chunks100 ids).getLast? = some c →
      c.length = (ids.length - 1) % 100 + 1) ∧
    ((∀ b, patchRes b = none) →
      addGroupMembers patchRes gid ids =
        (.ok (), (chunks100 ids).map (Call.patchGroup gid .add)) ∧
      removeGroupMembers patchRes gid ids =
        (.ok (), (chunks100 ids).map (Call.patchGroup gid .remove))) ∧
    (∀ pre b post msg, chunks100 ids = pre ++ b :: post →
      (∀ c ∈ pre, patchRes c = none) → patchRes b = some msg →
      addGroupMembers patchRes gid ids =
        (.error msg, (pre ++ [b]).map (Call.patchGroup gid .add)) ∧
      removeGroupMembers patchRes gid ids =
        (.error msg, (pre ++ [b]).map (Call.patchGroup gid .remove))) := by
  refine ⟨chunks100_length ids hne, fun c hc => chunks100_mem ids c hc,
    chunks100_join ids, fun c hc => chunks100_getLast_length ids c hc, ?_, ?_⟩
  · intro hall
    constructor
    · rw [addGroupMembers, if_neg hne,
        patchBatches_ok gid .add patchRes _ (fun b _ => hall b)]
    · rw [removeGroupMembers, if_neg hne,
        patchBatches_ok gid .remove patchRes _ (fun b _ => hall b)]
  · intro pre b post msg hsplit hpre hb
    constructor
    · rw [addGroupMembers, if_neg hne, hsplit,
        patchBatches_fail gid .add patchRes pre b post msg hpre hb]
    · rw [removeGroupMembers, if_neg hne, hsplit,
        patchBatches_fail gid .remove patchRes pre b post msg hpre hb]

/-- A 250-element member-id list for the batching witness. -/
def ids250 : List String := (List.range 250).map (fun n => toString n)

theorem c6_member_batching_witness :
    (addGroupMembers (fun _ => none) "gid-1" ids250).2.length = 3 ∧
    (∀ c ∈ (addGroupMembers (fun _ => none) "gid-1" ids250).2,
      ∀ op b, c = Call.patchGroup "gid-1" op b → b.length ≤ 100) ∧
    (chunks100 ids250).getLast?.map (fun c => c.length) = some 50 := by
  have h := c6_member_batching (fun _ => none) "gid-1" ids250 (by decide)
  have hadd := (h.2.2.2.2.1 (fun _ => rfl)).1
  refine ⟨?_, ?_, ?_⟩
  · rw [hadd]
    simp only [List.length_map]
    rw [h.1]
    rfl
  · intro c hc op b hcb
    rw [hadd] at hc
    rcases List.mem_map.mp hc with ⟨ch, hch, hceq⟩
    have := (h.2.1 ch hch).1
    rw [← hceq] at hcb
    cases hcb
    exact this
  · cases hl : (chunks100 ids250).getLast? with
    | none =>
      have hne := chunks100_ne_nil ids250 (by decide)
      rw [List.getLast?_eq_none_iff] at hl
      exact absurd hl hne
    | some c =>
      have := h.2.2.2.1 c hl
      simp [this]
      rfl

theorem listTruthy_eq_false_iff {α : Type} (o : Option (List α)) :
    listTruthy o = false ↔ o = none ∨ o = some [] := by
  cases o with
  | none => simp [listTruthy]
  | some l => cases l <;> simp [listTruthy]

theorem multi_cond_iff {α : Type} (o : Option (List α)) :
    (listTruthy o = true ∧ 1 < (o.getD []).length) ↔
      (∃ l, o = some l ∧ 1 < l.length) := by
  cases o with
  | none => simp [listTruthy]
  | some l => cases l <;> simp [listTruthy]

theorem except_bind_ok {ε α β : Type} (a : α) (f : α → Except ε β) :
    ((Except.ok a : Except ε α) >>= f) = f a := rfl

theorem except_bind_error {ε α β : Type} (e : ε) (f : α → Except ε β) :
    ((Except.error e : Except ε α) >>= f) = .error e := rfl

theorem mapExcept_ok_of_forall {α β : Type} (f : α → Except String β)
    (l : List α) (h : ∀ x ∈ l, ∃ y, f x = .ok y) :
    ∃ ys, mapExcept f l = .ok ys := by
  induction l with
  | nil => exact ⟨[], rfl⟩
  | cons x xs ih =>
    rcases h x (by simp) with ⟨y, hy⟩
    rcases ih (fun z hz => h z (by simp [hz])) with ⟨ys, hys⟩
    refine ⟨y :: ys, ?_⟩
    rw [mapExcept]
    simp only [hy, hys]
    rfl

/-- C7 (amended): a locally constructed user record fails validation exactly
when userName is empty, the required email list is missing or empty, or more
than one email/phone/address is supplied; and a record parsed from a
directory response is never checked against those user-level rules — parsing
only fails when a nested multi-valued sub-object (email, phone number, or a
truthy manager dict) carries a missing or empty `value`. -/
theorem c7_validation_asymmetry :
    (∀ u : SCIMUser,
      (∃ e, SCIMUser.construct u = .error e) ↔
        (u.userName = "" ∨ u.emails = none ∨ u.emails = some [] ∨
          1 < (u.emails.getD []).length ∨
          (∃ l, u.phoneNumbers = some l ∧ 1 < l.length) ∨
          (∃ l, u.addresses = some l ∧ 1 < l.length))) ∧
    (∀ r : RawUser,
      (∀ e ∈ r.emails.getD [], e.value.getD "" ≠ "") →
      (∀ p ∈ r.phoneNumbers.getD [], p.value.getD "" ≠ "") →
      (∀ ent, r.enterprise = some ent → ∀ m, ent.manager = some m →
        m.truthy = true → m.value.getD "" ≠ "") →
      ∃ u, SCIMUser.fromDict r = .ok u) := by
  constructor
  · intro u
    have hrw : SCIMUser.construct u =
        (SCIMUser.validate u >>= fun _ => pure u) := rfl
    by_cases c1 : u.userName = ""
    · have hv : SCIMUser.construct u = .error "userName 是必填字段" := by
        rw [hrw]
        simp [SCIMUser.validate, c1, except_bind_error]
      exact ⟨fun _ => Or.inl c1, fun _ => ⟨_, hv⟩⟩
    · by_cases c2 : listTruthy u.emails = true
      · by_cases c3 : 1 < (u.emails.getD []).length
        · have hv : SCIMUser.construct u =
              .error "emails 只能有一个值 (AWS IDC 限制)" := by
            rw [hrw]
            simp [SCIMUser.validate, c1, c2, c3, except_bind_error]
          exact ⟨fun _ => Or.inr (Or.inr (Or.inr (Or.inl c3))),
            fun _ => ⟨_, hv⟩⟩
        · by_cases c4 : ∃ l, u.phoneNumbers = some l ∧ 1 < l.length
          · have h4 := (multi_cond_iff u.phoneNumbers).mpr c4
            have hv : SCIMUser.construct u =
                .error "phoneNumbers 只能有一个值 (AWS IDC 限制)" := by
              rw [hrw]
              simp [SCIMUser.validate, c1, c2, c3, h4.1, h4.2,
                except_bind_error]
            exact ⟨fun _ => Or.inr (Or.inr (Or.inr (Or.inr (Or.inl c4)))),
              fun _ => ⟨_, hv⟩⟩
          · by_cases c5 : ∃ l, u.addresses = some l ∧ 1 < l.length
            · have h5 := (multi_cond_iff u.addresses).mpr c5
              have h4n : ¬ (listTruthy u.phoneNumbers = true ∧
                  1 < (u.phoneNumbers.getD []).length) :=
                fun hc => c4 ((multi_cond_iff u.phoneNumbers).mp hc)
              have hv : SCIMUser.construct u =
                  .error "addresses 只能有一个值 (AWS IDC 限制)" := by
                rw [hrw, SCIMUser.validate]
                rw [if_neg c1, if_neg (fun hn => hn c2), if_neg c3,
                  if_neg h4n, if_pos h5]
                exact rfl
              exact ⟨fun _ =>
                Or.inr (Or.inr (Or.inr (Or.inr (Or.inr c5)))),
                fun _ => ⟨_, hv⟩⟩
            · have h4n : ¬ (listTruthy u.phoneNumbers = true ∧
                  1 < (u.phoneNumbers.getD []).length) :=
                fun hc => c4 ((multi_cond_iff u.phoneNumbers).mp hc)
              have h5n : ¬ (listTruthy u.addresses = true ∧
                  1 < (u.addresses.getD []).length) :=
                fun hc => c5 ((multi_cond_iff u.addresses).mp hc)
              have hv : SCIMUser.construct u = .ok u := by
                rw [hrw, SCIMUser.validate]
                rw [if_neg c1, if_neg (fun hn => hn c2), if_neg c3,
                  if_neg h4n, if_neg h5n]
                exact rfl
              constructor
              · rintro ⟨e, he⟩
                rw [hv] at he
                simp at he
              · rintro (h | h | h | h | h | h)
                · exact absurd h c1
                · exact absurd (listTruthy_eq_false_iff u.emails |>.mpr
                    (Or.inl h)) (by simp [c2])
                · exact absurd (listTruthy_eq_false_iff u.emails |>.mpr
                    (Or.inr h)) (by simp [c2])
                · exact absurd h c3
                · exact absurd h c4
                · exact absurd h c5
      · have hfalse : listTruthy u.emails = false := by
          cases h : listTruthy u.emails
          · rfl
          · exact absurd h c2
        have hv : SCIMUser.construct u = .error "emails 是必填字段" := by
          rw [hrw]
          simp [SCIMUser.validate, c1, hfalse, except_bind_error]
        refine ⟨fun _ => Or.inr ?_, fun _ => ⟨_, hv⟩⟩
        rcases (listTruthy_eq_false_iff u.emails).mp hfalse with h | h
        · exact Or.inl h
        · exact Or.inr (Or.inl h)
  · intro r hem hph hmg
    have hemails : ∃ es, parseEmails r.emails = .ok es := by
      cases hre : r.emails with
      | none => exact ⟨none, rfl⟩
      | some l =>
        by_cases hl : l = []
        · subst hl
          exact ⟨none, rfl⟩
        · rcases mapExcept_ok_of_forall SCIMEmail.fromDict l (fun e he => by
            have hv := hem e (by rw [hre]; simpa using he)
            exact ⟨{ value := e.value.getD "", type := e.type,
                     primary := e.primary },
              by simp [SCIMEmail.fromDict, hv]⟩) with ⟨ys, hys⟩
          refine ⟨some ys, ?_⟩
          simp [parseEmails, hl, hys, Except.map]
    have hphones : ∃ ps', parsePhones r.phoneNumbers = .ok ps' := by
      cases hre : r.phoneNumbers with
      | none => exact ⟨none, rfl⟩
      | some l =>
        by_cases hl : l = []
        · subst hl
          exact ⟨none, rfl⟩
        · rcases mapExcept_ok_of_forall SCIMPhoneNumber.fromDict l (fun p hp => by
            have hv := hph p (by rw [hre]; simpa using hp)
            exact ⟨{ value := p.value.getD "", type := p.type },
              by simp [SCIMPhoneNumber.fromDict, hv]⟩) with ⟨ys, hys⟩
          refine ⟨some ys, ?_⟩
          simp [parsePhones, hl, hys, Except.map]
    have hent : ∃ en, parseEnterprise r.enterprise = .ok en := by
      cases hre : r.enterprise with
      | none => exact ⟨none, rfl⟩
      | some ent =>
        by_cases htr : ent.truthy = true
        · have hm : ∃ mg, parseManager ent.manager = .ok mg := by
            cases hrm : ent.manager with
            | none => exact ⟨none, rfl⟩
            | some m =>
              by_cases hmt : m.truthy = true
              · have hv := hmg ent hre m hrm hmt
                refine ⟨some { value := m.value.getD "", ref := m.ref }, ?_⟩
                simp [parseManager, hmt, SCIMManager.fromDict, hv, Except.map]
              · refine ⟨none, ?_⟩
                simp only [parseManager, hmt, if_false]
                rfl
          rcases hm with ⟨mg, hmge⟩
          refine ⟨some ⟨ent.employeeNumber, ent.costCenter, ent.organization,
            ent.division, ent.department, mg⟩, ?_⟩
          simp only [parseEnterprise, htr, if_true]
          unfold SCIMEnterpriseUser.fromDict
          simp only [hmge]
          rfl
        · refine ⟨none, ?_⟩
          simp only [parseEnterprise, htr, if_false]
          rfl
    rcases hemails with ⟨es, hes⟩
    rcases hphones with ⟨ps', hps⟩
    rcases hent with ⟨en, hen⟩
    let nm : Option SCIMName := match r.name with
      | some n => if n.truthy then some (SCIMName.fromDict n) else none
      | none => none
    let ad : Option (List SCIMAddress) := match r.addresses with
      | some l => if l ≠ [] then some (l.map SCIMAddress.fromDict) else none
      | none => none
    let rl : Option (List SCIMRole) := match r.roles with
      | some l => if l ≠ [] then some (l.map SCIMRole.fromDict) else none
      | none => none
    refine ⟨⟨r.userName.getD "", r.id, r.externalId, r.displayName, r.nickName,
      r.profileUrl, r.title, r.userType, r.preferredLanguage, r.locale,
      r.timezone, r.active, nm, es, ps', ad, rl, en⟩, ?_⟩
    unfold SCIMUser.fromDict
    simp only [hes, hps, hen]
    rfl

/-- C7 counterexample: a record parsed from a directory response *can* raise
a validation error — an email sub-object without a `value` makes
`SCIMUser.from_dict` raise, contradicting "a record parsed from a response
never raises ValidationError, whatever its content". -/
theorem c7_from_dict_counterexample :
    SCIMUser.fromDict
        { userName := some "user1", emails := some [{ type := some "work" }] } =
      .error "email.value 是必填字段" := by
  rfl

theorem c7_validation_asymmetry_witness :
    (∃ e, SCIMUser.construct
      { userName := "user1",
        emails := some [{ value := "a@b.com" }, { value := "c@d.com" }] } = .error e) ∧
    (∃ u, SCIMUser.fromDict
      { emails := some [{ value := "a@b.com" }, { value := "c@d.com" }] } = .ok u) := by
  have h := c7_validation_asymmetry
  constructor
  · exact (h.1 _).mpr (by simp)
  · exact h.2 _ (by intro e he; fin_cases he <;> simp)
      (by intro p hp; simp at hp) (by intro ent hent; simp at hent)

/-- C10: calling the group membership add or remove operation with an empty
user-id list returns immediately with no patch call issued. -/
theorem c10_empty_member_list (patchRes : List String → Option String)
    (gid : String) :
    addGroupMembers patchRes gid [] = (.ok (), []) ∧
    removeGroupMembers patchRes gid [] = (.ok (), []) :=
  ⟨rfl, rfl⟩

/-! ## Per-item shape lemmas for the sync loops -/

/-- A loop iteration contributes its item's natural key to exactly one of
the four classification buckets — or one error string of the form
`"<name>: <message>"`. -/
def ItemDelta.oneBucketFor (d : ItemDelta) (name : String) : Prop :=
  (d.created = [name] ∧ d.updated = [] ∧ d.unchanged = [] ∧ d.errors = []) ∨
  (d.created = [] ∧ d.updated = [name] ∧ d.unchanged = [] ∧ d.errors = []) ∨
  (d.created = [] ∧ d.updated = [] ∧ d.unchanged = [name] ∧ d.errors = []) ∨
  (∃ msg, d.created = [] ∧ d.updated = [] ∧ d.unchanged = [] ∧
    d.errors = [name ++ ": " ++ msg])

theorem userStep_oneBucket (env : UserSyncEnv)
    (idcUsers : List (String × SCIMUser)) (dryRun : Bool) (u : SCIMUser) :
    (userStep env idcUsers dryRun u).oneBucketFor u.userName ∧
    (userStep env idcUsers dryRun u).deleted = [] := by
  unfold userStep ItemDelta.oneBucketFor
  cases hfind : pyGet idcUsers u.userName with
  | some idcUser =>
    by_cases hch : diffDict (u.toDict) (idcUser.toDict) = []
    · simp [hfind, hch]
    · by_cases hdr : dryRun = true
      · simp [hfind, hch, hdr]
      · have hdr' : dryRun = false := by
          cases dryRun
          · rfl
          · exact absurd rfl hdr
        by_cases hid : optTruthy idcUser.id = true
        · cases hup : env.updateRes u.userName with
          | some msg => simp [hfind, hch, hdr', hid, hup]
          | none => simp [hfind, hch, hdr', hid, hup]
        · have hid' : optTruthy idcUser.id = false := by
            cases h : optTruthy idcUser.id
            · rfl
            · exact absurd h hid
          constructor
          · refine Or.inr (Or.inr (Or.inr ⟨"User id is required for update", ?_⟩))
            simp only [hfind, hch, hdr', hid', Bool.false_eq_true, if_false,
              ite_false]
            refine ⟨trivial, trivial, trivial, ?_⟩
            rw [String.append_assoc]
            have hs : (": " ++ "User id is required for update" : String) =
                ": User id is required for update" := by decide
            rw [hs]
          · simp [hfind, hch, hdr', hid']
  | none =>
    by_cases hdr : dryRun = true
    · simp [hfind, hdr]
    · have hdr' : dryRun = false := by
        cases dryRun
        · rfl
        · exact absurd rfl hdr
      cases hcr : env.createRes u.userName with
      | error msg => simp [hfind, hdr', hcr]
      | ok newId => simp [hfind, hdr', hcr]

theorem userDeleteStep_shape (env : UserSyncEnv) (localNames : List String)
    (dryRun : Bool) (p : String × SCIMUser) :
    (userDeleteStep env localNames dryRun p).created = [] ∧
    (userDeleteStep env localNames dryRun p).updated = [] ∧
    (userDeleteStep env localNames dryRun p).unchanged = [] ∧
    ((userDeleteStep env localNames dryRun p).deleted = [] ∨
      ((userDeleteStep env localNames dryRun p).deleted = [p.1] ∧
        ¬ p.1 ∈ localNames)) := by
  unfold userDeleteStep
  by_cases hc : ¬ p.1 ∈ localNames ∧ optTruthy p.2.id = true
  · by_cases hdr : dryRun = true
    · simp [hc, hdr, hc.1]
    · have hdr' : dryRun = false := by
        cases dryRun
        · rfl
        · exact absurd rfl hdr
      cases hdel : env.deleteRes (p.2.id.getD "") with
      | some msg => simp [hc, hdr', hdel]
      | none => simp [hc, hdr', hdel, hc.1]
  · simp [hc]

/-- Run equation: a successful baseline fetch makes the user sync the
composition of the two loop phases. -/
theorem syncUsersImpl_eq (env : UserSyncEnv) (users : List SCIMUser)
    (allowDelete dryRun : Bool) (baseline : List SCIMUser)
    (h : env.listUsersRes = .ok baseline) :
    syncUsersImpl env users allowDelete dryRun =
      .ok (
        if allowDelete then
          runFold
            (userDeleteStep env (users.map (fun u => u.userName)) dryRun)
            (runFold
              (userStep env (pyDictOf (baseline.map (fun u => (u.userName, u))))
                dryRun) ({ }, []) users)
            (pyDictOf (baseline.map (fun u => (u.userName, u))))
        else
          runFold
            (userStep env (pyDictOf (baseline.map (fun u => (u.userName, u))))
              dryRun) ({ }, []) users) := by
  rw [syncUsersImpl, h]

theorem sum_lengths_flatMap {α β : Type} (f g h k : α → List β) (l : List α)
    (hone : ∀ x ∈ l,
      (f x).length + (g x).length + (h x).length + (k x).length = 1) :
    (l.flatMap f).length + (l.flatMap g).length + (l.flatMap h).length +
      (l.flatMap k).length = l.length := by
  induction l with
  | nil => simp
  | cons x xs ih =>
    have hx := hone x (by simp)
    have hxs := ih (fun y hy => hone y (by simp [hy]))
    simp only [List.flatMap_cons, List.length_append, List.length_cons]
    omega

theorem oneBucket_sum (d : ItemDelta) (n : String)
    (h : d.oneBucketFor n) :
    d.created.length + d.updated.length + d.unchanged.length +
      d.errors.length = 1 := by
  rcases h with ⟨h1, h2, h3, h4⟩ | ⟨h1, h2, h3, h4⟩ | ⟨h1, h2, h3, h4⟩ |
    ⟨msg, h1, h2, h3, h4⟩ <;> simp [h1, h2, h3, h4]

theorem flatMap_eq_nil_of_forall {α β : Type} (l : List α) (f : α → List β)
    (h : ∀ x ∈ l, f x = []) : l.flatMap f = [] := by
  induction l with
  | nil => rfl
  | cons x xs ih =>
    simp only [List.flatMap_cons, h x (by simp),
      ih (fun y hy => h y (by simp [hy])), List.nil_append]

theorem userMain_mem (env : UserSyncEnv) (idc : List (String × SCIMUser))
    (dryRun : Bool) (users : List SCIMUser) (u : SCIMUser) (hu : u ∈ users) :
    u.userName ∈ (runFold (userStep env idc dryRun) ({ }, []) users).1.created ∨
    u.userName ∈ (runFold (userStep env idc dryRun) ({ }, []) users).1.updated ∨
    u.userName ∈ (runFold (userStep env idc dryRun) ({ }, []) users).1.unchanged ∨
    ∃ msg, (u.userName ++ ": " ++ msg) ∈
      (runFold (userStep env idc dryRun) ({ }, []) users).1.errors := by
  rcases (userStep_oneBucket env idc dryRun u).1 with
    ⟨h1, _, _, _⟩ | ⟨_, h2, _, _⟩ | ⟨_, _, h3, _⟩ | ⟨msg, _, _, _, h4⟩
  · refine Or.inl ?_
    rw [runFold_created]
    simp only [List.mem_append]
    exact Or.inr (List.mem_flatMap.mpr ⟨u, hu, by rw [h1]; simp⟩)
  · refine Or.inr (Or.inl ?_)
    rw [runFold_updated]
    simp only [List.mem_append]
    exact Or.inr (List.mem_flatMap.mpr ⟨u, hu, by rw [h2]; simp⟩)
  · refine Or.inr (Or.inr (Or.inl ?_))
    rw [runFold_unchanged]
    simp only [List.mem_append]
    exact Or.inr (List.mem_flatMap.mpr ⟨u, hu, by rw [h3]; simp⟩)
  · refine Or.inr (Or.inr (Or.inr ⟨msg, ?_⟩))
    rw [runFold_errors]
    simp only [List.mem_append]
    exact Or.inr (List.mem_flatMap.mpr ⟨u, hu, by rw [h4]; simp⟩)

theorem userMain_count (env : UserSyncEnv) (idc : List (String × SCIMUser))
    (dryRun : Bool) (users : List SCIMUser) :
    (runFold (userStep env idc dryRun) ({ }, []) users).1.created.length +
    (runFold (userStep env idc dryRun) ({ }, []) users).1.updated.length +
    (runFold (userStep env idc dryRun) ({ }, []) users).1.unchanged.length +
    (runFold (userStep env idc dryRun) ({ }, []) users).1.errors.length =
      users.length := by
  rw [runFold_created, runFold_updated, runFold_unchanged, runFold_errors]
  have h := sum_lengths_flatMap (fun u => (userStep env idc dryRun u).created)
    (fun u => (userStep env idc dryRun u).updated)
    (fun u => (userStep env idc dryRun u).unchanged)
    (fun u => (userStep env idc dryRun u).errors) users
    (fun u _ => oneBucket_sum _ _ (userStep_oneBucket env idc dryRun u).1)
  simpa using h

/-- C3: during user sync a failing per-item mutating call is caught
individually, recorded as `"<name>: <message>"`, and every desired user is
still classified or error-recorded (the four buckets plus errors cover the
whole desired list, one entry per item when deletion is off); a failure of
the baseline listing propagates out of the sync and no outcome is
returned. -/
theorem c3_user_sync_error_isolation (env : UserSyncEnv)
    (users : List SCIMUser) (allowDelete dryRun : Bool) :
    (∀ e, env.listUsersRes = .error e →
      syncUsersImpl env users allowDelete dryRun = .error e) ∧
    (∀ baseline, env.listUsersRes = .ok baseline →
      (∃ res, syncUsersImpl env users allowDelete dryRun = .ok res) ∧
      (∀ r t, syncUsersImpl env users allowDelete dryRun = .ok (r, t) →
        (∀ u ∈ users, u.userName ∈ r.created ∨ u.userName ∈ r.updated ∨
          u.userName ∈ r.unchanged ∨
          ∃ msg, (u.userName ++ ": " ++ msg) ∈ r.errors) ∧
        (allowDelete = false →
          r.created.length + r.updated.length + r.unchanged.length +
            r.errors.length = users.length) ∧
        (∀ u ∈ users, ∀ msg,
          pyGet (pyDictOf (baseline.map (fun x => (x.userName, x))))
              u.userName = none →
          dryRun = false → env.createRes u.userName = .error msg →
          (u.userName ++ ": " ++ msg) ∈ r.errors))) := by
  constructor
  · intro e he
    rw [syncUsersImpl, he]
  · intro baseline hb
    constructor
    · rw [syncUsersImpl_eq env users allowDelete dryRun baseline hb]
      exact ⟨_, rfl⟩
    · intro r t heq
      rw [syncUsersImpl_eq env users allowDelete dryRun baseline hb] at heq
      injection heq with hpair
      cases allowDelete with
      | false =>
        rw [if_neg Bool.false_ne_true] at hpair
        have hr : r =
            (runFold (userStep env
              (pyDictOf (baseline.map (fun u => (u.userName, u)))) dryRun)
              ({ }, []) users).1 := by
          rw [hpair]
        refine ⟨?_, ?_, ?_⟩
        · intro u hu
          rw [hr]
          exact userMain_mem env _ dryRun users u hu
        · intro _
          rw [hr]
          exact userMain_count env _ dryRun users
        · intro u hu msg hnone hdr hcr
          have hstep : (userStep env
              (pyDictOf (baseline.map (fun x => (x.userName, x)))) dryRun u).errors =
              [u.userName ++ ": " ++ msg] := by
            subst hdr
            simp [userStep, hnone, hcr]
          rw [hr, runFold_errors]
          simp only [List.mem_append]
          exact Or.inr (List.mem_flatMap.mpr ⟨u, hu, by rw [hstep]; simp⟩)
      | true =>
        rw [if_pos rfl] at hpair
        have hr : r =
            (runFold (userDeleteStep env (users.map (fun x => x.userName)) dryRun)
              (runFold (userStep env
                (pyDictOf (baseline.map (fun u => (u.userName, u)))) dryRun)
                ({ }, []) users)
              (pyDictOf (baseline.map (fun u => (u.userName, u))))).1 := by
          rw [hpair]
        refine ⟨?_, ?_, ?_⟩
        · intro u hu
          have hmain := userMain_mem env
            (pyDictOf (baseline.map (fun u => (u.userName, u)))) dryRun users u hu
          rcases hmain with h | h | h | ⟨msg, h⟩
          · refine Or.inl ?_
            rw [hr, runFold_created, flatMap_eq_nil_of_forall _ _
              (fun p _ => (userDeleteStep_shape env _ dryRun p).1),
              List.append_nil]
            exact h
          · refine Or.inr (Or.inl ?_)
            rw [hr, runFold_updated, flatMap_eq_nil_of_forall _ _
              (fun p _ => (userDeleteStep_shape env _ dryRun p).2.1),
              List.append_nil]
            exact h
          · refine Or.inr (Or.inr (Or.inl ?_))
            rw [hr, runFold_unchanged, flatMap_eq_nil_of_forall _ _
              (fun p _ => (userDeleteStep_shape env _ dryRun p).2.2.1),
              List.append_nil]
            exact h
          · refine Or.inr (Or.inr (Or.inr ⟨msg, ?_⟩))
            rw [hr, runFold_errors]
            simp only [List.mem_append]
            exact Or.inl h
        · intro hfalse
          cases hfalse
        · intro u hu msg hnone hdr hcr
          have hstep : (userStep env
              (pyDictOf (baseline.map (fun x => (x.userName, x)))) dryRun u).errors =
              [u.userName ++ ": " ++ msg] := by
            subst hdr
            simp [userStep, hnone, hcr]
          rw [hr, runFold_errors]
          simp only [List.mem_append]
          refine Or.inl ?_
          rw [runFold_errors]
          simp only [List.mem_append]
          exact Or.inr (List.mem_flatMap.mpr ⟨u, hu, by rw [hstep]; simp⟩)

/-- Environment for the error-isolation witness: empty directory, the
create call for `"alice"` fails with a simulated 400, the one for `"bob"`
succeeds. -/
def envC3 : UserSyncEnv :=
  { listUsersRes := .ok [],
    createRes := fun n =>
      if n = "alice" then .error "simulated 400" else .ok (some "id-bob"),
    updateRes := fun _ => none,
    deleteRes := fun _ => none }

/-- Desired users for the witness. -/
def aliceUser : SCIMUser := { userName := "alice", emails := some [{ value := "a@x.com" }] }

def bobUser : SCIMUser := { userName := "bob", emails := some [{ value := "b@x.com" }] }

theorem c3_user_sync_error_isolation_witness :
    ∃ r t, syncUsersImpl envC3 [aliceUser, bobUser] false false = .ok (r, t) ∧
      ("alice" ++ ": " ++ "simulated 400") ∈ r.errors ∧
      (bobUser.userName ∈ r.created ∨ bobUser.userName ∈ r.updated ∨
        bobUser.userName ∈ r.unchanged ∨
        ∃ msg, (bobUser.userName ++ ": " ++ msg) ∈ r.errors) := by
  obtain ⟨hex, hall⟩ :=
    (c3_user_sync_error_isolation envC3 [aliceUser, bobUser] false false).2 [] rfl
  obtain ⟨res, heq⟩ := hex
  obtain ⟨hmem, hcount, hfail⟩ := hall res.1 res.2 heq
  refine ⟨res.1, res.2, heq, ?_, hmem bobUser (by simp)⟩
  have := hfail aliceUser (by simp) "simulated 400" rfl rfl rfl
  simpa using this

/-! ## Group-sync helper lemmas -/

theorem currentMembersOf_calls (env : GroupSyncEnv) (gid : String)
    (uids : List String) :
    (currentMembersOf env gid uids).2 =
      (uids.filter (fun uid => uid ≠ "")).map Call.userGroupsQuery := by
  suffices h : ∀ acc : List String × List Call,
      (uids.foldl (currentMemberStep env gid) acc).2 =
      acc.2 ++ (uids.filter (fun uid => uid ≠ "")).map Call.userGroupsQuery by
    simpa using h ([], [])
  induction uids with
  | nil => intro acc; simp
  | cons uid rest ih =>
    intro acc
    rw [List.foldl_cons, ih]
    by_cases hu : uid = ""
    · simp [currentMemberStep, hu]
    · by_cases hm : (env.userGroupsRes uid).any (fun g => g.id = some gid) = true
      · simp [currentMemberStep, hu, hm]
      · simp [currentMemberStep, hu, hm]

theorem currentMembersOf_mem (env : GroupSyncEnv) (gid : String)
    (uids : List String) (x : String) :
    x ∈ (currentMembersOf env gid uids).1 ↔
      (x ∈ uids ∧ x ≠ "" ∧
        (env.userGroupsRes x).any (fun g => g.id = some gid) = true) := by
  suffices h : ∀ acc : List String × List Call,
      (x ∈ (uids.foldl (currentMemberStep env gid) acc).1 ↔
      (x ∈ acc.1 ∨ (x ∈ uids ∧ x ≠ "" ∧
        (env.userGroupsRes x).any (fun g => g.id = some gid) = true))) by
    have := h ([], [])
    simpa using this
  induction uids with
  | nil => intro acc; simp
  | cons uid rest ih =>
    intro acc
    rw [List.foldl_cons, ih]
    by_cases hu : uid = ""
    · subst hu
      constructor
      · rintro (h | h)
        · rw [currentMemberStep, if_neg (by simp)] at h
          exact Or.inl h
        · exact Or.inr ⟨by simp [h.1], h.2⟩
      · rintro (h | ⟨hmem, hne, hany⟩)
        · refine Or.inl ?_
          rw [currentMemberStep, if_neg (by simp)]
          exact h
        · rcases List.mem_cons.mp hmem with rfl | hmem'
          · exact absurd rfl hne
          · exact Or.inr ⟨hmem', hne, hany⟩
    · by_cases hm : (env.userGroupsRes uid).any (fun g => g.id = some gid) = true
      · rw [show currentMemberStep env gid acc uid =
            (pySetAdd acc.1 uid, acc.2 ++ [Call.userGroupsQuery uid]) by
          rw [currentMemberStep, if_pos hu, if_pos hm]]
        simp only [mem_pySetAdd]
        constructor
        · rintro (⟨h | rfl⟩ | h)
          · exact Or.inl h
          · exact Or.inr ⟨by simp, hu, hm⟩
          · exact Or.inr ⟨by simp [h.1], h.2⟩
        · rintro (h | ⟨hmem, hne, hany⟩)
          · exact Or.inl (Or.inl h)
          · rcases List.mem_cons.mp hmem with rfl | hmem'
            · exact Or.inl (Or.inr rfl)
            · exact Or.inr ⟨hmem', hne, hany⟩
      · rw [show currentMemberStep env gid acc uid =
            (acc.1, acc.2 ++ [Call.userGroupsQuery uid]) by
          rw [currentMemberStep, if_pos hu, if_neg (by simp [hm])]]
        constructor
        · rintro (h | h)
          · exact Or.inl h
          · exact Or.inr ⟨by simp [h.1], h.2⟩
        · rintro (h | ⟨hmem, hne, hany⟩)
          · exact Or.inl h
          · rcases List.mem_cons.mp hmem with rfl | hmem'
            · exact absurd hany (by simp [hm])
            · exact Or.inr ⟨hmem', hne, hany⟩

theorem patchBatches_no_query (gid : String) (op : PatchOpType)
    (patchRes : List String → Option String) (bs : List (List String)) :
    (patchBatches gid op patchRes bs).2.filter Call.isMembershipQuery = [] := by
  induction bs with
  | nil => rfl
  | cons b rest ih =>
    simp only [patchBatches]
    cases patchRes b with
    | some msg => simp [Call.isMembershipQuery]
    | none => simp [Call.isMembershipQuery, ih]

theorem addGroupMembers_no_query (patchRes : List String → Option String)
    (gid : String) (ids : List String) :
    (addGroupMembers patchRes gid ids).2.filter Call.isMembershipQuery = [] := by
  by_cases h : ids = []
  · simp [addGroupMembers, h]
  · rw [addGroupMembers, if_neg h]
    exact patchBatches_no_query gid .add patchRes _

theorem removeGroupMembers_no_query (patchRes : List String → Option String)
    (gid : String) (ids : List String) :
    (removeGroupMembers patchRes gid ids).2.filter Call.isMembershipQuery = [] := by
  by_cases h : ids = []
  · simp [removeGroupMembers, h]
  · rw [removeGroupMembers, if_neg h]
    exact patchBatches_no_query gid .remove patchRes _

theorem addGroupMembers_ok (patchRes : List String → Option String)
    (gid : String) (ids : List String) (h : ∀ b, patchRes b = none) :
    (addGroupMembers patchRes gid ids).1 = .ok () := by
  by_cases hne : ids = []
  · simp [addGroupMembers, hne]
  · rw [addGroupMembers, if_neg hne,
      patchBatches_ok gid .add patchRes _ (fun b _ => h b)]

theorem removeGroupMembers_ok (patchRes : List String → Option String)
    (gid : String) (ids : List String) (h : ∀ b, patchRes b = none) :
    (removeGroupMembers patchRes gid ids).1 = .ok () := by
  by_cases hne : ids = []
  · simp [removeGroupMembers, hne]
  · rw [removeGroupMembers, if_neg hne,
      patchBatches_ok gid .remove patchRes _ (fun b _ => h b)]

theorem filter_query_map_query (l : List String) :
    (l.map Call.userGroupsQuery).filter Call.isMembershipQuery =
      l.map Call.userGroupsQuery := by
  induction l with
  | nil => rfl
  | cons x xs ih => simp [Call.isMembershipQuery, ih]

theorem length_filter_flatMap {α β : Type} (l : List α) (f : α → List β)
    (p : β → Bool) :
    ((l.flatMap f).filter p).length =
      (l.map (fun x => ((f x).filter p).length)).sum := by
  induction l with
  | nil => rfl
  | cons x xs ih =>
    simp only [List.flatMap_cons, List.filter_append, List.length_append,
      List.map_cons, List.sum_cons, ih]

theorem ite_addGroupMembers_no_query (c : Prop) [Decidable c]
    (p : List String → Option String) (gid : String) (l : List String) :
    ((if c then addGroupMembers p gid l else (.ok (), [])).2).filter
      Call.isMembershipQuery = [] := by
  by_cases h : c
  · rw [if_pos h]
    exact addGroupMembers_no_query p gid l
  · rw [if_neg h]
    rfl

theorem ite_removeGroupMembers_no_query (c : Prop) [Decidable c]
    (p : List String → Option String) (gid : String) (l : List String) :
    ((if c then removeGroupMembers p gid l else (.ok (), [])).2).filter
      Call.isMembershipQuery = [] := by
  by_cases h : c
  · rw [if_pos h]
    exact removeGroupMembers_no_query p gid l
  · rw [if_neg h]
    rfl

/-- The number of membership-containment queries a single group iteration
issues: one per (truthy) entry of the userName→id map when the group exists
in the directory with a truthy id, and zero otherwise. -/
theorem groupStep_queryCount (env : GroupSyncEnv)
    (idcGroups : List (String × SCIMGroup))
    (userIdMap idToName : List (String × String))
    (membersMap : List (String × List String))
    (allowRemoveMembers dryRun : Bool) (g : SCIMGroup) :
    ((groupStep env idcGroups userIdMap idToName membersMap
        allowRemoveMembers dryRun g).calls.filter
      Call.isMembershipQuery).length =
    (match pyGet idcGroups g.displayName with
     | some ig =>
       if optTruthy ig.id = true then
         ((userIdMap.map (fun p => p.2)).filter (fun uid => uid ≠ "")).length
       else 0
     | none => 0) := by
  unfold groupStep
  cases hfind : pyGet idcGroups g.displayName with
  | none =>
    simp only [hfind]
    split
    · rfl
    · split
      · rfl
      · split
        · split <;>
            simp [Call.isMembershipQuery, addGroupMembers_no_query]
        · rfl
  | some ig =>
    simp only [hfind]
    by_cases hid : optTruthy ig.id = true
    · rw [if_pos hid]
      split
      · next h => exact absurd hid (by simpa using h)
      · by_cases har : allowRemoveMembers = true
        · simp only [har, eq_self_iff_true, if_true]
          split
          · simp only [currentMembersOf_calls, filter_query_map_query,
              List.length_map]
          · split
            · simp only [currentMembersOf_calls, filter_query_map_query,
                List.length_map]
            · split
              · simp only [List.filter_append, ite_addGroupMembers_no_query,
                  currentMembersOf_calls, filter_query_map_query,
                  List.length_append, List.length_map, List.length_nil,
                  Nat.add_zero]
              · split <;>
                  simp only [List.filter_append, ite_addGroupMembers_no_query,
                    ite_removeGroupMembers_no_query, currentMembersOf_calls,
                    filter_query_map_query, List.length_append,
                    List.length_map, List.length_nil, Nat.add_zero]
        · have har0 : allowRemoveMembers = false := by
            cases allowRemoveMembers
            · rfl
            · exact absurd rfl har
          simp only [har0, Bool.false_eq_true, if_false]
          split
          · simp only [currentMembersOf_calls, filter_query_map_query,
              List.length_map]
          · split
            · simp only [currentMembersOf_calls, filter_query_map_query,
                List.length_map]
            · split
              · simp only [List.filter_append, ite_addGroupMembers_no_query,
                  currentMembersOf_calls, filter_query_map_query,
                  List.length_append, List.length_map, List.length_nil,
                  Nat.add_zero]
              · split <;>
                  simp only [List.filter_append, ite_addGroupMembers_no_query,
                    ite_removeGroupMembers_no_query, currentMembersOf_calls,
                    filter_query_map_query, List.length_append,
                    List.length_map, List.length_nil, Nat.add_zero]
    · rw [if_neg hid]
      split
      · rfl
      · next h => exact absurd (by simpa using h) hid

theorem groupDeleteStep_no_query (env : GroupSyncEnv)
    (localNames : List String) (dryRun : Bool) (p : String × SCIMGroup) :
    (groupDeleteStep env localNames dryRun p).calls.filter
      Call.isMembershipQuery = [] := by
  unfold groupDeleteStep
  by_cases hc : ¬ p.1 ∈ localNames ∧ optTruthy p.2.id = true
  · by_cases hdr : dryRun = true
    · simp [hc, hdr]
    · have hdr' : dryRun = false := by
        cases dryRun
        · rfl
        · exact absurd rfl hdr
      cases hdel : env.deleteGroupRes (p.2.id.getD "") with
      | some msg => simp [hc, hdr', hdel, Call.isMembershipQuery]
      | none => simp [hc, hdr', hdel, Call.isMembershipQuery]
  · simp [hc]

theorem filter_flatMap_eq_nil {α β : Type} (l : List α) (f : α → List β)
    (p : β → Bool) (h : ∀ x ∈ l, (f x).filter p = []) :
    (l.flatMap f).filter p = [] := by
  induction l with
  | nil => rfl
  | cons x xs ih =>
    simp only [List.flatMap_cons, List.filter_append, h x (by simp),
      ih (fun y hy => h y (by simp [hy])), List.nil_append]

/-- Run equation: with both baselines fetched, the group sync is the
composition of the two loop phases over the derived lookup maps. -/
theorem syncGroupsImpl_eq (env : GroupSyncEnv) (groups : List SCIMGroup)
    (membersMap : List (String × List String))
    (allowDelete allowRemoveMembers dryRun : Bool)
    (groupBaseline : List SCIMGroup) (userBaseline : List SCIMUser)
    (hg : env.listGroupsRes = .ok groupBaseline)
    (hu : env.listUsersRes = .ok userBaseline) :
    syncGroupsImpl env groups membersMap allowDelete allowRemoveMembers dryRun =
      .ok (
        if allowDelete then
          runFold (groupDeleteStep env (groups.map (fun g => g.displayName)) dryRun)
            (runFold (groupStep env
              (pyDictOf (groupBaseline.map (fun g => (g.displayName, g))))
              (pyDictOf ((userBaseline.filter (fun u => optTruthy u.id)).map
                (fun u => (u.userName, u.id.getD ""))))
              (pyDictOf ((userBaseline.filter (fun u => optTruthy u.id)).map
                (fun u => (u.id.getD "", u.userName))))
              membersMap allowRemoveMembers dryRun) ({ }, []) groups)
            (pyDictOf (groupBaseline.map (fun g => (g.displayName, g))))
        else
          runFold (groupStep env
            (pyDictOf (groupBaseline.map (fun g => (g.displayName, g))))
            (pyDictOf ((userBaseline.filter (fun u => optTruthy u.id)).map
              (fun u => (u.userName, u.id.getD ""))))
            (pyDictOf ((userBaseline.filter (fun u => optTruthy u.id)).map
              (fun u => (u.id.getD "", u.userName))))
            membersMap allowRemoveMembers dryRun) ({ }, []) groups) := by
  rw [syncGroupsImpl, hg, hu]

/-- C5 (amended): the engine recomputes the membership index inside the
per-group loop — each desired group that exists in the directory with a
truthy id triggers one membership-containment query per entry of the
userName→id map, so a run issues (number of such groups) × (number of known
users) queries, not one query per known user per run. -/
theorem c5_queries_per_group_user_pair (env : GroupSyncEnv)
    (groups : List SCIMGroup) (membersMap : List (String × List String))
    (allowDelete allowRemoveMembers dryRun : Bool)
    (groupBaseline : List SCIMGroup) (userBaseline : List SCIMUser)
    (hg : env.listGroupsRes = .ok groupBaseline)
    (hu : env.listUsersRes = .ok userBaseline) :
    ∀ r t, syncGroupsImpl env groups membersMap allowDelete
        allowRemoveMembers dryRun = .ok (r, t) →
      (t.filter Call.isMembershipQuery).length =
        (groups.map (fun g =>
          match pyGet (pyDictOf (groupBaseline.map
              (fun x => (x.displayName, x)))) g.displayName with
          | some ig =>
            if optTruthy ig.id = true then
              (((pyDictOf ((userBaseline.filter (fun u => optTruthy u.id)).map
                  (fun u => (u.userName, u.id.getD "")))).map
                (fun p => p.2)).filter (fun uid => uid ≠ "")).length
            else 0
          | none => 0)).sum := by
  intro r t heq
  rw [syncGroupsImpl_eq env groups membersMap allowDelete allowRemoveMembers
    dryRun groupBaseline userBaseline hg hu] at heq
  injection heq with hpair
  have ht : t = (if allowDelete then
      runFold (groupDeleteStep env (groups.map (fun g => g.displayName)) dryRun)
        (runFold (groupStep env
          (pyDictOf (groupBaseline.map (fun g => (g.displayName, g))))
          (pyDictOf ((userBaseline.filter (fun u => optTruthy u.id)).map
            (fun u => (u.userName, u.id.getD ""))))
          (pyDictOf ((userBaseline.filter (fun u => optTruthy u.id)).map
            (fun u => (u.id.getD "", u.userName))))
          membersMap allowRemoveMembers dryRun) ({ }, []) groups)
        (pyDictOf (groupBaseline.map (fun g => (g.displayName, g))))
      else
      runFold (groupStep env
        (pyDictOf (groupBaseline.map (fun g => (g.displayName, g))))
        (pyDictOf ((userBaseline.filter (fun u => optTruthy u.id)).map
          (fun u => (u.userName, u.id.getD ""))))
        (pyDictOf ((userBaseline.filter (fun u => optTruthy u.id)).map
          (fun u => (u.id.getD "", u.userName))))
        membersMap allowRemoveMembers dryRun) ({ }, []) groups).2 := by
    rw [hpair]
  have hmain : ((runFold (groupStep env
      (pyDictOf (groupBaseline.map (fun g => (g.displayName, g))))
      (pyDictOf ((userBaseline.filter (fun u => optTruthy u.id)).map
        (fun u => (u.userName, u.id.getD ""))))
      (pyDictOf ((userBaseline.filter (fun u => optTruthy u.id)).map
        (fun u => (u.id.getD "", u.userName))))
      membersMap allowRemoveMembers dryRun) ({ }, []) groups).2.filter
        Call.isMembershipQuery).length =
      (groups.map (fun g =>
        match pyGet (pyDictOf (groupBaseline.map
            (fun x => (x.displayName, x)))) g.displayName with
        | some ig =>
          if optTruthy ig.id = true then
            (((pyDictOf ((userBaseline.filter (fun u => optTruthy u.id)).map
                (fun u => (u.userName, u.id.getD "")))).map
              (fun p => p.2)).filter (fun uid => uid ≠ "")).length
          else 0
        | none => 0)).sum := by
    rw [runFold_calls]
    simp only [List.nil_append]
    rw [length_filter_flatMap]
    congr 1
    apply List.map_congr_left
    intro g _
    exact groupStep_queryCount env _ _ _ membersMap allowRemoveMembers dryRun g
  cases allowDelete with
  | false =>
    rw [ht, if_neg Bool.false_ne_true]
    exact hmain
  | true =>
    rw [ht, if_pos rfl, runFold_calls, List.filter_append,
      filter_flatMap_eq_nil _ _ _
        (fun p _ => groupDeleteStep_no_query env _ dryRun p),
      List.append_nil]
    exact hmain

/-! ## Concrete group-sync fixtures -/

def wEmail : SCIMEmail := { value := "m@x.com" }

def wUserA : SCIMUser := { userName := "A", emails := some [wEmail], id := some "idA" }

def wUserB : SCIMUser := { userName := "B", emails := some [wEmail], id := some "idB" }

def wUserC : SCIMUser := { userName := "C", emails := some [wEmail], id := some "idC" }

def wUserD : SCIMUser := { userName := "D", emails := some [wEmail], id := some "idD" }

def wGroup1 : SCIMGroup := { displayName := "g1", id := some "gid1" }

def wGroup2 : SCIMGroup := { displayName := "g2", id := some "gid2" }

/-- A directory with two groups and four users in which `g1`'s actual
members are `A`, `B`, `C` (per the reverse membership queries) and no
mutating call fails. -/
def wGroupEnv : GroupSyncEnv :=
  { listGroupsRes := .ok [wGroup1, wGroup2],
    listUsersRes := .ok [wUserA, wUserB, wUserC, wUserD],
    userGroupsRes := fun uid =>
      if uid = "idA" ∨ uid = "idB" ∨ uid = "idC" then [wGroup1] else [],
    createGroupRes := fun n => .ok { displayName := n, id := some ("new-" ++ n) },
    addPatchRes := fun _ _ => none,
    removePatchRes := fun _ _ => none,
    deleteGroupRes := fun _ => none }

def wUserIdMap : List (String × String) :=
  [("A", "idA"), ("B", "idB"), ("C", "idC"), ("D", "idD")]

def wIdToName : List (String × String) :=
  [("idA", "A"), ("idB", "B"), ("idC", "C"), ("idD", "D")]

/-- Desired membership equal to actual membership, so that the reconciling
run issues only queries (no patches). -/
def wMembersMap : List (String × List String) := [("g1", ["A", "B", "C"])]

/-- C5 counterexample: with 2 existing desired groups and 4 known users the
run issues 8 membership-containment queries — one per (group, user) pair —
not one per known user (4) as the claim states. -/
theorem c5_queries_counterexample :
    (match syncGroupsImpl wGroupEnv [wGroup1, wGroup2] wMembersMap false true false with
     | .ok (_, t) => (t.filter Call.isMembershipQuery).length
     | .error _ => 0) = 8 ∧
    (match wGroupEnv.listUsersRes with
     | .ok us => us.length
     | .error _ => 0) = 4 ∧
    ¬ (8 = 4) := by
  refine ⟨?_, rfl, by decide⟩
  decide

theorem c5_queries_per_group_user_pair_witness :
    ∃ r t, syncGroupsImpl wGroupEnv [wGroup1, wGroup2] wMembersMap false true false =
        .ok (r, t) ∧
      (t.filter Call.isMembershipQuery).length = 8 := by
  have heq := syncGroupsImpl_eq wGroupEnv [wGroup1, wGroup2] wMembersMap false
    true false [wGroup1, wGroup2] [wUserA, wUserB, wUserC, wUserD] rfl rfl
  have heq' : syncGroupsImpl wGroupEnv [wGroup1, wGroup2] wMembersMap false true false =
      .ok ((if false then
        runFold (groupDeleteStep wGroupEnv
          ([wGroup1, wGroup2].map (fun g => g.displayName)) false)
          (runFold (groupStep wGroupEnv
            (pyDictOf ([wGroup1, wGroup2].map (fun g => (g.displayName, g))))
            (pyDictOf (([wUserA, wUserB, wUserC, wUserD].filter
              (fun u => optTruthy u.id)).map
              (fun u => (u.userName, u.id.getD ""))))
            (pyDictOf (([wUserA, wUserB, wUserC, wUserD].filter
              (fun u => optTruthy u.id)).map
              (fun u => (u.id.getD "", u.userName))))
            wMembersMap true false) ({ }, []) [wGroup1, wGroup2])
          (pyDictOf ([wGroup1, wGroup2].map (fun g => (g.displayName, g))))
        else
        runFold (groupStep wGroupEnv
          (pyDictOf ([wGroup1, wGroup2].map (fun g => (g.displayName, g))))
          (pyDictOf (([wUserA, wUserB, wUserC, wUserD].filter
            (fun u => optTruthy u.id)).map
            (fun u => (u.userName, u.id.getD ""))))
          (pyDictOf (([wUserA, wUserB, wUserC, wUserD].filter
            (fun u => optTruthy u.id)).map
            (fun u => (u.id.getD "", u.userName))))
          wMembersMap true false) ({ }, []) [wGroup1, wGroup2]).1,
        (if false then
        runFold (groupDeleteStep wGroupEnv
          ([wGroup1, wGroup2].map (fun g => g.displayName)) false)
          (runFold (groupStep wGroupEnv
            (pyDictOf ([wGroup1, wGroup2].map (fun g => (g.displayName, g))))
            (pyDictOf (([wUserA, wUserB, wUserC, wUserD].filter
              (fun u => optTruthy u.id)).map
              (fun u => (u.userName, u.id.getD ""))))
            (pyDictOf (([wUserA, wUserB, wUserC, wUserD].filter
              (fun u => optTruthy u.id)).map
              (fun u => (u.id.getD "", u.userName))))
            wMembersMap true false) ({ }, []) [wGroup1, wGroup2])
          (pyDictOf ([wGroup1, wGroup2].map (fun g => (g.displayName, g))))
        else
        runFold (groupStep wGroupEnv
          (pyDictOf ([wGroup1, wGroup2].map (fun g => (g.displayName, g))))
          (pyDictOf (([wUserA, wUserB, wUserC, wUserD].filter
            (fun u => optTruthy u.id)).map
            (fun u => (u.userName, u.id.getD ""))))
          (pyDictOf (([wUserA, wUserB, wUserC, wUserD].filter
            (fun u => optTruthy u.id)).map
            (fun u => (u.id.getD "", u.userName))))
          wMembersMap true false) ({ }, []) [wGroup1, wGroup2]).2) :=
    heq.trans rfl
  have h := c5_queries_per_group_user_pair wGroupEnv [wGroup1, wGroup2]
    wMembersMap false true false [wGroup1, wGroup2]
    [wUserA, wUserB, wUserC, wUserD] rfl rfl _ _ heq'
  refine ⟨_, _, heq', ?_⟩
  rw [h]
  decide

/-- C1: for an existing desired group (present in the directory with a
truthy id, with no failing membership patch), the engine computes
`toAdd = desired − actual` and `toRemove = actual − desired` as genuine set
differences, `toRemove` being empty when member removal is disabled
(incremental sync); when both are empty the group is recorded unchanged,
otherwise it is recorded updated with the add/remove member lists annotated
with each member's userName. -/
theorem c1_group_reconcile_diff (env : GroupSyncEnv)
    (idcGroups : List (String × SCIMGroup))
    (userIdMap idToName : List (String × String))
    (membersMap : List (String × List String))
    (allowRemoveMembers dryRun : Bool) (g ig : SCIMGroup)
    (desired skipped actual : List String) (qc : List Call)
    (hfound : pyGet idcGroups g.displayName = some ig)
    (hid : optTruthy ig.id = true)
    (hres : resolveMembers userIdMap ((pyGet membersMap g.displayName).getD []) =
      (desired, skipped))
    (hcur : currentMembersOf env (ig.id.getD "")
      (userIdMap.map (fun p => p.2)) = (actual, qc))
    (hpadd : ∀ b, env.addPatchRes (ig.id.getD "") b = none)
    (hprem : ∀ b, env.removePatchRes (ig.id.getD "") b = none) :
    (∀ x, x ∈ pySetDiff desired actual ↔ (x ∈ desired ∧ ¬ x ∈ actual)) ∧
    (∀ x, x ∈ pySetDiff actual desired ↔ (x ∈ actual ∧ ¬ x ∈ desired)) ∧
    (allowRemoveMembers = false →
      (if allowRemoveMembers = true then pySetDiff actual desired else []) = []) ∧
    (pySetDiff desired actual = [] ∧
        (if allowRemoveMembers = true then pySetDiff actual desired else []) = [] →
      groupStep env idcGroups userIdMap idToName membersMap
          allowRemoveMembers dryRun g =
        { unchanged := [g.displayName],
          details :=
            if skipped ≠ [] then
              [(g.displayName, { idKey := some ig.id, skipped := some skipped })]
            else [],
          calls := qc }) ∧
    (¬ (pySetDiff desired actual = [] ∧
        (if allowRemoveMembers = true then pySetDiff actual desired else []) = []) →
      (groupStep env idcGroups userIdMap idToName membersMap
          allowRemoveMembers dryRun g).updated = [g.displayName] ∧
      (groupStep env idcGroups userIdMap idToName membersMap
          allowRemoveMembers dryRun g).unchanged = [] ∧
      (groupStep env idcGroups userIdMap idToName membersMap
          allowRemoveMembers dryRun g).errors = [] ∧
      pyGet (groupStep env idcGroups userIdMap idToName membersMap
          allowRemoveMembers dryRun g).details g.displayName =
        some { idKey := some ig.id,
               added := some (annotateMembers idToName
                 (pySetDiff desired actual)),
               removed := some (annotateMembers idToName
                 (if allowRemoveMembers = true then pySetDiff actual desired
                  else [])),
               skipped := some skipped }) := by
  refine ⟨fun x => mem_pySetDiff desired actual x,
    fun x => mem_pySetDiff actual desired x, ?_, ?_, ?_⟩
  · intro h
    rw [if_neg (by simp [h])]
  · intro ⟨hta, htr⟩
    unfold groupStep
    simp only [hfound, hres, hcur]
    rw [if_neg (fun hn => hn hid), if_pos ⟨hta, htr⟩]
  · intro hcond
    unfold groupStep
    simp only [hfound, hres, hcur]
    rw [if_neg (fun hn => hn hid), if_neg hcond]
    by_cases hdr : dryRun = true
    · rw [if_pos hdr]
      refine ⟨?_, ?_, ?_, ?_⟩
      · rfl
      · rfl
      · rfl
      · simp [pyGet]
    · rw [if_neg hdr]
      have haddEq : (if pySetDiff desired actual ≠ [] then
          addGroupMembers (env.addPatchRes (ig.id.getD "")) (ig.id.getD "")
            (pySetDiff desired actual)
        else ((.ok () : Except String Unit), ([] : List Call))).1 = .ok () := by
        by_cases hta : pySetDiff desired actual ≠ []
        · rw [if_pos hta]
          exact addGroupMembers_ok _ _ _ hpadd
        · rw [if_neg hta]
      have hremEq : (if (if allowRemoveMembers = true then
            pySetDiff actual desired else []) ≠ [] then
          removeGroupMembers (env.removePatchRes (ig.id.getD "")) (ig.id.getD "")
            (if allowRemoveMembers = true then pySetDiff actual desired else [])
        else ((.ok () : Except String Unit), ([] : List Call))).1 = .ok () := by
        by_cases htr : (if allowRemoveMembers = true then
            pySetDiff actual desired else []) ≠ []
        · rw [if_pos htr]
          exact removeGroupMembers_ok _ _ _ hprem
        · rw [if_neg htr]
      simp only [haddEq, hremEq]
      refine ⟨?_, ?_, ?_, ?_⟩
      · trivial
      · trivial
      · trivial
      · simp [pyGet]

theorem c1_group_reconcile_diff_witness :
    (groupStep wGroupEnv [("g1", wGroup1), ("g2", wGroup2)] wUserIdMap
        wIdToName [("g1", ["B", "C", "D"])] true false wGroup1).updated =
      ["g1"] ∧
    pyGet (groupStep wGroupEnv [("g1", wGroup1), ("g2", wGroup2)] wUserIdMap
        wIdToName [("g1", ["B", "C", "D"])] true false wGroup1).details "g1" =
      some { idKey := some (some "gid1"),
             added := some [("idD", "D")],
             removed := some [("idA", "A")],
             skipped := some [] } := by
  have h := c1_group_reconcile_diff wGroupEnv
    [("g1", wGroup1), ("g2", wGroup2)] wUserIdMap wIdToName
    [("g1", ["B", "C", "D"])] true false wGroup1 wGroup1
    ["idB", "idC", "idD"] [] ["idA", "idB", "idC"]
    [.userGroupsQuery "idA", .userGroupsQuery "idB", .userGroupsQuery "idC",
      .userGroupsQuery "idD"]
    rfl rfl rfl rfl (fun _ => rfl) (fun _ => rfl)
  have h2 := h.2.2.2.2 (by decide)
  exact ⟨h2.1, h2.2.2.2.trans (by decide)⟩

/-! ## Deletion-phase characterization -/

/-- The deletion condition of both sync loops: the natural key is absent
from the desired set and the record carries a truthy server id. -/
def deletableU (localNames : List String) (p : String × SCIMUser) : Bool :=
  decide (¬ p.1 ∈ localNames) && optTruthy p.2.id

def deletableG (localNames : List String) (p : String × SCIMGroup) : Bool :=
  decide (¬ p.1 ∈ localNames) && optTruthy p.2.id

theorem deletableU_iff (localNames : List String) (p : String × SCIMUser) :
    deletableU localNames p = true ↔
      (¬ p.1 ∈ localNames ∧ optTruthy p.2.id = true) := by
  simp [deletableU]

theorem deletableG_iff (localNames : List String) (p : String × SCIMGroup) :
    deletableG localNames p = true ↔
      (¬ p.1 ∈ localNames ∧ optTruthy p.2.id = true) := by
  simp [deletableG]

theorem userDeleteStep_eq (env : UserSyncEnv) (localNames : List String)
    (dryRun : Bool) (p : String × SCIMUser)
    (hnf : ∀ i, env.deleteRes i = none) :
    userDeleteStep env localNames dryRun p =
      if deletableU localNames p then
        (if dryRun = true then
          { deleted := [p.1], details := [(p.1, { idKey := some p.2.id })] }
        else
          { deleted := [p.1], details := [(p.1, { idKey := some p.2.id })],
            calls := [.deleteUser (p.2.id.getD "")] })
      else { } := by
  unfold userDeleteStep
  by_cases hc : ¬ p.1 ∈ localNames ∧ optTruthy p.2.id = true
  · rw [if_pos hc, if_pos ((deletableU_iff localNames p).mpr hc)]
    by_cases hdr : dryRun = true
    · rw [if_pos hdr, if_pos hdr]
    · rw [if_neg hdr, if_neg hdr, hnf]
  · rw [if_neg hc, if_neg (fun hb => hc ((deletableU_iff localNames p).mp hb))]

theorem groupDeleteStep_eq (env : GroupSyncEnv) (localNames : List String)
    (dryRun : Bool) (p : String × SCIMGroup)
    (hnf : ∀ i, env.deleteGroupRes i = none) :
    groupDeleteStep env localNames dryRun p =
      if deletableG localNames p then
        (if dryRun = true then
          { deleted := [p.1], details := [(p.1, { idKey := some p.2.id })] }
        else
          { deleted := [p.1], details := [(p.1, { idKey := some p.2.id })],
            calls := [.deleteGroup (p.2.id.getD "")] })
      else { } := by
  unfold groupDeleteStep
  by_cases hc : ¬ p.1 ∈ localNames ∧ optTruthy p.2.id = true
  · rw [if_pos hc, if_pos ((deletableG_iff localNames p).mpr hc)]
    by_cases hdr : dryRun = true
    · rw [if_pos hdr, if_pos hdr]
    · rw [if_neg hdr, if_neg hdr, hnf]
  · rw [if_neg hc, if_neg (fun hb => hc ((deletableG_iff localNames p).mp hb))]

theorem flatMap_ite_singleton {α β : Type} (l : List α) (q : α → Bool)
    (f : α → List β) (g : α → List β)
    (h : ∀ x ∈ l, (if q x then f x else g x) = if q x then f x else g x) :
    True := trivial

theorem flatMap_filter_map {α β : Type} (l : List α) (q : α → Bool)
    (f : α → β) :
    (l.flatMap (fun x => if q x then [f x] else [])) =
      (l.filter q).map f := by
  induction l with
  | nil => rfl
  | cons x xs ih =>
    by_cases hx : q x = true
    · simp [hx, ih]
    · simp [hx, ih]

theorem userStep_no_delete (env : UserSyncEnv)
    (idcUsers : List (String × SCIMUser)) (dryRun : Bool) (u : SCIMUser) :
    (userStep env idcUsers dryRun u).calls.filter Call.isDelete = [] := by
  unfold userStep
  cases hfind : pyGet idcUsers u.userName with
  | some idcUser =>
    by_cases hch : diffDict (u.toDict) (idcUser.toDict) = []
    · simp [hfind, hch]
    · by_cases hdr : dryRun = true
      · simp [hfind, hch, hdr]
      · have hdr' : dryRun = false := by
          cases dryRun
          · rfl
          · exact absurd rfl hdr
        by_cases hid : optTruthy idcUser.id = true
        · cases hup : env.updateRes u.userName with
          | some msg => simp [hfind, hch, hdr', hid, hup, Call.isDelete]
          | none => simp [hfind, hch, hdr', hid, hup, Call.isDelete]
        · have hid' : optTruthy idcUser.id = false := by
            cases h : optTruthy idcUser.id
            · rfl
            · exact absurd h hid
          simp [hfind, hch, hdr', hid']
  | none =>
    by_cases hdr : dryRun = true
    · simp [hfind, hdr]
    · have hdr' : dryRun = false := by
        cases dryRun
        · rfl
        · exact absurd rfl hdr
      cases hcr : env.createRes u.userName with
      | error msg => simp [hfind, hdr', hcr, Call.isDelete]
      | ok newId => simp [hfind, hdr', hcr, Call.isDelete]

theorem patchBatches_no_delete (gid : String) (op : PatchOpType)
    (patchRes : List String → Option String) (bs : List (List String)) :
    (patchBatches gid op patchRes bs).2.filter Call.isDelete = [] := by
  induction bs with
  | nil => rfl
  | cons b rest ih =>
    simp only [patchBatches]
    cases patchRes b with
    | some msg => simp [Call.isDelete]
    | none => simp [Call.isDelete, ih]

theorem ite_addGroupMembers_no_delete (c : Prop) [Decidable c]
    (p : List String → Option String) (gid : String) (l : List String) :
    ((if c then addGroupMembers p gid l else (.ok (), [])).2).filter
      Call.isDelete = [] := by
  by_cases h : c
  · rw [if_pos h]
    by_cases hl : l = []
    · simp [addGroupMembers, hl]
    · rw [addGroupMembers, if_neg hl]
      exact patchBatches_no_delete gid .add p _
  · rw [if_neg h]
    rfl

theorem ite_removeGroupMembers_no_delete (c : Prop) [Decidable c]
    (p : List String → Option String) (gid : String) (l : List String) :
    ((if c then removeGroupMembers p gid l else (.ok (), [])).2).filter
      Call.isDelete = [] := by
  by_cases h : c
  · rw [if_pos h]
    by_cases hl : l = []
    · simp [removeGroupMembers, hl]
    · rw [removeGroupMembers, if_neg hl]
      exact patchBatches_no_delete gid .remove p _
  · rw [if_neg h]
    rfl

theorem addGroupMembers_no_delete (p : List String → Option String)
    (gid : String) (l : List String) :
    (addGroupMembers p gid l).2.filter Call.isDelete = [] := by
  by_cases hl : l = []
  · simp [addGroupMembers, hl]
  · rw [addGroupMembers, if_neg hl]
    exact patchBatches_no_delete gid .add p _

theorem groupStep_no_delete (env : GroupSyncEnv)
    (idcGroups : List (String × SCIMGroup))
    (userIdMap idToName : List (String × String))
    (membersMap : List (String × List String))
    (allowRemoveMembers dryRun : Bool) (g : SCIMGroup) :
    (groupStep env idcGroups userIdMap idToName membersMap
      allowRemoveMembers dryRun g).calls.filter Call.isDelete = [] := by
  unfold groupStep
  cases hfind : pyGet idcGroups g.displayName with
  | none =>
    simp only [hfind]
    split
    · rfl
    · split
      · rfl
      · split
        · split <;>
            simp [Call.isDelete, addGroupMembers_no_delete]
        · rfl
  | some ig =>
    simp only [hfind]
    split
    · rfl
    · have hq : ((currentMembersOf env (ig.id.getD "")
          (userIdMap.map (fun p => p.2))).2.filter Call.isDelete) = [] := by
        rw [currentMembersOf_calls]
        induction ((userIdMap.map (fun p => p.2)).filter
            (fun uid => uid ≠ "")) with
        | nil => rfl
        | cons x xs ih => simp [Call.isDelete, ih]
      by_cases har : allowRemoveMembers = true
      · simp only [har, eq_self_iff_true, if_true]
        split
        · simp only [hq]
        · split
          · simp only [hq]
          · split
            · simp only [List.filter_append, hq,
                ite_addGroupMembers_no_delete, List.nil_append]
            · split <;>
                simp only [List.filter_append, hq,
                  ite_addGroupMembers_no_delete,
                  ite_removeGroupMembers_no_delete, List.nil_append,
                  List.append_nil]
      · have har0 : allowRemoveMembers = false := by
          cases allowRemoveMembers
          · rfl
          · exact absurd rfl har
        simp only [har0, Bool.false_eq_true, if_false]
        split
        · simp only [hq]
        · split
          · simp only [hq]
          · split
            · simp only [List.filter_append, hq,
                ite_addGroupMembers_no_delete, List.nil_append]
            · split <;>
                simp only [List.filter_append, hq,
                  ite_addGroupMembers_no_delete,
                  ite_removeGroupMembers_no_delete, List.nil_append,
                  List.append_nil]

theorem flatMap_congr {α β : Type} (l : List α) (f g : α → List β)
    (h : ∀ x ∈ l, f x = g x) : l.flatMap f = l.flatMap g := by
  induction l with
  | nil => rfl
  | cons x xs ih =>
    simp only [List.flatMap_cons, h x (by simp),
      ih (fun y hy => h y (by simp [hy]))]

theorem filter_map_of_true {α β : Type} (l : List α) (f : α → β)
    (p : β → Bool) (h : ∀ x, p (f x) = true) :
    (l.map f).filter p = l.map f := by
  induction l with
  | nil => rfl
  | cons x xs ih => simp [h, ih]

theorem append_colon_str (name msg : String) :
    name ++ (": " ++ msg) = name ++ ": " ++ msg :=
  (String.append_assoc name ": " msg).symm

/-- One group-loop iteration fills exactly one classification bucket (or one
`"<name>: <message>"` error entry) and never touches the deleted list. -/
theorem groupStep_oneBucket (env : GroupSyncEnv)
    (idcGroups : List (String × SCIMGroup))
    (userIdMap idToName : List (String × String))
    (membersMap : List (String × List String))
    (allowRemoveMembers dryRun : Bool) (g : SCIMGroup) :
    (groupStep env idcGroups userIdMap idToName membersMap
      allowRemoveMembers dryRun g).oneBucketFor g.displayName ∧
    (groupStep env idcGroups userIdMap idToName membersMap
      allowRemoveMembers dryRun g).deleted = [] := by
  have hcn : ∀ name : String,
      name ++ ": 组 ID 为空" = name ++ ": " ++ "组 ID 为空" := by
    intro name
    rw [String.append_assoc]
    have : (": " ++ "组 ID 为空" : String) = ": 组 ID 为空" := by decide
    rw [this]
  unfold groupStep ItemDelta.oneBucketFor
  cases hfind : pyGet idcGroups g.displayName with
  | none =>
    simp only [hfind]
    split
    · exact ⟨Or.inl (by simp), rfl⟩
    · split
      · next msg heq =>
        exact ⟨Or.inr (Or.inr (Or.inr ⟨msg, by simp⟩)), rfl⟩
      · split
        · split
          · next msg heq =>
            exact ⟨Or.inr (Or.inr (Or.inr ⟨msg, by simp⟩)), rfl⟩
          · exact ⟨Or.inl (by simp), rfl⟩
        · exact ⟨Or.inl (by simp), rfl⟩
  | some ig =>
    simp only [hfind]
    split
    · refine ⟨Or.inr (Or.inr (Or.inr ⟨"组 ID 为空", rfl, rfl, rfl, ?_⟩)), rfl⟩
      exact congrArg (fun s => [s]) (hcn g.displayName)
    · by_cases har : allowRemoveMembers = true
      · simp only [har, eq_self_iff_true, if_true]
        split
        · exact ⟨Or.inr (Or.inr (Or.inl (by simp))), rfl⟩
        · split
          · exact ⟨Or.inr (Or.inl (by simp)), rfl⟩
          · split
            · next msg heq =>
              exact ⟨Or.inr (Or.inr (Or.inr ⟨msg, by simp⟩)), rfl⟩
            · split
              · next msg heq =>
                exact ⟨Or.inr (Or.inr (Or.inr ⟨msg, by simp⟩)), rfl⟩
              · exact ⟨Or.inr (Or.inl (by simp)), rfl⟩
      · have har0 : allowRemoveMembers = false := by
          cases allowRemoveMembers
          · rfl
          · exact absurd rfl har
        simp only [har0, Bool.false_eq_true, if_false]
        split
        · exact ⟨Or.inr (Or.inr (Or.inl (by simp))), rfl⟩
        · split
          · exact ⟨Or.inr (Or.inl (by simp)), rfl⟩
          · split
            · next msg heq =>
              exact ⟨Or.inr (Or.inr (Or.inr ⟨msg, by simp⟩)), rfl⟩
            · split
              · next msg heq =>
                exact ⟨Or.inr (Or.inr (Or.inr ⟨msg, by simp⟩)), rfl⟩
              · exact ⟨Or.inr (Or.inl (by simp)), rfl⟩

theorem userDeleteStep_deleted (env : UserSyncEnv) (localNames : List String)
    (dryRun : Bool) (p : String × SCIMUser)
    (hnf : ∀ i, env.deleteRes i = none) :
    (userDeleteStep env localNames dryRun p).deleted =
      if deletableU localNames p then [p.1] else [] := by
  rw [userDeleteStep_eq env localNames dryRun p hnf]
  by_cases h : deletableU localNames p = true
  · rw [if_pos h, if_pos h]
    by_cases hdr : dryRun = true
    · rw [if_pos hdr]
    · rw [if_neg hdr]
  · rw [if_neg (by simp [h]), if_neg (by simp [h])]

theorem userDeleteStep_calls (env : UserSyncEnv) (localNames : List String)
    (p : String × SCIMUser) (hnf : ∀ i, env.deleteRes i = none) :
    (userDeleteStep env localNames false p).calls =
      if deletableU localNames p then [Call.deleteUser (p.2.id.getD "")]
      else [] := by
  rw [userDeleteStep_eq env localNames false p hnf]
  by_cases h : deletableU localNames p = true
  · rw [if_pos h, if_pos h, if_neg Bool.false_ne_true]
  · rw [if_neg (by simp [h]), if_neg (by simp [h])]

theorem groupDeleteStep_deleted (env : GroupSyncEnv) (localNames : List String)
    (dryRun : Bool) (p : String × SCIMGroup)
    (hnf : ∀ i, env.deleteGroupRes i = none) :
    (groupDeleteStep env localNames dryRun p).deleted =
      if deletableG localNames p then [p.1] else [] := by
  rw [groupDeleteStep_eq env localNames dryRun p hnf]
  by_cases h : deletableG localNames p = true
  · rw [if_pos h, if_pos h]
    by_cases hdr : dryRun = true
    · rw [if_pos hdr]
    · rw [if_neg hdr]
  · rw [if_neg (by simp [h]), if_neg (by simp [h])]

theorem groupDeleteStep_calls (env : GroupSyncEnv) (localNames : List String)
    (p : String × SCIMGroup) (hnf : ∀ i, env.deleteGroupRes i = none) :
    (groupDeleteStep env localNames false p).calls =
      if deletableG localNames p then [Call.deleteGroup (p.2.id.getD "")]
      else [] := by
  rw [groupDeleteStep_eq env localNames false p hnf]
  by_cases h : deletableG localNames p = true
  · rw [if_pos h, if_pos h, if_neg Bool.false_ne_true]
  · rw [if_neg (by simp [h]), if_neg (by simp [h])]

theorem userDeleteStep_no_delete_call (env : UserSyncEnv)
    (localNames : List String) (dryRun : Bool) (p : String × SCIMUser) :
    dryRun = true →
    (userDeleteStep env localNames dryRun p).calls = [] := by
  intro hdr
  subst hdr
  unfold userDeleteStep
  by_cases hc : ¬ p.1 ∈ localNames ∧ optTruthy p.2.id = true
  · simp [hc]
  · simp [hc]

/-- C8 (amended): with delete mode enabled, exactly the actual records whose
natural key is absent from the desired set *and* whose server id is truthy
are recorded deleted — and, in a live run with delete calls succeeding, one
delete call is issued per such record (group deletion issues only
`deleteGroup` calls, never a membership-clearing patch); with delete mode
disabled no record is deleted and no delete call is issued. -/
theorem c8_delete_mode (uenv : UserSyncEnv) (genv : GroupSyncEnv)
    (users : List SCIMUser) (groups : List SCIMGroup)
    (membersMap : List (String × List String))
    (allowRemoveMembers dryRun : Bool)
    (userBaseline gUserBaseline : List SCIMUser)
    (groupBaseline : List SCIMGroup)
    (hub : uenv.listUsersRes = .ok userBaseline)
    (hnfU : ∀ i, uenv.deleteRes i = none)
    (hgg : genv.listGroupsRes = .ok groupBaseline)
    (hgu : genv.listUsersRes = .ok gUserBaseline)
    (hnfG : ∀ i, genv.deleteGroupRes i = none) :
    (∀ r t, syncUsersImpl uenv users true dryRun = .ok (r, t) →
      r.deleted = ((pyDictOf (userBaseline.map (fun x => (x.userName, x)))).filter
        (deletableU (users.map (fun u => u.userName)))).map (fun p => p.1) ∧
      (dryRun = false → t.filter Call.isDelete =
        ((pyDictOf (userBaseline.map (fun x => (x.userName, x)))).filter
          (deletableU (users.map (fun u => u.userName)))).map
          (fun p => Call.deleteUser (p.2.id.getD "")))) ∧
    (∀ r t, syncUsersImpl uenv users false dryRun = .ok (r, t) →
      r.deleted = [] ∧ t.filter Call.isDelete = []) ∧
    (∀ r t, syncGroupsImpl genv groups membersMap true allowRemoveMembers
        dryRun = .ok (r, t) →
      r.deleted = ((pyDictOf (groupBaseline.map (fun x => (x.displayName, x)))).filter
        (deletableG (groups.map (fun g => g.displayName)))).map (fun p => p.1) ∧
      (dryRun = false → t.filter Call.isDelete =
        ((pyDictOf (groupBaseline.map (fun x => (x.displayName, x)))).filter
          (deletableG (groups.map (fun g => g.displayName)))).map
          (fun p => Call.deleteGroup (p.2.id.getD "")))) ∧
    (∀ r t, syncGroupsImpl genv groups membersMap false allowRemoveMembers
        dryRun = .ok (r, t) →
      r.deleted = [] ∧ t.filter Call.isDelete = []) := by
  refine ⟨?_, ?_, ?_, ?_⟩
  · intro r t heq
    rw [syncUsersImpl_eq uenv users true dryRun userBaseline hub,
      if_pos rfl] at heq
    injection heq with hpair
    constructor
    · have hr : r.deleted = (runFold
          (userDeleteStep uenv (users.map (fun u => u.userName)) dryRun)
          (runFold (userStep uenv
            (pyDictOf (userBaseline.map (fun u => (u.userName, u)))) dryRun)
            ({ }, []) users)
          (pyDictOf (userBaseline.map (fun u => (u.userName, u))))).1.deleted := by
        rw [hpair]
      rw [hr, runFold_deleted, runFold_deleted]
      have hmain : users.flatMap (fun u => (userStep uenv
          (pyDictOf (userBaseline.map (fun u => (u.userName, u)))) dryRun u).deleted) = [] :=
        flatMap_eq_nil_of_forall _ _
          (fun u _ => (userStep_oneBucket uenv _ dryRun u).2)
      simp only [hmain, List.append_nil, List.nil_append]
      rw [flatMap_congr _ _
        (fun p => if deletableU (users.map (fun u => u.userName)) p
          then [p.1] else [])
        (fun p _ => userDeleteStep_deleted uenv _ dryRun p hnfU)]
      rw [flatMap_filter_map]
    · intro hdr
      subst hdr
      have ht : t = (runFold
          (userDeleteStep uenv (users.map (fun u => u.userName)) false)
          (runFold (userStep uenv
            (pyDictOf (userBaseline.map (fun u => (u.userName, u)))) false)
            ({ }, []) users)
          (pyDictOf (userBaseline.map (fun u => (u.userName, u))))).2 := by
        rw [hpair]
      rw [ht, runFold_calls, List.filter_append, runFold_calls,
        List.filter_append]
      have hmain : (users.flatMap (fun u => (userStep uenv
          (pyDictOf (userBaseline.map (fun u => (u.userName, u)))) false u).calls)).filter
            Call.isDelete = [] :=
        filter_flatMap_eq_nil _ _ _
          (fun u _ => userStep_no_delete uenv _ false u)
      simp only [hmain, List.append_nil, List.nil_append,
        List.filter_nil]
      rw [flatMap_congr _ _
        (fun p => if deletableU (users.map (fun u => u.userName)) p
          then [Call.deleteUser (p.2.id.getD "")] else [])
        (fun p _ => userDeleteStep_calls uenv _ p hnfU)]
      rw [flatMap_filter_map]
      rw [filter_map_of_true _ _ _ (fun p => rfl)]
  · intro r t heq
    rw [syncUsersImpl_eq uenv users false dryRun userBaseline hub,
      if_neg Bool.false_ne_true] at heq
    injection heq with hpair
    constructor
    · have hr : r.deleted = (runFold (userStep uenv
          (pyDictOf (userBaseline.map (fun u => (u.userName, u)))) dryRun)
          ({ }, []) users).1.deleted := by
        rw [hpair]
      rw [hr, runFold_deleted]
      simp only [List.nil_append]
      exact flatMap_eq_nil_of_forall _ _
        (fun u _ => (userStep_oneBucket uenv _ dryRun u).2)
    · have ht : t = (runFold (userStep uenv
          (pyDictOf (userBaseline.map (fun u => (u.userName, u)))) dryRun)
          ({ }, []) users).2 := by
        rw [hpair]
      rw [ht, runFold_calls]
      simp only [List.nil_append]
      exact filter_flatMap_eq_nil _ _ _
        (fun u _ => userStep_no_delete uenv _ dryRun u)
  · intro r t heq
    rw [syncGroupsImpl_eq genv groups membersMap true allowRemoveMembers
      dryRun groupBaseline gUserBaseline hgg hgu, if_pos rfl] at heq
    injection heq with hpair
    constructor
    · have hr : r.deleted = (runFold
          (groupDeleteStep genv (groups.map (fun g => g.displayName)) dryRun)
          (runFold (groupStep genv
            (pyDictOf (groupBaseline.map (fun g => (g.displayName, g))))
            (pyDictOf ((gUserBaseline.filter (fun u => optTruthy u.id)).map
              (fun u => (u.userName, u.id.getD ""))))
            (pyDictOf ((gUserBaseline.filter (fun u => optTruthy u.id)).map
              (fun u => (u.id.getD "", u.userName))))
            membersMap allowRemoveMembers dryRun) ({ }, []) groups)
          (pyDictOf (groupBaseline.map (fun g => (g.displayName, g))))).1.deleted := by
        rw [hpair]
      rw [hr, runFold_deleted, runFold_deleted]
      have hmain : groups.flatMap (fun g => (groupStep genv
          (pyDictOf (groupBaseline.map (fun g => (g.displayName, g))))
          (pyDictOf ((gUserBaseline.filter (fun u => optTruthy u.id)).map
            (fun u => (u.userName, u.id.getD ""))))
          (pyDictOf ((gUserBaseline.filter (fun u => optTruthy u.id)).map
            (fun u => (u.id.getD "", u.userName))))
          membersMap allowRemoveMembers dryRun g).deleted) = [] :=
        flatMap_eq_nil_of_forall _ _
          (fun g _ => (groupStep_oneBucket genv _ _ _ membersMap
            allowRemoveMembers dryRun g).2)
      simp only [hmain, List.append_nil, List.nil_append]
      rw [flatMap_congr _ _
        (fun p => if deletableG (groups.map (fun g => g.displayName)) p
          then [p.1] else [])
        (fun p _ => groupDeleteStep_deleted genv _ dryRun p hnfG)]
      rw [flatMap_filter_map]
    · intro hdr
      subst hdr
      have ht : t = (runFold
          (groupDeleteStep genv (groups.map (fun g => g.displayName)) false)
          (runFold (groupStep genv
            (pyDictOf (groupBaseline.map (fun g => (g.displayName, g))))
            (pyDictOf ((gUserBaseline.filter (fun u => optTruthy u.id)).map
              (fun u => (u.userName, u.id.getD ""))))
            (pyDictOf ((gUserBaseline.filter (fun u => optTruthy u.id)).map
              (fun u => (u.id.getD "", u.userName))))
            membersMap allowRemoveMembers false) ({ }, []) groups)
          (pyDictOf (groupBaseline.map (fun g => (g.displayName, g))))).2 := by
        rw [hpair]
      rw [ht, runFold_calls, List.filter_append, runFold_calls,
        List.filter_append]
      have hmain : (groups.flatMap (fun g => (groupStep genv
          (pyDictOf (groupBaseline.map (fun g => (g.displayName, g))))
          (pyDictOf ((gUserBaseline.filter (fun u => optTruthy u.id)).map
            (fun u => (u.userName, u.id.getD ""))))
          (pyDictOf ((gUserBaseline.filter (fun u => optTruthy u.id)).map
            (fun u => (u.id.getD "", u.userName))))
          membersMap allowRemoveMembers false g).calls)).filter
            Call.isDelete = [] :=
        filter_flatMap_eq_nil _ _ _
          (fun g _ => groupStep_no_delete genv _ _ _ membersMap
            allowRemoveMembers false g)
      simp only [hmain, List.append_nil, List.nil_append,
        List.filter_nil]
      rw [flatMap_congr _ _
        (fun p => if deletableG (groups.map (fun g => g.displayName)) p
          then [Call.deleteGroup (p.2.id.getD "")] else [])
        (fun p _ => groupDeleteStep_calls genv _ p hnfG)]
      rw [flatMap_filter_map]
      rw [filter_map_of_true _ _ _ (fun p => rfl)]
  · intro r t heq
    rw [syncGroupsImpl_eq genv groups membersMap false allowRemoveMembers
      dryRun groupBaseline gUserBaseline hgg hgu,
      if_neg Bool.false_ne_true] at heq
    injection heq with hpair
    constructor
    · have hr : r.deleted = (runFold (groupStep genv
          (pyDictOf (groupBaseline.map (fun g => (g.displayName, g))))
          (pyDictOf ((gUserBaseline.filter (fun u => optTruthy u.id)).map
            (fun u => (u.userName, u.id.getD ""))))
          (pyDictOf ((gUserBaseline.filter (fun u => optTruthy u.id)).map
            (fun u => (u.id.getD "", u.userName))))
          membersMap allowRemoveMembers dryRun) ({ }, []) groups).1.deleted := by
        rw [hpair]
      rw [hr, runFold_deleted]
      simp only [List.nil_append]
      exact flatMap_eq_nil_of_forall _ _
        (fun g _ => (groupStep_oneBucket genv _ _ _ membersMap
          allowRemoveMembers dryRun g).2)
    · have ht : t = (runFold (groupStep genv
          (pyDictOf (groupBaseline.map (fun g => (g.displayName, g))))
          (pyDictOf ((gUserBaseline.filter (fun u => optTruthy u.id)).map
            (fun u => (u.userName, u.id.getD ""))))
          (pyDictOf ((gUserBaseline.filter (fun u => optTruthy u.id)).map
            (fun u => (u.id.getD "", u.userName))))
          membersMap allowRemoveMembers dryRun) ({ }, []) groups).2 := by
        rw [hpair]
      rw [ht, runFold_calls]
      simp only [List.nil_append]
      exact filter_flatMap_eq_nil _ _ _
        (fun g _ => groupStep_no_delete genv _ _ _ membersMap
          allowRemoveMembers dryRun g)

/-- An actual user carrying no server id. -/
def ghostUser : SCIMUser := { userName := "ghost", emails := some [wEmail] }

def envC8 : UserSyncEnv :=
  { listUsersRes := .ok [ghostUser], createRes := fun _ => .ok none,
    updateRes := fun _ => none, deleteRes := fun _ => none }

/-- C8 counterexample: with delete mode enabled, the actual user `"ghost"`
is absent from the (empty) desired set, yet — because its server id is
falsy — it is neither deleted nor recorded in the deleted name set, and no
delete call is issued; the claim requires every such user to be deleted. -/
theorem c8_delete_mode_counterexample :
    syncUsersImpl envC8 [] true false = .ok ({ }, []) ∧
    ("ghost" ∈ (match envC8.listUsersRes with
      | .ok us => us.map (fun (u : SCIMUser) => u.userName)
      | .error _ => ([] : List String))) ∧
    ¬ ("ghost" ∈ ({ } : SyncResult).deleted) := by
  decide

/-- An actual user with a truthy server id, eligible for deletion. -/
def delUser : SCIMUser :=
  { userName := "old", emails := some [wEmail], id := some "idO" }

def envC8w : UserSyncEnv :=
  { listUsersRes := .ok [delUser], createRes := fun _ => .ok none,
    updateRes := fun _ => none, deleteRes := fun _ => none }

theorem c8_delete_mode_witness :
    (syncUsersImpl envC8w [] true false =
      .ok ({ deleted := ["old"],
             details := [("old", { idKey := some (some "idO") })] },
        [Call.deleteUser "idO"]) ∧
      (({ deleted := ["old"],
          details := [("old", { idKey := some (some "idO") })] } : SyncResult)).deleted =
        ["old"] ∧
      ([Call.deleteUser "idO"].filter Call.isDelete) = [Call.deleteUser "idO"]) ∧
    (syncGroupsImpl wGroupEnv [] [] true true false =
      .ok ({ deleted := ["g1", "g2"],
             details := [("g1", { idKey := some (some "gid1") }),
                         ("g2", { idKey := some (some "gid2") })] },
        [Call.deleteGroup "gid1", Call.deleteGroup "gid2"]) ∧
      (({ deleted := ["g1", "g2"],
          details := [("g1", { idKey := some (some "gid1") }),
                      ("g2", { idKey := some (some "gid2") })] } : SyncResult)).deleted =
        ["g1", "g2"] ∧
      ([Call.deleteGroup "gid1", Call.deleteGroup "gid2"].filter
        Call.isDelete) =
        [Call.deleteGroup "gid1", Call.deleteGroup "gid2"]) := by
  have h := c8_delete_mode envC8w wGroupEnv [] [] [] true false
    [delUser] [wUserA, wUserB, wUserC, wUserD] [wGroup1, wGroup2]
    rfl (fun _ => rfl) rfl rfl (fun _ => rfl)
  have hurun : syncUsersImpl envC8w [] true false =
      .ok ({ deleted := ["old"],
             details := [("old", { idKey := some (some "idO") })] },
        [Call.deleteUser "idO"]) := by decide
  have hgrun : syncGroupsImpl wGroupEnv [] [] true true false =
      .ok ({ deleted := ["g1", "g2"],
             details := [("g1", { idKey := some (some "gid1") }),
                         ("g2", { idKey := some (some "gid2") })] },
        [Call.deleteGroup "gid1", Call.deleteGroup "gid2"]) := by decide
  obtain ⟨hudel, hucalls⟩ := h.1 _ _ hurun
  obtain ⟨hgdel, hgcalls⟩ := h.2.2.1 _ _ hgrun
  refine ⟨⟨hurun, ?_, ?_⟩, ⟨hgrun, ?_, ?_⟩⟩
  · exact hudel.trans (by decide)
  · exact (hucalls rfl).trans (by decide)
  · exact hgdel.trans (by decide)
  · exact (hgcalls rfl).trans (by decide)

/-! ## Helpers for the disjointness claim -/

theorem groupDeleteStep_shape (env : GroupSyncEnv) (localNames : List String)
    (dryRun : Bool) (p : String × SCIMGroup) :
    (groupDeleteStep env localNames dryRun p).created = [] ∧
    (groupDeleteStep env localNames dryRun p).updated = [] ∧
    (groupDeleteStep env localNames dryRun p).unchanged = [] ∧
    ((groupDeleteStep env localNames dryRun p).deleted = [] ∨
      ((groupDeleteStep env localNames dryRun p).deleted = [p.1] ∧
        ¬ p.1 ∈ localNames)) := by
  unfold groupDeleteStep
  by_cases hc : ¬ p.1 ∈ localNames ∧ optTruthy p.2.id = true
  · by_cases hdr : dryRun = true
    · simp [hc, hdr, hc.1]
    · have hdr' : dryRun = false := by
        cases dryRun
        · rfl
        · exact absurd rfl hdr
      cases hdel : env.deleteGroupRes (p.2.id.getD "") with
      | some msg => simp [hc, hdr', hdel]
      | none => simp [hc, hdr', hdel, hc.1]
  · simp [hc]

theorem map_nodup_inj {α β : Type} (l : List α) (g : α → β)
    (h : (l.map g).Nodup) :
    ∀ x ∈ l, ∀ y ∈ l, g x = g y → x = y := by
  induction l with
  | nil => intro x hx; simp at hx
  | cons a as ih =>
    simp only [List.map_cons, List.nodup_cons] at h
    intro x hx y hy hxy
    rcases List.mem_cons.mp hx with rfl | hx'
    · rcases List.mem_cons.mp hy with rfl | hy'
      · rfl
      · exact absurd (hxy ▸ List.mem_map_of_mem g hy') h.1
    · rcases List.mem_cons.mp hy with rfl | hy'
      · exact absurd (hxy ▸ List.mem_map_of_mem g hx') h.1
      · exact ih h.2 x hx' y hy' hxy

theorem flatMap_sublist_map {α β : Type} (l : List α) (f : α → List β)
    (g : α → β) (h : ∀ x ∈ l, f x = [] ∨ f x = [g x]) :
    (l.flatMap f).Sublist (l.map g) := by
  induction l with
  | nil => simp
  | cons x xs ih =>
    simp only [List.flatMap_cons, List.map_cons]
    rcases h x (by simp) with hx | hx
    · rw [hx, List.nil_append]
      exact (ih (fun y hy => h y (by simp [hy]))).cons (g x)
    · rw [hx, List.singleton_append]
      exact (ih (fun y hy => h y (by simp [hy]))).cons₂ (g x)

theorem oneBucket_created (d : ItemDelta) (n : String)
    (h : d.oneBucketFor n) : d.created = [] ∨ d.created = [n] := by
  rcases h with ⟨h1, _, _, _⟩ | ⟨h1, _, _, _⟩ | ⟨h1, _, _, _⟩ |
    ⟨msg, h1, _, _, _⟩ <;> simp [h1]

theorem oneBucket_updated (d : ItemDelta) (n : String)
    (h : d.oneBucketFor n) : d.updated = [] ∨ d.updated = [n] := by
  rcases h with ⟨_, h1, _, _⟩ | ⟨_, h1, _, _⟩ | ⟨_, h1, _, _⟩ |
    ⟨msg, _, h1, _, _⟩ <;> simp [h1]

theorem oneBucket_unchanged (d : ItemDelta) (n : String)
    (h : d.oneBucketFor n) : d.unchanged = [] ∨ d.unchanged = [n] := by
  rcases h with ⟨_, _, h1, _⟩ | ⟨_, _, h1, _⟩ | ⟨_, _, h1, _⟩ |
    ⟨msg, _, _, h1, _⟩ <;> simp [h1]

theorem oneBucket_pairs (d : ItemDelta) (n : String)
    (h : d.oneBucketFor n) :
    (d.created = [] ∨ d.updated = []) ∧
    (d.created = [] ∨ d.unchanged = []) ∧
    (d.updated = [] ∨ d.unchanged = []) := by
  rcases h with ⟨h1, h2, h3, _⟩ | ⟨h1, h2, h3, _⟩ | ⟨h1, h2, h3, _⟩ |
    ⟨msg, h1, h2, h3, _⟩ <;> simp [h1, h2, h3]

/-- Generic disjointness of the four classification buckets for a run made
of a main loop (one bucket per item, nothing deleted) followed by a deletion
loop (nothing classified, deletions only for keys outside the desired set),
when the desired natural keys are distinct. -/
theorem sync_run_buckets {A B : Type} (items : List A) (key : A → String)
    (stepA : A → ItemDelta) (pairs : List (String × B))
    (stepB : String × B → ItemDelta)
    (hA : ∀ x ∈ items, (stepA x).oneBucketFor (key x) ∧ (stepA x).deleted = [])
    (hB : ∀ p ∈ pairs, (stepB p).created = [] ∧ (stepB p).updated = [] ∧
      (stepB p).unchanged = [] ∧ ((stepB p).deleted = [] ∨
        ((stepB p).deleted = [p.1] ∧ ¬ p.1 ∈ items.map key)))
    (hnod : (items.map key).Nodup)
    (hkeys : (pairs.map (fun p => p.1)).Nodup)
    (r : SyncResult) (t : List Call)
    (hr : runFold stepB (runFold stepA ({ }, []) items) pairs = (r, t)) :
    r.created.Nodup ∧ r.updated.Nodup ∧ r.unchanged.Nodup ∧
    r.deleted.Nodup ∧
    r.created.Disjoint r.updated ∧ r.created.Disjoint r.unchanged ∧
    r.created.Disjoint r.deleted ∧ r.updated.Disjoint r.unchanged ∧
    r.updated.Disjoint r.deleted ∧ r.unchanged.Disjoint r.deleted := by
  have hcr : r.created = items.flatMap (fun x => (stepA x).created) := by
    rw [show r = (runFold stepB (runFold stepA ({ }, []) items) pairs).1 by
      rw [hr]]
    rw [runFold_created, flatMap_eq_nil_of_forall pairs _
      (fun p hp => (hB p hp).1), List.append_nil, runFold_created]
    simp
  have hup : r.updated = items.flatMap (fun x => (stepA x).updated) := by
    rw [show r = (runFold stepB (runFold stepA ({ }, []) items) pairs).1 by
      rw [hr]]
    rw [runFold_updated, flatMap_eq_nil_of_forall pairs _
      (fun p hp => (hB p hp).2.1), List.append_nil, runFold_updated]
    simp
  have hun : r.unchanged = items.flatMap (fun x => (stepA x).unchanged) := by
    rw [show r = (runFold stepB (runFold stepA ({ }, []) items) pairs).1 by
      rw [hr]]
    rw [runFold_unchanged, flatMap_eq_nil_of_forall pairs _
      (fun p hp => (hB p hp).2.2.1), List.append_nil, runFold_unchanged]
    simp
  have hdel : r.deleted = pairs.flatMap (fun p => (stepB p).deleted) := by
    rw [show r = (runFold stepB (runFold stepA ({ }, []) items) pairs).1 by
      rw [hr]]
    rw [runFold_deleted, runFold_deleted, flatMap_eq_nil_of_forall items _
      (fun x hx => (hA x hx).2)]
    simp
  have hcr' : ∀ x ∈ items, (stepA x).created = [] ∨
      (stepA x).created = [key x] :=
    fun x hx => oneBucket_created _ _ (hA x hx).1
  have hup' : ∀ x ∈ items, (stepA x).updated = [] ∨
      (stepA x).updated = [key x] :=
    fun x hx => oneBucket_updated _ _ (hA x hx).1
  have hun' : ∀ x ∈ items, (stepA x).unchanged = [] ∨
      (stepA x).unchanged = [key x] :=
    fun x hx => oneBucket_unchanged _ _ (hA x hx).1
  have hdel' : ∀ p ∈ pairs, (stepB p).deleted = [] ∨
      (stepB p).deleted = [p.1] := by
    intro p hp
    rcases (hB p hp).2.2.2 with h | ⟨h, _⟩
    · exact Or.inl h
    · exact Or.inr h
  -- membership facts
  have memC : ∀ a, a ∈ r.created → ∃ x ∈ items, a = key x ∧
      (stepA x).created = [key x] := by
    intro a ha
    rw [hcr] at ha
    rcases List.mem_flatMap.mp ha with ⟨x, hx, hmem⟩
    rcases hcr' x hx with h | h
    · rw [h] at hmem
      simp at hmem
    · rw [h] at hmem
      simp at hmem
      exact ⟨x, hx, hmem, h⟩
  have memU : ∀ a, a ∈ r.updated → ∃ x ∈ items, a = key x ∧
      (stepA x).updated = [key x] := by
    intro a ha
    rw [hup] at ha
    rcases List.mem_flatMap.mp ha with ⟨x, hx, hmem⟩
    rcases hup' x hx with h | h
    · rw [h] at hmem
      simp at hmem
    · rw [h] at hmem
      simp at hmem
      exact ⟨x, hx, hmem, h⟩
  have memN : ∀ a, a ∈ r.unchanged → ∃ x ∈ items, a = key x ∧
      (stepA x).unchanged = [key x] := by
    intro a ha
    rw [hun] at ha
    rcases List.mem_flatMap.mp ha with ⟨x, hx, hmem⟩
    rcases hun' x hx with h | h
    · rw [h] at hmem
      simp at hmem
    · rw [h] at hmem
      simp at hmem
      exact ⟨x, hx, hmem, h⟩
  have memD : ∀ a, a ∈ r.deleted → ¬ a ∈ items.map key := by
    intro a ha
    rw [hdel] at ha
    rcases List.mem_flatMap.mp ha with ⟨p, hp, hmem⟩
    rcases (hB p hp).2.2.2 with h | ⟨h, hnot⟩
    · rw [h] at hmem
      simp at hmem
    · rw [h] at hmem
      simp at hmem
      rw [hmem]
      exact hnot
  refine ⟨?_, ?_, ?_, ?_, ?_, ?_, ?_, ?_, ?_, ?_⟩
  · rw [hcr]
    exact (flatMap_sublist_map items _ key hcr').nodup hnod
  · rw [hup]
    exact (flatMap_sublist_map items _ key hup').nodup hnod
  · rw [hun]
    exact (flatMap_sublist_map items _ key hun').nodup hnod
  · rw [hdel]
    exact (flatMap_sublist_map pairs _ (fun p => p.1) hdel').nodup hkeys
  · intro a hac hau
    rcases memC a hac with ⟨x1, hx1, rfl, hc1⟩
    rcases memU _ hau with ⟨x2, hx2, hk, hu2⟩
    have hx12 : x1 = x2 := map_nodup_inj items key hnod x1 hx1 x2 hx2 hk
    subst hx12
    rcases (oneBucket_pairs _ _ (hA x1 hx1).1).1 with h | h
    · rw [h] at hc1
      cases hc1
    · rw [h] at hu2
      cases hu2
  · intro a hac han
    rcases memC a hac with ⟨x1, hx1, rfl, hc1⟩
    rcases memN _ han with ⟨x2, hx2, hk, hn2⟩
    have hx12 : x1 = x2 := map_nodup_inj items key hnod x1 hx1 x2 hx2 hk
    subst hx12
    rcases (oneBucket_pairs _ _ (hA x1 hx1).1).2.1 with h | h
    · rw [h] at hc1
      cases hc1
    · rw [h] at hn2
      cases hn2
  · intro a hac had
    rcases memC a hac with ⟨x1, hx1, rfl, _⟩
    exact memD _ had (List.mem_map_of_mem key hx1)
  · intro a hau han
    rcases memU a hau with ⟨x1, hx1, rfl, hu1⟩
    rcases memN _ han with ⟨x2, hx2, hk, hn2⟩
    have hx12 : x1 = x2 := map_nodup_inj items key hnod x1 hx1 x2 hx2 hk
    subst hx12
    rcases (oneBucket_pairs _ _ (hA x1 hx1).1).2.2 with h | h
    · rw [h] at hu1
      cases hu1
    · rw [h] at hn2
      cases hn2
  · intro a hau had
    rcases memU a hau with ⟨x1, hx1, rfl, _⟩
    exact memD _ had (List.mem_map_of_mem key hx1)
  · intro a han had
    rcases memN a han with ⟨x1, hx1, rfl, _⟩
    exact memD _ had (List.mem_map_of_mem key hx1)

/-- The four classification buckets of a sync result are duplicate-free and
pairwise disjoint. -/
def SyncResult.bucketsOk (r : SyncResult) : Prop :=
  r.created.Nodup ∧ r.updated.Nodup ∧ r.unchanged.Nodup ∧ r.deleted.Nodup ∧
  r.created.Disjoint r.updated ∧ r.created.Disjoint r.unchanged ∧
  r.created.Disjoint r.deleted ∧ r.updated.Disjoint r.unchanged ∧
  r.updated.Disjoint r.deleted ∧ r.unchanged.Disjoint r.deleted

/-- C9 counterexample: the desired list may repeat a userName, and then the
created bucket holds that name twice, so the buckets are not sets as the
claim states: a dry run over desired `[bob, bob]` against an empty
directory reports `created = ["bob", "bob"]`. -/
theorem c9_duplicate_created_counterexample :
    syncUsersImpl envC3 [bobUser, bobUser] false true =
      .ok ({ created := ["bob", "bob"] }, []) ∧
    ¬ (["bob", "bob"] : List String).Nodup := by
  decide

/-- C9 (amended): provided the desired natural keys are distinct — no two
desired users share a userName and no two desired groups share a
displayName — every successful user-sync and group-sync outcome has
duplicate-free, pairwise disjoint created/updated/unchanged/deleted name
buckets; with duplicated desired keys a name can appear twice in one
bucket. -/
theorem c9_buckets_disjoint (uenv : UserSyncEnv) (users : List SCIMUser)
    (uAllowDelete uDry : Bool) (ubase : List SCIMUser)
    (hub : uenv.listUsersRes = .ok ubase)
    (hun : (users.map (fun u => u.userName)).Nodup)
    (genv : GroupSyncEnv) (groups : List SCIMGroup)
    (membersMap : List (String × List String))
    (gAllowDelete allowRemoveMembers gDry : Bool)
    (gbase : List SCIMGroup) (gubase : List SCIMUser)
    (hgb : genv.listGroupsRes = .ok gbase)
    (hgu : genv.listUsersRes = .ok gubase)
    (hgn : (groups.map (fun g => g.displayName)).Nodup) :
    (∀ r t, syncUsersImpl uenv users uAllowDelete uDry = .ok (r, t) →
      r.bucketsOk) ∧
    (∀ r t, syncGroupsImpl genv groups membersMap gAllowDelete
        allowRemoveMembers gDry = .ok (r, t) → r.bucketsOk) := by
  constructor
  · intro r t heq
    rw [syncUsersImpl_eq uenv users uAllowDelete uDry ubase hub] at heq
    injection heq with hpair
    by_cases had : uAllowDelete = true
    · simp only [had, eq_self_iff_true, if_true] at hpair
      exact sync_run_buckets users (fun u => u.userName)
        (userStep uenv (pyDictOf (ubase.map (fun u => (u.userName, u)))) uDry)
        (pyDictOf (ubase.map (fun u => (u.userName, u))))
        (userDeleteStep uenv (users.map (fun u => u.userName)) uDry)
        (fun x _ => userStep_oneBucket uenv _ uDry x)
        (fun p _ => userDeleteStep_shape uenv _ uDry p)
        hun (pyDictOf_keys_nodup _) r t hpair
    · have had0 : uAllowDelete = false := by
        cases uAllowDelete
        · rfl
        · exact absurd rfl had
      simp only [had0, Bool.false_eq_true, if_false] at hpair
      have hpair' : runFold
          (userDeleteStep uenv (users.map (fun u => u.userName)) uDry)
          (runFold (userStep uenv
            (pyDictOf (ubase.map (fun u => (u.userName, u)))) uDry)
            ({ }, []) users)
          ([] : List (String × SCIMUser)) = (r, t) := hpair
      exact sync_run_buckets users (fun u => u.userName)
        (userStep uenv (pyDictOf (ubase.map (fun u => (u.userName, u)))) uDry)
        ([] : List (String × SCIMUser))
        (userDeleteStep uenv (users.map (fun u => u.userName)) uDry)
        (fun x _ => userStep_oneBucket uenv _ uDry x)
        (fun p hp => absurd hp (List.not_mem_nil p))
        hun (by simp) r t hpair'
  · intro r t heq
    rw [syncGroupsImpl_eq genv groups membersMap gAllowDelete
      allowRemoveMembers gDry gbase gubase hgb hgu] at heq
    injection heq with hpair
    by_cases had : gAllowDelete = true
    · simp only [had, eq_self_iff_true, if_true] at hpair
      exact sync_run_buckets groups (fun g => g.displayName)
        (groupStep genv
          (pyDictOf (gbase.map (fun g => (g.displayName, g))))
          (pyDictOf ((gubase.filter (fun u => optTruthy u.id)).map
            (fun u => (u.userName, u.id.getD ""))))
          (pyDictOf ((gubase.filter (fun u => optTruthy u.id)).map
            (fun u => (u.id.getD "", u.userName))))
          membersMap allowRemoveMembers gDry)
        (pyDictOf (gbase.map (fun g => (g.displayName, g))))
        (groupDeleteStep genv (groups.map (fun g => g.displayName)) gDry)
        (fun x _ => groupStep_oneBucket genv _ _ _ membersMap
          allowRemoveMembers gDry x)
        (fun p _ => groupDeleteStep_shape genv _ gDry p)
        hgn (pyDictOf_keys_nodup _) r t hpair
    · have had0 : gAllowDelete = false := by
        cases gAllowDelete
        · rfl
        · exact absurd rfl had
      simp only [had0, Bool.false_eq_true, if_false] at hpair
      have hpair' : runFold
          (groupDeleteStep genv (groups.map (fun g => g.displayName)) gDry)
          (runFold (groupStep genv
            (pyDictOf (gbase.map (fun g => (g.displayName, g))))
            (pyDictOf ((gubase.filter (fun u => optTruthy u.id)).map
              (fun u => (u.userName, u.id.getD ""))))
            (pyDictOf ((gubase.filter (fun u => optTruthy u.id)).map
              (fun u => (u.id.getD "", u.userName))))
            membersMap allowRemoveMembers gDry) ({ }, []) groups)
          ([] : List (String × SCIMGroup)) = (r, t) := hpair
      exact sync_run_buckets groups (fun g => g.displayName)
        (groupStep genv
          (pyDictOf (gbase.map (fun g => (g.displayName, g))))
          (pyDictOf ((gubase.filter (fun u => optTruthy u.id)).map
            (fun u => (u.userName, u.id.getD ""))))
          (pyDictOf ((gubase.filter (fun u => optTruthy u.id)).map
            (fun u => (u.id.getD "", u.userName))))
          membersMap allowRemoveMembers gDry)
        ([] : List (String × SCIMGroup))
        (groupDeleteStep genv (groups.map (fun g => g.displayName)) gDry)
        (fun x _ => groupStep_oneBucket genv _ _ _ membersMap
          allowRemoveMembers gDry x)
        (fun p hp => absurd hp (List.not_mem_nil p))
        hgn (by simp) r t hpair'

theorem c9_buckets_disjoint_witness :
    (([aliceUser, bobUser].map (fun u => u.userName)).Nodup ∧
      ([wGroup1, wGroup2].map (fun g => g.displayName)).Nodup) ∧
    ({ created := ["alice", "bob"] } : SyncResult).bucketsOk := by
  refine ⟨⟨by decide, by decide⟩, ?_⟩
  exact (c9_buckets_disjoint envC3 [aliceUser, bobUser] false true [] rfl
      (by decide) wGroupEnv [wGroup1, wGroup2] wMembersMap true true false
      [wGroup1, wGroup2] [wUserA, wUserB, wUserC, wUserD] rfl rfl
      (by decide)).1
    { created := ["alice", "bob"] } [] (by decide)

theorem pyGet_mem {V : Type} (d : List (String × V)) (k : String) (v : V)
    (h : pyGet d k = some v) : (k, v) ∈ d := by
  unfold pyGet at h
  cases hf : d.find? (fun p => p.1 = k) with
  | none => rw [hf] at h; cases h
  | some q =>
    rw [hf] at h
    have hq := List.mem_of_find?_eq_some hf
    have hk := List.find?_some hf
    obtain ⟨a, b⟩ := q
    simp only [decide_eq_true_eq] at hk
    simp only [Option.map_some'] at h
    cases h
    cases hk
    exact hq

theorem pyDictInsert_mem {V : Type} (d : List (String × V)) (k : String)
    (v : V) (p : String × V) (h : p ∈ pyDictInsert d k v) :
    p ∈ d ∨ p = (k, v) := by
  unfold pyDictInsert at h
  by_cases ha : d.any (fun q => q.1 = k)
  · rw [if_pos ha] at h
    rcases List.mem_map.mp h with ⟨q, hq, hpq⟩
    by_cases hqk : q.1 = k
    · right
      rw [← hpq, if_pos hqk]
    · left
      rw [← hpq, if_neg hqk]
      exact hq
  · rw [if_neg ha] at h
    rcases List.mem_append.mp h with h | h
    · exact Or.inl h
    · simp at h
      exact Or.inr h

theorem pyDictOf_mem {V : Type} (l : List (String × V)) (p : String × V)
    (h : p ∈ pyDictOf l) : p ∈ l := by
  have hstep : ∀ (m : List (String × V)) (d : List (String × V)),
      p ∈ m.foldl (fun acc q => pyDictInsert acc q.1 q.2) d →
        p ∈ d ∨ p ∈ m := by
    intro m
    induction m with
    | nil => intro d hd; exact Or.inl hd
    | cons q qs ih =>
      intro d hd
      rw [List.foldl_cons] at hd
      rcases ih (pyDictInsert d q.1 q.2) hd with h1 | h1
      · rcases pyDictInsert_mem d q.1 q.2 p h1 with h2 | h2
        · exact Or.inl h2
        · right
          rw [h2]
          simp
      · right
        simp [h1]
  rcases hstep l [] h with h0 | h0
  · cases h0
  · exact h0

/-- In a failure-free directory whose baseline records all carry a truthy
id, one iteration of the user loop classifies a user identically in
dry-run and live mode. -/
theorem userStep_dry_live (env : UserSyncEnv)
    (idcUsers : List (String × SCIMUser)) (u : SCIMUser)
    (hupd : ∀ n, env.updateRes n = none)
    (hcr : ∀ n, ∃ i, env.createRes n = .ok i)
    (hid : ∀ p ∈ idcUsers, optTruthy p.2.id = true) :
    (userStep env idcUsers true u).created =
      (userStep env idcUsers false u).created ∧
    (userStep env idcUsers true u).updated =
      (userStep env idcUsers false u).updated ∧
    (userStep env idcUsers true u).unchanged =
      (userStep env idcUsers false u).unchanged ∧
    (userStep env idcUsers true u).deleted =
      (userStep env idcUsers false u).deleted ∧
    (userStep env idcUsers true u).errors =
      (userStep env idcUsers false u).errors := by
  unfold userStep
  cases hfind : pyGet idcUsers u.userName with
  | some idcUser =>
    have htr : optTruthy idcUser.id = true :=
      hid (u.userName, idcUser) (pyGet_mem _ _ _ hfind)
    by_cases hch : diffDict (u.toDict) (idcUser.toDict) = []
    · simp [hfind, hch]
    · simp [hfind, hch, htr, hupd u.userName]
  | none =>
    obtain ⟨i, hi⟩ := hcr u.userName
    simp [hfind, hi]

/-- With a never-failing delete oracle, one iteration of the user deletion
loop resolves identically in dry-run and live mode. -/
theorem userDeleteStep_dry_live (env : UserSyncEnv)
    (localNames : List String) (p : String × SCIMUser)
    (hdel : ∀ s, env.deleteRes s = none) :
    (userDeleteStep env localNames true p).created =
      (userDeleteStep env localNames false p).created ∧
    (userDeleteStep env localNames true p).updated =
      (userDeleteStep env localNames false p).updated ∧
    (userDeleteStep env localNames true p).unchanged =
      (userDeleteStep env localNames false p).unchanged ∧
    (userDeleteStep env localNames true p).deleted =
      (userDeleteStep env localNames false p).deleted ∧
    (userDeleteStep env localNames true p).errors =
      (userDeleteStep env localNames false p).errors := by
  unfold userDeleteStep
  by_cases hc : ¬ p.1 ∈ localNames ∧ optTruthy p.2.id = true
  · simp [hc, hdel (p.2.id.getD "")]
  · simp [hc]

theorem userStep_dry_calls (env : UserSyncEnv)
    (idcUsers : List (String × SCIMUser)) (u : SCIMUser) :
    (userStep env idcUsers true u).calls = [] := by
  unfold userStep
  cases hfind : pyGet idcUsers u.userName with
  | some idcUser =>
    by_cases hch : diffDict (u.toDict) (idcUser.toDict) = []
    · simp [hfind, hch]
    · simp [hfind, hch]
  | none => simp [hfind]

theorem userDeleteStep_dry_calls (env : UserSyncEnv)
    (localNames : List String) (p : String × SCIMUser) :
    (userDeleteStep env localNames true p).calls = [] := by
  unfold userDeleteStep
  by_cases hc : ¬ p.1 ∈ localNames ∧ optTruthy p.2.id = true
  · simp [hc]
  · simp [hc]

theorem ite_addGroupMembers_fst (penv : String → List String → Option String)
    (h : ∀ gid ms, penv gid ms = none) (c : Prop) [Decidable c]
    (gid : String) (l : List String) :
    (if c then addGroupMembers (penv gid) gid l
     else ((Except.ok () : Except String Unit), ([] : List Call))).1 =
      Except.ok () := by
  by_cases hc : c
  · rw [if_pos hc]
    exact addGroupMembers_ok (penv gid) gid l (fun b => h gid b)
  · rw [if_neg hc]

theorem ite_removeGroupMembers_fst
    (penv : String → List String → Option String)
    (h : ∀ gid ms, penv gid ms = none) (c : Prop) [Decidable c]
    (gid : String) (l : List String) :
    (if c then removeGroupMembers (penv gid) gid l
     else ((Except.ok () : Except String Unit), ([] : List Call))).1 =
      Except.ok () := by
  by_cases hc : c
  · rw [if_pos hc]
    exact removeGroupMembers_ok (penv gid) gid l (fun b => h gid b)
  · rw [if_neg hc]

theorem ite_addGroupMembers_fst' (penv : String → List String → Option String)
    (h : ∀ gid ms, penv gid ms = none) (c : Prop) [Decidable c]
    (gid : String) (l : List String) :
    (if c then ((Except.ok () : Except String Unit), ([] : List Call))
     else addGroupMembers (penv gid) gid l).1 = Except.ok () := by
  by_cases hc : c
  · rw [if_pos hc]
  · rw [if_neg hc]
    exact addGroupMembers_ok (penv gid) gid l (fun b => h gid b)

theorem ite_removeGroupMembers_fst'
    (penv : String → List String → Option String)
    (h : ∀ gid ms, penv gid ms = none) (c : Prop) [Decidable c]
    (gid : String) (l : List String) :
    (if c then ((Except.ok () : Except String Unit), ([] : List Call))
     else removeGroupMembers (penv gid) gid l).1 = Except.ok () := by
  by_cases hc : c
  · rw [if_pos hc]
  · rw [if_neg hc]
    exact removeGroupMembers_ok (penv gid) gid l (fun b => h gid b)

theorem addGroupMembers_fst (penv : String → List String → Option String)
    (h : ∀ gid ms, penv gid ms = none) (gid : String) (l : List String) :
    (addGroupMembers (penv gid) gid l).1 = Except.ok () :=
  addGroupMembers_ok (penv gid) gid l (fun b => h gid b)

/-- The classification a group receives from one iteration of the per-group
loop, as a function of the directory state only: it does not depend on the
dry-run flag (given never-failing mutation oracles). Tuple order: created,
updated, unchanged, deleted, errors. -/
def groupClassOf (env : GroupSyncEnv) (idcGroups : List (String × SCIMGroup))
    (userIdMap : List (String × String))
    (membersMap : List (String × List String))
    (allowRemoveMembers : Bool) (group : SCIMGroup) :
    List String × List String × List String × List String × List String :=
  let name := group.displayName
  match pyGet idcGroups name with
  | some idcGroup =>
    if ¬ optTruthy idcGroup.id then
      ([], [], [], [], [name ++ ": 组 ID 为空"])
    else
      let gid := idcGroup.id.getD ""
      let localMemberIds :=
        (resolveMembers userIdMap ((pyGet membersMap name).getD [])).1
      let currentMembers :=
        (currentMembersOf env gid (userIdMap.map (fun p => p.2))).1
      let toAdd := pySetDiff localMemberIds currentMembers
      let toRemove :=
        if allowRemoveMembers then pySetDiff currentMembers localMemberIds
        else []
      if toAdd = [] ∧ toRemove = [] then ([], [], [name], [], [])
      else ([], [name], [], [], [])
  | none => ([name], [], [], [], [])

/-- With never-failing mutation oracles, the classification produced by one
iteration of the per-group loop equals `groupClassOf`, for either value of
the dry-run flag. -/
theorem groupStep_classes (env : GroupSyncEnv)
    (idcGroups : List (String × SCIMGroup))
    (userIdMap idToName : List (String × String))
    (membersMap : List (String × List String))
    (allowRemoveMembers dryRun : Bool) (g : SCIMGroup)
    (hcr : ∀ n, ∃ gr, env.createGroupRes n = .ok gr)
    (hadd : ∀ gid ms, env.addPatchRes gid ms = none)
    (hrem : ∀ gid ms, env.removePatchRes gid ms = none) :
    ((groupStep env idcGroups userIdMap idToName membersMap
        allowRemoveMembers dryRun g).created,
     (groupStep env idcGroups userIdMap idToName membersMap
        allowRemoveMembers dryRun g).updated,
     (groupStep env idcGroups userIdMap idToName membersMap
        allowRemoveMembers dryRun g).unchanged,
     (groupStep env idcGroups userIdMap idToName membersMap
        allowRemoveMembers dryRun g).deleted,
     (groupStep env idcGroups userIdMap idToName membersMap
        allowRemoveMembers dryRun g).errors) =
      groupClassOf env idcGroups userIdMap membersMap allowRemoveMembers g := by
  unfold groupStep groupClassOf
  cases hfind : pyGet idcGroups g.displayName with
  | none =>
    simp only [hfind]
    by_cases hdr : dryRun = true
    · simp [hdr]
    · have hdr0 : dryRun = false := by
        cases dryRun
        · rfl
        · exact absurd rfl hdr
      obtain ⟨gr, hgc⟩ := hcr g.displayName
      simp only [hdr0, Bool.false_eq_true, if_false, hgc]
      split
      · simp [addGroupMembers_fst env.addPatchRes hadd]
      · simp
  | some ig =>
    simp only [hfind]
    split
    · simp
    · by_cases har : allowRemoveMembers = true
      · simp only [har, eq_self_iff_true, if_true]
        split
        · simp
        · by_cases hdr : dryRun = true
          · simp [hdr]
          · have hdr0 : dryRun = false := by
              cases dryRun
              · rfl
              · exact absurd rfl hdr
            simp [hdr0, ite_addGroupMembers_fst env.addPatchRes hadd,
              ite_removeGroupMembers_fst env.removePatchRes hrem,
              ite_addGroupMembers_fst' env.addPatchRes hadd,
              ite_removeGroupMembers_fst' env.removePatchRes hrem]
      · have har0 : allowRemoveMembers = false := by
          cases allowRemoveMembers
          · rfl
          · exact absurd rfl har
        simp only [har0, Bool.false_eq_true, if_false]
        split
        · simp
        · by_cases hdr : dryRun = true
          · simp [hdr]
          · have hdr0 : dryRun = false := by
              cases dryRun
              · rfl
              · exact absurd rfl hdr
            simp [hdr0, ite_addGroupMembers_fst env.addPatchRes hadd,
              ite_removeGroupMembers_fst env.removePatchRes hrem,
              ite_addGroupMembers_fst' env.addPatchRes hadd,
              ite_removeGroupMembers_fst' env.removePatchRes hrem]

/-- With never-failing mutation oracles, one iteration of the per-group loop
classifies a group identically in dry-run and live mode. -/
theorem groupStep_dry_live (env : GroupSyncEnv)
    (idcGroups : List (String × SCIMGroup))
    (userIdMap idToName : List (String × String))
    (membersMap : List (String × List String))
    (allowRemoveMembers : Bool) (g : SCIMGroup)
    (hcr : ∀ n, ∃ gr, env.createGroupRes n = .ok gr)
    (hadd : ∀ gid ms, env.addPatchRes gid ms = none)
    (hrem : ∀ gid ms, env.removePatchRes gid ms = none) :
    (groupStep env idcGroups userIdMap idToName membersMap
      allowRemoveMembers true g).created =
      (groupStep env idcGroups userIdMap idToName membersMap
        allowRemoveMembers false g).created ∧
    (groupStep env idcGroups userIdMap idToName membersMap
      allowRemoveMembers true g).updated =
      (groupStep env idcGroups userIdMap idToName membersMap
        allowRemoveMembers false g).updated ∧
    (groupStep env idcGroups userIdMap idToName membersMap
      allowRemoveMembers true g).unchanged =
      (groupStep env idcGroups userIdMap idToName membersMap
        allowRemoveMembers false g).unchanged ∧
    (groupStep env idcGroups userIdMap idToName membersMap
      allowRemoveMembers true g).deleted =
      (groupStep env idcGroups userIdMap idToName membersMap
        allowRemoveMembers false g).deleted ∧
    (groupStep env idcGroups userIdMap idToName membersMap
      allowRemoveMembers true g).errors =
      (groupStep env idcGroups userIdMap idToName membersMap
        allowRemoveMembers false g).errors := by
  have h1 := groupStep_classes env idcGroups userIdMap idToName membersMap
    allowRemoveMembers true g hcr hadd hrem
  have h2 := groupStep_classes env idcGroups userIdMap idToName membersMap
    allowRemoveMembers false g hcr hadd hrem
  have h := h1.trans h2.symm
  exact ⟨congrArg Prod.fst h, congrArg (fun q => q.2.1) h,
    congrArg (fun q => q.2.2.1) h, congrArg (fun q => q.2.2.2.1) h,
    congrArg (fun q => q.2.2.2.2) h⟩

/-- With a never-failing group-delete oracle, one iteration of the group
deletion loop resolves identically in dry-run and live mode. -/
theorem groupDeleteStep_dry_live (env : GroupSyncEnv)
    (localNames : List String) (p : String × SCIMGroup)
    (hdelg : ∀ s, env.deleteGroupRes s = none) :
    (groupDeleteStep env localNames true p).created =
      (groupDeleteStep env localNames false p).created ∧
    (groupDeleteStep env localNames true p).updated =
      (groupDeleteStep env localNames false p).updated ∧
    (groupDeleteStep env localNames true p).unchanged =
      (groupDeleteStep env localNames false p).unchanged ∧
    (groupDeleteStep env localNames true p).deleted =
      (groupDeleteStep env localNames false p).deleted ∧
    (groupDeleteStep env localNames true p).errors =
      (groupDeleteStep env localNames false p).errors := by
  unfold groupDeleteStep
  by_cases hc : ¬ p.1 ∈ localNames ∧ optTruthy p.2.id = true
  · simp [hc, hdelg (p.2.id.getD "")]
  · simp [hc]

theorem filter_mutating_map_query (l : List String) :
    (l.map Call.userGroupsQuery).filter Call.isMutating = [] := by
  induction l with
  | nil => rfl
  | cons x xs ih => simp [Call.isMutating, ih]

theorem filter_flatMap_nil {α β : Type} (l : List α) (f : α → List β)
    (p : β → Bool) (h : ∀ x ∈ l, (f x).filter p = []) :
    (l.flatMap f).filter p = [] := by
  induction l with
  | nil => rfl
  | cons x xs ih =>
    simp only [List.flatMap_cons, List.filter_append, h x (by simp),
      ih (fun y hy => h y (by simp [hy])), List.nil_append]

/-- A dry-run iteration of the per-group loop issues only membership
queries: every one of its calls is non-mutating. -/
theorem groupStep_dry_mutating (env : GroupSyncEnv)
    (idcGroups : List (String × SCIMGroup))
    (userIdMap idToName : List (String × String))
    (membersMap : List (String × List String))
    (allowRemoveMembers : Bool) (g : SCIMGroup) :
    (groupStep env idcGroups userIdMap idToName membersMap
      allowRemoveMembers true g).calls.filter Call.isMutating = [] := by
  unfold groupStep
  cases hfind : pyGet idcGroups g.displayName with
  | none =>
    simp only [hfind]
    simp only [if_true]
    rfl
  | some ig =>
    simp only [hfind]
    split
    · rfl
    · by_cases har : allowRemoveMembers = true
      · simp only [har, eq_self_iff_true, if_true]
        split
        · simp [currentMembersOf_calls, filter_mutating_map_query]
        · simp only [if_true]
          simp [currentMembersOf_calls, filter_mutating_map_query]
      · have har0 : allowRemoveMembers = false := by
          cases allowRemoveMembers
          · rfl
          · exact absurd rfl har
        simp only [har0, Bool.false_eq_true, if_false]
        split
        · simp [currentMembersOf_calls, filter_mutating_map_query]
        · simp only [if_true]
          simp [currentMembersOf_calls, filter_mutating_map_query]

theorem groupDeleteStep_dry_calls (env : GroupSyncEnv)
    (localNames : List String) (p : String × SCIMGroup) :
    (groupDeleteStep env localNames true p).calls = [] := by
  unfold groupDeleteStep
  by_cases hc : ¬ p.1 ∈ localNames ∧ optTruthy p.2.id = true
  · simp [hc]
  · simp [hc]

/-- Componentwise congruence of a two-phase run: when the two step functions
of each phase agree on the five classification components at every item, the
two runs' accumulated components coincide. -/
theorem runFold_phases_congr {A B : Type} (items : List A) (pairs : List B)
    (f1 f2 : A → ItemDelta) (g1 g2 : B → ItemDelta)
    (hf : ∀ x ∈ items, (f1 x).created = (f2 x).created ∧
      (f1 x).updated = (f2 x).updated ∧
      (f1 x).unchanged = (f2 x).unchanged ∧
      (f1 x).deleted = (f2 x).deleted ∧ (f1 x).errors = (f2 x).errors)
    (hg : ∀ p ∈ pairs, (g1 p).created = (g2 p).created ∧
      (g1 p).updated = (g2 p).updated ∧
      (g1 p).unchanged = (g2 p).unchanged ∧
      (g1 p).deleted = (g2 p).deleted ∧ (g1 p).errors = (g2 p).errors) :
    (runFold g1 (runFold f1 ({ }, []) items) pairs).1.created =
      (runFold g2 (runFold f2 ({ }, []) items) pairs).1.created ∧
    (runFold g1 (runFold f1 ({ }, []) items) pairs).1.updated =
      (runFold g2 (runFold f2 ({ }, []) items) pairs).1.updated ∧
    (runFold g1 (runFold f1 ({ }, []) items) pairs).1.unchanged =
      (runFold g2 (runFold f2 ({ }, []) items) pairs).1.unchanged ∧
    (runFold g1 (runFold f1 ({ }, []) items) pairs).1.deleted =
      (runFold g2 (runFold f2 ({ }, []) items) pairs).1.deleted ∧
    (runFold g1 (runFold f1 ({ }, []) items) pairs).1.errors =
      (runFold g2 (runFold f2 ({ }, []) items) pairs).1.errors := by
  refine ⟨?_, ?_, ?_, ?_, ?_⟩
  · rw [runFold_created, runFold_created, runFold_created, runFold_created,
      flatMap_congr items _ _ (fun x hx => (hf x hx).1),
      flatMap_congr pairs _ _ (fun p hp => (hg p hp).1)]
  · rw [runFold_updated, runFold_updated, runFold_updated, runFold_updated,
      flatMap_congr items _ _ (fun x hx => (hf x hx).2.1),
      flatMap_congr pairs _ _ (fun p hp => (hg p hp).2.1)]
  · rw [runFold_unchanged, runFold_unchanged, runFold_unchanged,
      runFold_unchanged,
      flatMap_congr items _ _ (fun x hx => (hf x hx).2.2.1),
      flatMap_congr pairs _ _ (fun p hp => (hg p hp).2.2.1)]
  · rw [runFold_deleted, runFold_deleted, runFold_deleted, runFold_deleted,
      flatMap_congr items _ _ (fun x hx => (hf x hx).2.2.2.1),
      flatMap_congr pairs _ _ (fun p hp => (hg p hp).2.2.2.1)]
  · rw [runFold_errors, runFold_errors, runFold_errors, runFold_errors,
      flatMap_congr items _ _ (fun x hx => (hf x hx).2.2.2.2),
      flatMap_congr pairs _ _ (fun p hp => (hg p hp).2.2.2.2)]

/-- C4 counterexample: a dry run does not produce an outcome identical to
the live run against the same directory state — creating `bob` live records
a details entry with the new server id (and a create call), while the dry
run records no details entry for him. -/
theorem c4_dry_live_counterexample :
    syncUsersImpl envC3 [bobUser] false true =
      .ok ({ created := ["bob"] }, []) ∧
    syncUsersImpl envC3 [bobUser] false false =
      .ok ({ created := ["bob"],
             details := [("bob", { idKey := some (some "id-bob") })] },
        [Call.createUser "bob"]) ∧
    ¬ (({ created := ["bob"] } : SyncResult) =
       { created := ["bob"],
         details := [("bob", { idKey := some (some "id-bob") })] }) := by
  decide

set_option maxHeartbeats 2000000 in
/-- C4 (amended): a dry run issues zero mutating transport calls (a user
sync dry run issues no calls at all; a group sync dry run issues only
membership queries), and against a failure-free directory — every
create/update/patch/delete succeeds and every baseline user carries a
truthy id — the dry run's created/updated/unchanged/deleted classification
and error sequence are identical to the live run's; the details mapping and
the call trace still differ (live creates record the new server id). -/
theorem c4_dry_run (uenv : UserSyncEnv) (users : List SCIMUser)
    (uAllowDelete : Bool) (ubase : List SCIMUser)
    (hub : uenv.listUsersRes = .ok ubase)
    (hupd : ∀ n, uenv.updateRes n = none)
    (hucr : ∀ n, ∃ i, uenv.createRes n = .ok i)
    (hudel : ∀ s, uenv.deleteRes s = none)
    (hid : ∀ u ∈ ubase, optTruthy u.id = true)
    (genv : GroupSyncEnv) (groups : List SCIMGroup)
    (membersMap : List (String × List String))
    (gAllowDelete allowRemoveMembers : Bool)
    (gbase : List SCIMGroup) (gubase : List SCIMUser)
    (hgb : genv.listGroupsRes = .ok gbase)
    (hgu : genv.listUsersRes = .ok gubase)
    (hgcr : ∀ n, ∃ gr, genv.createGroupRes n = .ok gr)
    (hgadd : ∀ gid ms, genv.addPatchRes gid ms = none)
    (hgrem : ∀ gid ms, genv.removePatchRes gid ms = none)
    (hgdel : ∀ s, genv.deleteGroupRes s = none) :
    (∀ r t, syncUsersImpl uenv users uAllowDelete true = .ok (r, t) →
      t = []) ∧
    (∀ r t, syncGroupsImpl genv groups membersMap gAllowDelete
        allowRemoveMembers true = .ok (r, t) →
      t.filter Call.isMutating = []) ∧
    (∀ rd td rl tl,
      syncUsersImpl uenv users uAllowDelete true = .ok (rd, td) →
      syncUsersImpl uenv users uAllowDelete false = .ok (rl, tl) →
      rd.created = rl.created ∧ rd.updated = rl.updated ∧
      rd.unchanged = rl.unchanged ∧ rd.deleted = rl.deleted ∧
      rd.errors = rl.errors) ∧
    (∀ rd td rl tl,
      syncGroupsImpl genv groups membersMap gAllowDelete
        allowRemoveMembers true = .ok (rd, td) →
      syncGroupsImpl genv groups membersMap gAllowDelete
        allowRemoveMembers false = .ok (rl, tl) →
      rd.created = rl.created ∧ rd.updated = rl.updated ∧
      rd.unchanged = rl.unchanged ∧ rd.deleted = rl.deleted ∧
      rd.errors = rl.errors) := by
  have hidc : ∀ p ∈ pyDictOf (ubase.map (fun u => (u.userName, u))),
      optTruthy p.2.id = true := by
    intro p hp
    rcases List.mem_map.mp (pyDictOf_mem _ p hp) with ⟨u, hu, hpe⟩
    rw [← hpe]
    exact hid u hu
  refine ⟨?_, ?_, ?_, ?_⟩
  · -- user sync dry run issues no calls
    intro r t heq
    rw [syncUsersImpl_eq uenv users uAllowDelete true ubase hub] at heq
    injection heq with hpair
    by_cases had : uAllowDelete = true
    · simp only [had, eq_self_iff_true, if_true] at hpair
      have ht : t = (runFold
          (userDeleteStep uenv (users.map (fun u => u.userName)) true)
          (runFold (userStep uenv
            (pyDictOf (ubase.map (fun u => (u.userName, u)))) true)
            ({ }, []) users)
          (pyDictOf (ubase.map (fun u => (u.userName, u))))).2 := by
        rw [hpair]
      rw [ht, runFold_calls, runFold_calls,
        flatMap_eq_nil_of_forall users _
          (fun x _ => userStep_dry_calls uenv
            (pyDictOf (ubase.map (fun u => (u.userName, u)))) x),
        flatMap_eq_nil_of_forall
          (pyDictOf (ubase.map (fun u => (u.userName, u)))) _
          (fun p _ => userDeleteStep_dry_calls uenv
            (users.map (fun u => u.userName)) p)]
      rfl
    · have had0 : uAllowDelete = false := by
        cases uAllowDelete
        · rfl
        · exact absurd rfl had
      simp only [had0, Bool.false_eq_true, if_false] at hpair
      have ht : t = (runFold (userStep uenv
          (pyDictOf (ubase.map (fun u => (u.userName, u)))) true)
          ({ }, []) users).2 := by
        rw [hpair]
      rw [ht, runFold_calls,
        flatMap_eq_nil_of_forall users _
          (fun x _ => userStep_dry_calls uenv
            (pyDictOf (ubase.map (fun u => (u.userName, u)))) x)]
      rfl
  · -- group sync dry run issues no mutating calls
    intro r t heq
    rw [syncGroupsImpl_eq genv groups membersMap gAllowDelete
      allowRemoveMembers true gbase gubase hgb hgu] at heq
    injection heq with hpair
    by_cases had : gAllowDelete = true
    · simp only [had, eq_self_iff_true, if_true] at hpair
      have ht : t = (runFold
          (groupDeleteStep genv (groups.map (fun g => g.displayName)) true)
          (runFold (groupStep genv
            (pyDictOf (gbase.map (fun g => (g.displayName, g))))
            (pyDictOf ((gubase.filter (fun u => optTruthy u.id)).map
              (fun u => (u.userName, u.id.getD ""))))
            (pyDictOf ((gubase.filter (fun u => optTruthy u.id)).map
              (fun u => (u.id.getD "", u.userName))))
            membersMap allowRemoveMembers true) ({ }, []) groups)
          (pyDictOf (gbase.map (fun g => (g.displayName, g))))).2 := by
        rw [hpair]
      rw [ht, runFold_calls, runFold_calls, List.filter_append,
        List.filter_append,
        filter_flatMap_nil groups _ Call.isMutating
          (fun x _ => groupStep_dry_mutating genv
            (pyDictOf (gbase.map (fun g => (g.displayName, g))))
            (pyDictOf ((gubase.filter (fun u => optTruthy u.id)).map
              (fun u => (u.userName, u.id.getD ""))))
            (pyDictOf ((gubase.filter (fun u => optTruthy u.id)).map
              (fun u => (u.id.getD "", u.userName))))
            membersMap allowRemoveMembers x),
        filter_flatMap_nil
          (pyDictOf (gbase.map (fun g => (g.displayName, g)))) _
          Call.isMutating
          (fun p _ => by
            rw [groupDeleteStep_dry_calls genv
              (groups.map (fun g => g.displayName)) p]
            rfl)]
      rfl
    · have had0 : gAllowDelete = false := by
        cases gAllowDelete
        · rfl
        · exact absurd rfl had
      simp only [had0, Bool.false_eq_true, if_false] at hpair
      have ht : t = (runFold (groupStep genv
          (pyDictOf (gbase.map (fun g => (g.displayName, g))))
          (pyDictOf ((gubase.filter (fun u => optTruthy u.id)).map
            (fun u => (u.userName, u.id.getD ""))))
          (pyDictOf ((gubase.filter (fun u => optTruthy u.id)).map
            (fun u => (u.id.getD "", u.userName))))
          membersMap allowRemoveMembers true) ({ }, []) groups).2 := by
        rw [hpair]
      rw [ht, runFold_calls, List.filter_append,
        filter_flatMap_nil groups _ Call.isMutating
          (fun x _ => groupStep_dry_mutating genv
            (pyDictOf (gbase.map (fun g => (g.displayName, g))))
            (pyDictOf ((gubase.filter (fun u => optTruthy u.id)).map
              (fun u => (u.userName, u.id.getD ""))))
            (pyDictOf ((gubase.filter (fun u => optTruthy u.id)).map
              (fun u => (u.id.getD "", u.userName))))
            membersMap allowRemoveMembers x)]
      rfl
  · -- user sync: dry and live classify identically
    intro rd td rl tl heqd heql
    rw [syncUsersImpl_eq uenv users uAllowDelete true ubase hub] at heqd
    rw [syncUsersImpl_eq uenv users uAllowDelete false ubase hub] at heql
    injection heqd with hpaird
    injection heql with hpairl
    by_cases had : uAllowDelete = true
    · simp only [had, eq_self_iff_true, if_true] at hpaird hpairl
      have hrd : rd = (runFold
          (userDeleteStep uenv (users.map (fun u => u.userName)) true)
          (runFold (userStep uenv
            (pyDictOf (ubase.map (fun u => (u.userName, u)))) true)
            ({ }, []) users)
          (pyDictOf (ubase.map (fun u => (u.userName, u))))).1 := by
        rw [hpaird]
      have hrl : rl = (runFold
          (userDeleteStep uenv (users.map (fun u => u.userName)) false)
          (runFold (userStep uenv
            (pyDictOf (ubase.map (fun u => (u.userName, u)))) false)
            ({ }, []) users)
          (pyDictOf (ubase.map (fun u => (u.userName, u))))).1 := by
        rw [hpairl]
      rw [hrd, hrl]
      exact runFold_phases_congr users
        (pyDictOf (ubase.map (fun u => (u.userName, u))))
        (userStep uenv (pyDictOf (ubase.map (fun u => (u.userName, u)))) true)
        (userStep uenv (pyDictOf (ubase.map (fun u => (u.userName, u)))) false)
        (userDeleteStep uenv (users.map (fun u => u.userName)) true)
        (userDeleteStep uenv (users.map (fun u => u.userName)) false)
        (fun x _ => userStep_dry_live uenv _ x hupd hucr hidc)
        (fun p _ => userDeleteStep_dry_live uenv
          (users.map (fun u => u.userName)) p hudel)
    · have had0 : uAllowDelete = false := by
        cases uAllowDelete
        · rfl
        · exact absurd rfl had
      simp only [had0, Bool.false_eq_true, if_false] at hpaird hpairl
      have hrd : rd = (runFold
          (userDeleteStep uenv (users.map (fun u => u.userName)) true)
          (runFold (userStep uenv
            (pyDictOf (ubase.map (fun u => (u.userName, u)))) true)
            ({ }, []) users)
          ([] : List (String × SCIMUser))).1 := by
        rw [runFold_nil, hpaird]
      have hrl : rl = (runFold
          (userDeleteStep uenv (users.map (fun u => u.userName)) false)
          (runFold (userStep uenv
            (pyDictOf (ubase.map (fun u => (u.userName, u)))) false)
            ({ }, []) users)
          ([] : List (String × SCIMUser))).1 := by
        rw [runFold_nil, hpairl]
      rw [hrd, hrl]
      exact runFold_phases_congr users ([] : List (String × SCIMUser))
        (userStep uenv (pyDictOf (ubase.map (fun u => (u.userName, u)))) true)
        (userStep uenv (pyDictOf (ubase.map (fun u => (u.userName, u)))) false)
        (userDeleteStep uenv (users.map (fun u => u.userName)) true)
        (userDeleteStep uenv (users.map (fun u => u.userName)) false)
        (fun x _ => userStep_dry_live uenv _ x hupd hucr hidc)
        (fun p hp => absurd hp (List.not_mem_nil p))
  · -- group sync: dry and live classify identically
    intro rd td rl tl heqd heql
    rw [syncGroupsImpl_eq genv groups membersMap gAllowDelete
      allowRemoveMembers true gbase gubase hgb hgu] at heqd
    rw [syncGroupsImpl_eq genv groups membersMap gAllowDelete
      allowRemoveMembers false gbase gubase hgb hgu] at heql
    injection heqd with hpaird
    injection heql with hpairl
    by_cases had : gAllowDelete = true
    · simp only [had, eq_self_iff_true, if_true] at hpaird hpairl
      have hrd : rd = (runFold
          (groupDeleteStep genv (groups.map (fun g => g.displayName)) true)
          (runFold (groupStep genv
            (pyDictOf (gbase.map (fun g => (g.displayName, g))))
            (pyDictOf ((gubase.filter (fun u => optTruthy u.id)).map
              (fun u => (u.userName, u.id.getD ""))))
            (pyDictOf ((gubase.filter (fun u => optTruthy u.id)).map
              (fun u => (u.id.getD "", u.userName))))
            membersMap allowRemoveMembers true) ({ }, []) groups)
          (pyDictOf (gbase.map (fun g => (g.displayName, g))))).1 := by
        rw [hpaird]
      have hrl : rl = (runFold
          (groupDeleteStep genv (groups.map (fun g => g.displayName)) false)
          (runFold (groupStep genv
            (pyDictOf (gbase.map (fun g => (g.displayName, g))))
            (pyDictOf ((gubase.filter (fun u => optTruthy u.id)).map
              (fun u => (u.userName, u.id.getD ""))))
            (pyDictOf ((gubase.filter (fun u => optTruthy u.id)).map
              (fun u => (u.id.getD "", u.userName))))
            membersMap allowRemoveMembers false) ({ }, []) groups)
          (pyDictOf (gbase.map (fun g => (g.displayName, g))))).1 := by
        rw [hpairl]
      rw [hrd, hrl]
      exact runFold_phases_congr groups
        (pyDictOf (gbase.map (fun g => (g.displayName, g))))
        (groupStep genv
          (pyDictOf (gbase.map (fun g => (g.displayName, g))))
          (pyDictOf ((gubase.filter (fun u => optTruthy u.id)).map
            (fun u => (u.userName, u.id.getD ""))))
          (pyDictOf ((gubase.filter (fun u => optTruthy u.id)).map
            (fun u => (u.id.getD "", u.userName))))
          membersMap allowRemoveMembers true)
        (groupStep genv
          (pyDictOf (gbase.map (fun g => (g.displayName, g))))
          (pyDictOf ((gubase.filter (fun u => optTruthy u.id)).map
            (fun u => (u.userName, u.id.getD ""))))
          (pyDictOf ((gubase.filter (fun u => optTruthy u.id)).map
            (fun u => (u.id.getD "", u.userName))))
          membersMap allowRemoveMembers false)
        (groupDeleteStep genv (groups.map (fun g => g.displayName)) true)
        (groupDeleteStep genv (groups.map (fun g => g.displayName)) false)
        (fun x _ => groupStep_dry_live genv _ _ _ membersMap
          allowRemoveMembers x hgcr hgadd hgrem)
        (fun p _ => groupDeleteStep_dry_live genv
          (groups.map (fun g => g.displayName)) p hgdel)
    · have had0 : gAllowDelete = false := by
        cases gAllowDelete
        · rfl
        · exact absurd rfl had
      simp only [had0, Bool.false_eq_true, if_false] at hpaird hpairl
      have hrd : rd = (runFold
          (groupDeleteStep genv (groups.map (fun g => g.displayName)) true)
          (runFold (groupStep genv
            (pyDictOf (gbase.map (fun g => (g.displayName, g))))
            (pyDictOf ((gubase.filter (fun u => optTruthy u.id)).map
              (fun u => (u.userName, u.id.getD ""))))
            (pyDictOf ((gubase.filter (fun u => optTruthy u.id)).map
              (fun u => (u.id.getD "", u.userName))))
            membersMap allowRemoveMembers true) ({ }, []) groups)
          ([] : List (String × SCIMGroup))).1 := by
        rw [runFold_nil, hpaird]
      have hrl : rl = (runFold
          (groupDeleteStep genv (groups.map (fun g => g.displayName)) false)
          (runFold (groupStep genv
            (pyDictOf (gbase.map (fun g => (g.displayName, g))))
            (pyDictOf ((gubase.filter (fun u => optTruthy u.id)).map
              (fun u => (u.userName, u.id.getD ""))))
            (pyDictOf ((gubase.filter (fun u => optTruthy u.id)).map
              (fun u => (u.id.getD "", u.userName))))
            membersMap allowRemoveMembers false) ({ }, []) groups)
          ([] : List (String × SCIMGroup))).1 := by
        rw [runFold_nil, hpairl]
      rw [hrd, hrl]
      exact runFold_phases_congr groups ([] : List (String × SCIMGroup))
        (groupStep genv
          (pyDictOf (gbase.map (fun g => (g.displayName, g))))
          (pyDictOf ((gubase.filter (fun u => optTruthy u.id)).map
            (fun u => (u.userName, u.id.getD ""))))
          (pyDictOf ((gubase.filter (fun u => optTruthy u.id)).map
            (fun u => (u.id.getD "", u.userName))))
          membersMap allowRemoveMembers true)
        (groupStep genv
          (pyDictOf (gbase.map (fun g => (g.displayName, g))))
          (pyDictOf ((gubase.filter (fun u => optTruthy u.id)).map
            (fun u => (u.userName, u.id.getD ""))))
          (pyDictOf ((gubase.filter (fun u => optTruthy u.id)).map
            (fun u => (u.id.getD "", u.userName))))
          membersMap allowRemoveMembers false)
        (groupDeleteStep genv (groups.map (fun g => g.displayName)) true)
        (groupDeleteStep genv (groups.map (fun g => g.displayName)) false)
        (fun x _ => groupStep_dry_live genv _ _ _ membersMap
          allowRemoveMembers x hgcr hgadd hgrem)
        (fun p hp => absurd hp (List.not_mem_nil p))

/-- The outcome of the deletion run used to witness the dry-run theorem. -/
def rdC4 : SyncResult :=
  { deleted := ["old"], details := [("old", { idKey := some (some "idO") })] }

theorem c4_dry_run_witness :
    (syncUsersImpl envC8w [] true true = .ok (rdC4, []) ∧
     syncUsersImpl envC8w [] true false =
       .ok (rdC4, [Call.deleteUser "idO"])) ∧
    ([] : List Call) = [] ∧
    (rdC4.created = rdC4.created ∧ rdC4.updated = rdC4.updated ∧
     rdC4.unchanged = rdC4.unchanged ∧ rdC4.deleted = rdC4.deleted ∧
     rdC4.errors = rdC4.errors) := by
  have h := c4_dry_run envC8w [] true [delUser] rfl (fun _ => rfl)
    (fun n => ⟨none, rfl⟩) (fun _ => rfl) (by decide)
    wGroupEnv [wGroup1, wGroup2] wMembersMap true true
    [wGroup1, wGroup2] [wUserA, wUserB, wUserC, wUserD] rfl rfl
    (fun n => ⟨{ displayName := n, id := some ("new-" ++ n) }, rfl⟩)
    (fun _ _ => rfl) (fun _ _ => rfl) (fun _ => rfl)
  refine ⟨⟨by decide, by decide⟩, ?_, ?_⟩
  · exact h.1 rdC4 [] (by decide)
  · exact h.2.2.1 rdC4 [] rdC4 [Call.deleteUser "idO"] (by decide) (by decide)

end AwsIdcScim
